import Mathlib

/-!
# Verification of the filedock folder/file backend

Shallow embedding of the service layer of the filedock backend
(`app/services/folder_service.py`, `app/services/file_service.py`,
`app/services/storage_service.py`) and proofs about it.

Conventions of the embedding:
* UUIDs and user ids are modelled as `Nat`; SQLAlchemy rows are structures;
  the database is a pair of lists (`DBState`).
* `HTTPException(status_code, detail)` is modelled as `ApiError`; a service
  call returns `Except ApiError α`.  Raising before `db.commit()` rolls the
  session back, so an error leaves the database state unchanged: service
  functions therefore return the successor state only in the `ok` case.
* Python truthiness tests on optional strings (`if folder_data.name:`) are
  modelled explicitly (absent or empty string both falsy).
* The unbounded recursions of the source (`_is_descendant`, the breadcrumb
  loop, `_delete_folder_contents`, slug retry loops) are given explicit fuel;
  the fuel used at call sites (the number of folders in the database) is
  proved sufficient on acyclic states.
-/

namespace FileDock

/-- A row of the `folders` table (`app/models/file.py`, class `Folder`). -/
structure Folder where
  id : Nat
  name : String
  parent : Option Nat
  created_by : Nat
deriving Repr, DecidableEq

/-- A row of the `files` table (`app/models/file.py`, class `File`). -/
structure FileRec where
  id : Nat
  original_name : String
  slug : Option String
  storage_key : String
  size : Nat
  content_type : Option String
  is_public : Bool
  description : Option String
  file_type : Option String
  tags : Option String
  folder_id : Option Nat
  uploaded_by : Nat
deriving Repr, DecidableEq

/-- The relational store: the two tables the services touch. -/
structure DBState where
  folders : List Folder
  files : List FileRec
deriving Repr, DecidableEq

/-- The acting principal (`FolderService.__init__` arguments / the
`user_id`, `is_admin` arguments of the file-service methods). -/
structure Ctx where
  user_id : Nat
  is_admin : Bool
deriving Repr, DecidableEq

/-- `fastapi.HTTPException`: a status code plus a human-readable detail. -/
structure ApiError where
  status : Nat
  detail : String
deriving Repr, DecidableEq

/-- `db.query(Folder).filter(Folder.id == i).first()`. -/
def findFolder (s : DBState) (i : Nat) : Option Folder :=
  s.folders.find? (fun g => g.id == i)

/-- The parent pointer of the folder row with id `i` (if the row exists). -/
def parentOf (s : DBState) (i : Nat) : Option Nat :=
  (findFolder s i).bind Folder.parent

/-- `n`-fold iteration of the parent pointer, starting at `x`. -/
def iterP (s : DBState) : Nat → Nat → Option Nat
  | 0, x => some x
  | n + 1, x => (parentOf s x).bind (iterP s n)

/-- `b` lies strictly below `a`: walking parent pointers up from `b`
reaches `a` in at least one step. -/
def Reaches (s : DBState) (a b : Nat) : Prop :=
  ∃ n, 1 ≤ n ∧ iterP s n b = some a

/-- The folder forest has no cycle: no id returns to itself along parent
pointers (invariant I1 of the spec). -/
def Acyclic (s : DBState) : Prop :=
  ∀ x n, 1 ≤ n → iterP s n x ≠ some x

/-- Bounded (decidable) reachability: a chain of length `1..fuel`. -/
def reachInB (s : DBState) (fuel a b : Nat) : Bool :=
  (List.range fuel).any (fun k => iterP s (k + 1) b == some a)

/-- Decidable acyclicity check, sound for `Acyclic` (see
`acyclic_of_acyclicB`). -/
def acyclicB (s : DBState) : Bool :=
  s.folders.all (fun g => !(reachInB s s.folders.length g.id g.id))

theorem findFolder_id {s : DBState} {i : Nat} {g : Folder}
    (h : findFolder s i = some g) : g.id = i := by
  have := List.find?_some h
  simpa using this

theorem findFolder_mem {s : DBState} {i : Nat} {g : Folder}
    (h : findFolder s i = some g) : g ∈ s.folders :=
  List.mem_of_find?_eq_some h

theorem iterP_add (s : DBState) (m n x : Nat) :
    iterP s (m + n) x = (iterP s m x).bind (iterP s n) := by
  induction m generalizing x with
  | zero => simp [iterP]
  | succ m ih =>
    rw [show m + 1 + n = (m + n) + 1 from by omega]
    show (parentOf s x).bind (iterP s (m + n)) = _
    cases hp : parentOf s x with
    | none => simp [iterP, hp]
    | some w => simp [iterP, hp, ih]

theorem iterP_one (s : DBState) (x : Nat) : iterP s 1 x = parentOf s x := by
  cases hp : parentOf s x <;> simp [iterP, hp]

/-- A node that still takes at least one parent step is the id of some row. -/
theorem mem_ids_of_step {s : DBState} {n x a : Nat} (hn : 1 ≤ n)
    (h : iterP s n x = some a) : x ∈ s.folders.map Folder.id := by
  obtain ⟨m, rfl⟩ : ∃ m, n = m + 1 := ⟨n - 1, by omega⟩
  rw [show iterP s (m + 1) x = (parentOf s x).bind (iterP s m) from rfl] at h
  cases hf : findFolder s x with
  | none => rw [parentOf, hf] at h; simp at h
  | some g => exact List.mem_map.mpr ⟨g, findFolder_mem hf, findFolder_id hf⟩

/-- If a parent chain is longer than the table, some id repeats, yielding a
cycle of length at most the table size at an id present in the table. -/
theorem chain_repeat {s : DBState} {n b a : Nat}
    (h : iterP s n b = some a) (hgt : s.folders.length < n) :
    ∃ y m, 1 ≤ m ∧ m ≤ s.folders.length ∧ iterP s m y = some y ∧
      y ∈ s.folders.map Folder.id := by
  set L := s.folders.length with hL
  have hsome : ∀ i, i ≤ n → ∃ y, iterP s i b = some y := by
    intro i hi
    obtain ⟨j, rfl⟩ : ∃ j, n = i + j := ⟨n - i, by omega⟩
    rw [iterP_add] at h
    cases hv : iterP s i b with
    | none => rw [hv] at h; simp at h
    | some y => exact ⟨y, rfl⟩
  have hmem : ∀ i, i < n → ∀ y, iterP s i b = some y →
      y ∈ s.folders.map Folder.id := by
    intro i hi y hy
    obtain ⟨j, rfl⟩ : ∃ j, n = i + j := ⟨n - i, by omega⟩
    rw [iterP_add, hy] at h
    simp only [Option.some_bind] at h
    exact mem_ids_of_step (by omega) h
  have hcard : (s.folders.map Folder.id).toFinset.card <
      (Finset.range (L + 1)).card := by
    have h1 : (s.folders.map Folder.id).toFinset.card ≤ L := by
      calc (s.folders.map Folder.id).toFinset.card
          ≤ (s.folders.map Folder.id).length := List.toFinset_card_le _
        _ = L := by simp [hL]
    simp only [Finset.card_range]
    omega
  have hmaps : ∀ i ∈ Finset.range (L + 1),
      (iterP s i b).getD 0 ∈ (s.folders.map Folder.id).toFinset := by
    intro i hi
    simp only [Finset.mem_range] at hi
    obtain ⟨y, hy⟩ := hsome i (by omega)
    rw [hy]
    simpa using hmem i (by omega) y hy
  obtain ⟨i, hi, j, hj, hne, heq⟩ :=
    Finset.exists_ne_map_eq_of_card_lt_of_maps_to hcard hmaps
  simp only [Finset.mem_range] at hi hj
  have key : ∀ p q, p < q → q ≤ L →
      (iterP s p b).getD 0 = (iterP s q b).getD 0 →
      ∃ y m, 1 ≤ m ∧ m ≤ L ∧ iterP s m y = some y ∧
        y ∈ s.folders.map Folder.id := by
    intro p q hpq hqL hpq_eq
    obtain ⟨yp, hyp⟩ := hsome p (by omega)
    obtain ⟨yq, hyq⟩ := hsome q (by omega)
    have hval : yp = yq := by rw [hyp, hyq] at hpq_eq; simpa using hpq_eq
    have hcyc : iterP s (q - p) yp = some yp := by
      have hq' : iterP s (p + (q - p)) b = some yq := by
        rw [show p + (q - p) = q from by omega]; exact hyq
      rw [iterP_add, hyp] at hq'
      simp only [Option.some_bind] at hq'
      rw [hq', hval]
    exact ⟨yp, q - p, by omega, by omega,
      hcyc, hmem p (by omega) yp hyp⟩
  rcases Nat.lt_or_ge i j with hij | hij
  · exact key i j hij (by omega) heq
  · exact key j i (by omega) (by omega) heq.symm

/-- In an acyclic state every successful parent chain is no longer than the
number of folder rows. -/
theorem iterP_le_length {s : DBState} (hA : Acyclic s) {n b a : Nat}
    (h : iterP s n b = some a) : n ≤ s.folders.length := by
  by_contra hgt
  push_neg at hgt
  obtain ⟨y, m, hm1, _, hcyc, _⟩ := chain_repeat h hgt
  exact hA y m hm1 hcyc

/-- Soundness of the decidable acyclicity check. -/
theorem acyclic_of_acyclicB {s : DBState} (h : acyclicB s = true) : Acyclic s := by
  intro x n hn hcyc
  set L := s.folders.length with hL
  have hshort : ∃ y m, 1 ≤ m ∧ m ≤ L ∧ iterP s m y = some y ∧
      y ∈ s.folders.map Folder.id := by
    by_cases hle : n ≤ L
    · exact ⟨x, n, hn, hle, hcyc, mem_ids_of_step hn hcyc⟩
    · exact chain_repeat hcyc (by omega)
  obtain ⟨y, m, hm1, hmL, hmc, hy⟩ := hshort
  obtain ⟨g, hg, hgid⟩ := List.mem_map.mp hy
  have hall := List.all_eq_true.mp h g hg
  simp only [Bool.not_eq_true'] at hall
  have hr : reachInB s L y y = true := by
    apply List.any_eq_true.mpr
    refine ⟨m - 1, List.mem_range.mpr (by omega), ?_⟩
    rw [show m - 1 + 1 = m from by omega]
    simpa using hmc
  rw [hgid, ← hL] at hall
  rw [hall] at hr
  exact absurd hr (by simp)

/-- `db.query(Folder).filter(Folder.parent_id == i).all()`. -/
def childrenOf (s : DBState) (i : Nat) : List Folder :=
  s.folders.filter (fun g => g.parent == some i)

/-- `FolderService._is_descendant(pid, cid)`: walk the descendant set of
`pid` looking for `cid`.  The source recursion is unbounded; `fuel` bounds
the depth and is sufficient on acyclic states (`isDescendant_complete`). -/
def isDescendant (s : DBState) : Nat → Nat → Nat → Bool
  | 0, _, _ => false
  | fuel + 1, pid, cid =>
    (childrenOf s pid).any (fun d => d.id == cid || isDescendant s fuel d.id cid)

/-- Completeness of the descendant walk: an upward parent chain from `c`
to `p` of length at most the fuel is found by the downward walk. -/
theorem isDescendant_complete {s : DBState} {n c p fuel : Nat}
    (hn : 1 ≤ n) (hfuel : n ≤ fuel) (h : iterP s n c = some p) :
    isDescendant s fuel p c = true := by
  induction n generalizing p fuel with
  | zero => omega
  | succ m ih =>
    obtain ⟨f, rfl⟩ : ∃ f, fuel = f + 1 := ⟨fuel - 1, by omega⟩
    -- split the chain at its last step
    have hsplit : iterP s (m + 1) c = (iterP s m c).bind (iterP s 1) := by
      rw [← iterP_add]
    rw [hsplit] at h
    cases hw : iterP s m c with
    | none => rw [hw] at h; simp at h
    | some w =>
      rw [hw] at h
      simp only [Option.some_bind, iterP_one] at h
      -- the row of w is a child of p
      cases hfw : findFolder s w with
      | none => rw [parentOf, hfw] at h; simp at h
      | some gw =>
        have hgwp : gw.parent = some p := by
          rw [parentOf, hfw] at h; simpa using h
        have hchild : gw ∈ childrenOf s p := by
          apply List.mem_filter.mpr
          exact ⟨findFolder_mem hfw, by simp [hgwp]⟩
        show List.any _ _ = true
        apply List.any_eq_true.mpr
        refine ⟨gw, hchild, ?_⟩
        rcases Nat.eq_zero_or_pos m with hm | hm
        · subst hm
          simp only [iterP] at hw
          have : w = c := by simpa using hw.symm
          subst this
          simp [findFolder_id hfw]
        · have : isDescendant s f gw.id c = true := by
            rw [findFolder_id hfw]
            exact ih (by omega) (by omega) hw
          simp [this]

/-! ## `FolderService.update_folder` -/

/-- The patch body (`FolderUpdate` schema): both fields optional. -/
structure FolderUpd where
  name : Option String
  parent_id : Option Nat
deriving Repr, DecidableEq

/-- Commit of the mutated ORM row: every row with the target id is
replaced by the mutated row (the SQL `UPDATE ... WHERE id = :id`). -/
def applyUpdate (s : DBState) (folder_id : Nat) (g1 : Folder) : DBState :=
  { s with folders := s.folders.map (fun g => if g.id == folder_id then g1 else g) }

/-- The duplicate-name check of `update_folder` (lines 186-198): same name,
same parent, excluding the folder itself — note there is no owner filter. -/
def dupNameExists (s : DBState) (nm : String) (pid : Option Nat) (selfId : Nat) : Bool :=
  s.folders.any (fun g => g.name == nm && g.parent == pid && g.id != selfId)

/-- The circular-reference guard of `update_folder` (lines 168-183): run
only when `parent_id` is provided; rejects self-parenting and moving under
a descendant, then mutates the ORM row's parent pointer. -/
def moveCheck (s : DBState) (folder_id : Nat) (folder : Folder) (d : FolderUpd) :
    Except ApiError Folder :=
  match d.parent_id with
  | some pid =>
    if pid == folder_id then
      .error { status := 400, detail := "Cannot move folder into itself" }
    else if isDescendant s s.folders.length folder_id pid then
      .error { status := 400, detail := "Cannot move folder into its own subfolder" }
    else .ok { folder with parent := some pid }
  | none => .ok folder

/-- The rename branch of `update_folder` (lines 185-205), ending in
`db.commit()`: `if folder_data.name:` is Python truthiness, so an absent or
empty name skips the branch. -/
def renameStep (s : DBState) (folder_id : Nat) (folder1 : Folder) (d : FolderUpd) :
    Except ApiError DBState :=
  match d.name with
  | none => .ok (applyUpdate s folder_id folder1)
  | some nm =>
    if nm = "" then .ok (applyUpdate s folder_id folder1)
    else if dupNameExists s nm folder1.parent folder_id then
      .error { status := 400, detail := "A folder with this name already exists in this location" }
    else .ok (applyUpdate s folder_id { folder1 with name := nm })

/-- `FolderService.update_folder`.  On any raised `HTTPException` the
session is rolled back, so the error case carries no successor state. -/
def updateFolder (ctx : Ctx) (s : DBState) (folder_id : Nat) (d : FolderUpd) :
    Except ApiError DBState :=
  match findFolder s folder_id with
  | none => .error { status := 404, detail := "Folder not found" }
  | some folder =>
    if !ctx.is_admin && folder.created_by != ctx.user_id then
      .error { status := 403, detail := "You do not have permission to update this folder" }
    else
      match moveCheck s folder_id folder d with
      | .error e => .error e
      | .ok folder1 => renameStep s folder_id folder1 d

/-- The database state after a call of `update_folder`: the committed state
on success, the rolled-back (unchanged) state on error. -/
def runUpdate (s : DBState) (op : Ctx × Nat × FolderUpd) : DBState :=
  match updateFolder op.1 s op.2.1 op.2.2 with
  | .ok s1 => s1
  | .error _ => s

theorem find?_map_upd_self (l : List Folder) (fid : Nat) (g1 : Folder)
    (hid : g1.id = fid) :
    (l.map (fun g => if g.id == fid then g1 else g)).find? (fun g => g.id == fid)
      = (l.find? (fun g => g.id == fid)).map (fun _ => g1) := by
  induction l with
  | nil => rfl
  | cons a l ih =>
    rw [List.map_cons, List.find?_cons, List.find?_cons]
    by_cases ha : a.id = fid
    · rw [if_pos (by simpa using ha)]
      have h1 : (g1.id == fid) = true := by simp [hid]
      have h2 : (a.id == fid) = true := by simp [ha]
      rw [h1, h2]
      rfl
    · rw [if_neg (by simpa using ha)]
      have h2 : (a.id == fid) = false := by simpa using ha
      rw [h2]
      exact ih

theorem find?_map_upd_other (l : List Folder) (fid x : Nat) (g1 : Folder)
    (hid : g1.id = fid) (hx : x ≠ fid) :
    (l.map (fun g => if g.id == fid then g1 else g)).find? (fun g => g.id == x)
      = l.find? (fun g => g.id == x) := by
  induction l with
  | nil => rfl
  | cons a l ih =>
    rw [List.map_cons, List.find?_cons, List.find?_cons]
    by_cases ha : a.id = fid
    · rw [if_pos (by simpa using ha)]
      have h1 : (g1.id == x) = false := by
        simp only [beq_eq_false_iff_ne, ne_eq, hid]
        omega
      have h2 : (a.id == x) = false := by
        simp only [beq_eq_false_iff_ne, ne_eq, ha]
        omega
      rw [h1, h2]
      exact ih
    · rw [if_neg (by simpa using ha)]
      cases hax : (a.id == x) with
      | true => rfl
      | false => exact ih

theorem findFolder_applyUpdate_self {s : DBState} {fid : Nat} {g g1 : Folder}
    (hf : findFolder s fid = some g) (hid : g1.id = fid) :
    findFolder (applyUpdate s fid g1) fid = some g1 := by
  show (s.folders.map _).find? _ = _
  rw [find?_map_upd_self s.folders fid g1 hid]
  rw [show s.folders.find? (fun g => g.id == fid) = some g from hf]
  rfl

theorem findFolder_applyUpdate_other {s : DBState} {fid x : Nat} {g1 : Folder}
    (hx : x ≠ fid) (hid : g1.id = fid) :
    findFolder (applyUpdate s fid g1) x = findFolder s x := by
  show (s.folders.map _).find? _ = _
  rw [find?_map_upd_other s.folders fid x g1 hid hx]
  rfl

theorem parentOf_applyUpdate_self {s : DBState} {fid : Nat} {g g1 : Folder}
    (hf : findFolder s fid = some g) (hid : g1.id = fid) :
    parentOf (applyUpdate s fid g1) fid = g1.parent := by
  rw [parentOf, findFolder_applyUpdate_self hf hid]
  rfl

theorem parentOf_applyUpdate_other {s : DBState} {fid x : Nat} {g1 : Folder}
    (hx : x ≠ fid) (hid : g1.id = fid) :
    parentOf (applyUpdate s fid g1) x = parentOf s x := by
  rw [parentOf, findFolder_applyUpdate_other hx hid, parentOf]

/-- If a chain in the updated state avoids the updated id at every source
node, it is a chain of the original state. -/
theorem iterP_applyUpdate_avoid {s : DBState} {fid : Nat} {g1 : Folder}
    (hid : g1.id = fid) {j z : Nat}
    (havoid : ∀ i, i < j → iterP (applyUpdate s fid g1) i z ≠ some fid) :
    iterP (applyUpdate s fid g1) j z = iterP s j z := by
  induction j generalizing z with
  | zero => rfl
  | succ j ih =>
    have hz : z ≠ fid := by
      have := havoid 0 (by omega)
      simpa [iterP] using this
    show (parentOf (applyUpdate s fid g1) z).bind _ = (parentOf s z).bind _
    rw [parentOf_applyUpdate_other hz hid]
    cases hp : parentOf s z with
    | none => rfl
    | some w =>
      simp only [Option.some_bind]
      apply ih
      intro i hi
      have := havoid (i + 1) (by omega)
      show iterP (applyUpdate s fid g1) i w ≠ some fid
      intro hcon
      apply this
      show (parentOf (applyUpdate s fid g1) z).bind _ = some fid
      rw [parentOf_applyUpdate_other hz hid, hp]
      simpa using hcon

/-- Updating a row without changing its parent pointer leaves the whole
parent relation unchanged. -/
theorem parentOf_applyUpdate_same {s : DBState} {fid : Nat} {g g1 : Folder}
    (hf : findFolder s fid = some g) (hid : g1.id = fid)
    (hpar : g1.parent = g.parent) :
    ∀ x, parentOf (applyUpdate s fid g1) x = parentOf s x := by
  intro x
  by_cases hx : x = fid
  · subst hx
    rw [parentOf_applyUpdate_self hf hid, hpar, parentOf, hf]
    rfl
  · exact parentOf_applyUpdate_other hx hid

theorem iterP_congr {s s' : DBState}
    (h : ∀ x, parentOf s' x = parentOf s x) :
    ∀ n x, iterP s' n x = iterP s n x := by
  intro n
  induction n with
  | zero => intro x; rfl
  | succ n ih =>
    intro x
    show (parentOf s' x).bind _ = (parentOf s x).bind _
    rw [h x]
    cases parentOf s x with
    | none => rfl
    | some w => simpa using ih w

/-- A name-only (or parent-preserving) update keeps the forest acyclic. -/
theorem acyclic_applyUpdate_same {s : DBState} {fid : Nat} {g g1 : Folder}
    (hA : Acyclic s) (hf : findFolder s fid = some g) (hid : g1.id = fid)
    (hpar : g1.parent = g.parent) : Acyclic (applyUpdate s fid g1) := by
  intro x n hn
  rw [iterP_congr (parentOf_applyUpdate_same hf hid hpar) n x]
  exact hA x n hn

/-- Re-pointing `fid` at a node `pid` that is neither `fid` itself nor a
descendant of `fid` keeps the forest acyclic. -/
theorem acyclic_applyUpdate_move {s : DBState} {fid pid : Nat} {g g1 : Folder}
    (hA : Acyclic s) (hf : findFolder s fid = some g) (hid : g1.id = fid)
    (hpar : g1.parent = some pid) (hne : pid ≠ fid)
    (hnr : ¬ Reaches s fid pid) : Acyclic (applyUpdate s fid g1) := by
  set s' := applyUpdate s fid g1 with hs'
  intro z n hn hcyc
  -- first reduce to a cycle through fid
  by_cases hvisit : ∃ i, i < n ∧ iterP s' i z = some fid
  · obtain ⟨i, hi, hiz⟩ := hvisit
    -- rotate the cycle to start at fid
    have hrem : iterP s' (n - i) fid = some z := by
      have := hcyc
      rw [show n = i + (n - i) from by omega, iterP_add, hiz] at this
      simpa using this
    have hcycf : iterP s' n fid = some fid := by
      rw [show n = (n - i) + i from by omega, iterP_add, hrem]
      simpa using hiz
    -- the first step of the cycle at fid goes to pid
    have hstep : parentOf s' fid = some pid := by
      rw [hs', parentOf_applyUpdate_self hf hid, hpar]
    have hrest : iterP s' (n - 1) pid = some fid := by
      have := hcycf
      rw [show n = 1 + (n - 1) from by omega, iterP_add, iterP_one, hstep] at this
      simpa using this
    -- take the first time the chain from pid visits fid
    have hex : ∃ j, iterP s' j pid = some fid := ⟨n - 1, hrest⟩
    classical
    let j := Nat.find hex
    have hj : iterP s' j pid = some fid := Nat.find_spec hex
    have hjmin : ∀ i, i < j → iterP s' i pid ≠ some fid := fun i hi => Nat.find_min hex hi
    have hj1 : 1 ≤ j := by
      rcases Nat.eq_zero_or_pos j with h0 | h1
      · exfalso
        rw [h0] at hj
        simp only [iterP] at hj
        exact hne (by simpa using hj)
      · exact h1
    have : iterP s j pid = some fid := by
      rw [← iterP_applyUpdate_avoid hid hjmin]
      exact hj
    exact hnr ⟨j, hj1, this⟩
  · push_neg at hvisit
    rw [iterP_applyUpdate_avoid hid (fun i hi => hvisit i hi)] at hcyc
    exact hA z n hn hcyc

theorem moveCheck_ok {s : DBState} {fid : Nat} {folder f1 : Folder} {d : FolderUpd}
    (h : moveCheck s fid folder d = .ok f1) :
    (d.parent_id = none ∧ f1 = folder) ∨
    ∃ pid, d.parent_id = some pid ∧ pid ≠ fid ∧
      isDescendant s s.folders.length fid pid = false ∧
      f1 = { folder with parent := some pid } := by
  cases hd : d.parent_id with
  | none =>
    simp only [moveCheck, hd, Except.ok.injEq] at h
    exact Or.inl ⟨rfl, h.symm⟩
  | some pid =>
    by_cases h1 : pid = fid
    · simp [moveCheck, hd, h1] at h
    · by_cases h2 : isDescendant s s.folders.length fid pid = true
      · simp [moveCheck, hd, h1, h2] at h
      · simp only [Bool.not_eq_true] at h2
        simp only [moveCheck, hd, beq_iff_eq, h1, if_false, h2,
          Bool.false_eq_true, Except.ok.injEq, ite_false] at h
        exact Or.inr ⟨pid, rfl, h1, h2, h.symm⟩

theorem renameStep_ok {s s1 : DBState} {fid : Nat} {f1 : Folder} {d : FolderUpd}
    (h : renameStep s fid f1 d = .ok s1) :
    ∃ g1, s1 = applyUpdate s fid g1 ∧ g1.parent = f1.parent ∧ g1.id = f1.id := by
  cases hd : d.name with
  | none =>
    simp only [renameStep, hd, Except.ok.injEq] at h
    exact ⟨f1, h.symm, rfl, rfl⟩
  | some nm =>
    by_cases h1 : nm = ""
    · simp only [renameStep, hd, h1, if_true, Except.ok.injEq, ite_true] at h
      exact ⟨f1, h.symm, rfl, rfl⟩
    · by_cases h2 : dupNameExists s nm f1.parent fid = true
      · simp [renameStep, hd, h1, h2] at h
      · simp only [Bool.not_eq_true] at h2
        simp only [renameStep, hd, h1, if_false, h2, Bool.false_eq_true,
          Except.ok.injEq, ite_false] at h
        exact ⟨{ f1 with name := nm }, h.symm, rfl, rfl⟩

/-- Any successful `update_folder` call preserves acyclicity. -/
theorem acyclic_updateFolder {ctx : Ctx} {s s1 : DBState} {fid : Nat} {d : FolderUpd}
    (hA : Acyclic s) (h : updateFolder ctx s fid d = .ok s1) : Acyclic s1 := by
  cases hff : findFolder s fid with
  | none => simp [updateFolder, hff] at h
  | some folder =>
    by_cases hacc : (!ctx.is_admin && folder.created_by != ctx.user_id) = true
    · simp [updateFolder, hff, hacc] at h
    · simp only [Bool.not_eq_true] at hacc
      cases hmv : moveCheck s fid folder d with
      | error e => simp [updateFolder, hff, hacc, hmv] at h
      | ok f1 =>
        simp only [updateFolder, hff, hacc, Bool.false_eq_true, if_false,
          hmv, ite_false] at h
        obtain ⟨g1, hs1, hg1p, hg1id⟩ := renameStep_ok h
        have hfid : folder.id = fid := findFolder_id hff
        rcases moveCheck_ok hmv with ⟨_, hf1⟩ | ⟨pid, _, hpne, hdesc, hf1⟩
        · subst hf1
          subst hs1
          exact acyclic_applyUpdate_same hA hff (by rw [hg1id, hfid]) (by rw [hg1p])
        · subst hf1
          subst hs1
          have hnr : ¬ Reaches s fid pid := by
            rintro ⟨n, hn1, hchain⟩
            have hle := iterP_le_length hA hchain
            have := isDescendant_complete hn1 hle hchain
            rw [this] at hdesc
            exact absurd hdesc (by simp)
          exact acyclic_applyUpdate_move hA hff (by rw [hg1id]; exact hfid)
            (by rw [hg1p]) hpne hnr

/-- **C1.** For every sequence of `update_folder` operations starting from an
acyclic folder forest, the parent relation never contains a cycle; and a
call of `update_folder(folder_id, data)` on an existing, access-checked
folder whose `data.parent_id` equals `folder_id` or any descendant of
`folder_id` fails with status 400 (BadRequest) and leaves every folder
row — hence every parent pointer and name — unchanged. -/
theorem claim_C1_acyclicity :
    (∀ (s : DBState) (ops : List (Ctx × Nat × FolderUpd)),
      Acyclic s → Acyclic (ops.foldl runUpdate s)) ∧
    (∀ (ctx : Ctx) (s : DBState) (fid : Nat) (d : FolderUpd) (g : Folder) (pid : Nat),
      Acyclic s → findFolder s fid = some g →
      (ctx.is_admin = true ∨ g.created_by = ctx.user_id) →
      d.parent_id = some pid → (pid = fid ∨ Reaches s fid pid) →
      ∃ e, updateFolder ctx s fid d = .error e ∧ e.status = 400 ∧
        runUpdate s (ctx, fid, d) = s) := by
  constructor
  · intro s ops hA
    induction ops generalizing s with
    | nil => exact hA
    | cons op ops ih =>
      apply ih
      show Acyclic (runUpdate s op)
      unfold runUpdate
      cases hu : updateFolder op.1 s op.2.1 op.2.2 with
      | ok s1 => exact acyclic_updateFolder hA hu
      | error e => exact hA
  · intro ctx s fid d g pid hA hff hacc hdpid hbad
    have hgate : (!ctx.is_admin && g.created_by != ctx.user_id) = false := by
      rcases hacc with h | h <;> simp [h]
    have herr : ∃ e, moveCheck s fid g d = .error e ∧ e.status = 400 := by
      by_cases hself : pid = fid
      · refine ⟨{ status := 400, detail := "Cannot move folder into itself" }, ?_, rfl⟩
        simp [moveCheck, hdpid, hself]
      · rcases hbad with hb | hreach
        · exact absurd hb hself
        · refine ⟨{ status := 400, detail := "Cannot move folder into its own subfolder" }, ?_, rfl⟩
          obtain ⟨n, hn1, hchain⟩ := hreach
          have hle := iterP_le_length hA hchain
          have hdesc := isDescendant_complete hn1 hle hchain
          simp [moveCheck, hdpid, hself, hdesc]
    obtain ⟨e, hmv, he400⟩ := herr
    refine ⟨e, ?_, he400, ?_⟩
    · simp [updateFolder, hff, hgate, hmv]
    · simp [runUpdate, updateFolder, hff, hgate, hmv]

/-- Closed witness for `claim_C1_acyclicity`: a two-folder forest
(2 under 1); moving folder 1 under its child 2 fails with status 400 and
changes nothing, and a sequence of update operations keeps acyclicity. -/
theorem claim_C1_acyclicity_witness :
    (let s : DBState := { folders := [{ id := 1, name := "a", parent := none, created_by := 7 },
                                      { id := 2, name := "b", parent := some 1, created_by := 7 }],
                          files := [] }
     Acyclic ([({ user_id := 7, is_admin := false }, 2,
        ({ name := some "c", parent_id := none } : FolderUpd))].foldl runUpdate s) ∧
     ∃ e, updateFolder { user_id := 7, is_admin := false } s 1
        { name := none, parent_id := some 2 } = .error e ∧ e.status = 400 ∧
        runUpdate s ({ user_id := 7, is_admin := false }, 1,
          ({ name := none, parent_id := some 2 } : FolderUpd)) = s) := by
  refine ⟨?_, ?_⟩
  · exact claim_C1_acyclicity.1 _ _ (acyclic_of_acyclicB (by decide))
  · exact claim_C1_acyclicity.2 { user_id := 7, is_admin := false } _ 1
      { name := none, parent_id := some 2 }
      { id := 1, name := "a", parent := none, created_by := 7 } 2
      (acyclic_of_acyclicB (by decide)) (by decide) (Or.inr rfl)
      rfl (Or.inr ⟨1, le_refl 1, by decide⟩)

/-! ## `FolderService.create_folder` -/

/-- The `FolderCreate` schema. -/
structure FolderNew where
  name : String
  parent_id : Option Nat
deriving Repr, DecidableEq

/-- Parent validation of `create_folder` (lines 27-40): run only when a
parent id is supplied (`if folder_data.parent_id:`); missing parent is 404,
a foreign parent is 403 for non-admins. -/
def createParentCheck (ctx : Ctx) (s : DBState) (pid : Option Nat) (user_id : Nat) :
    Except ApiError Unit :=
  match pid with
  | none => .ok ()
  | some p =>
    match findFolder s p with
    | none => .error { status := 404, detail := "Parent folder not found" }
    | some parent =>
      if !ctx.is_admin && parent.created_by != user_id then
        .error { status := 403, detail := "You do not have permission to create folders here" }
      else .ok ()

/-- The duplicate check of `create_folder` (lines 42-53): same name, same
parent, same owner. -/
def createDupB (s : DBState) (nm : String) (pid : Option Nat) (user_id : Nat) : Bool :=
  s.folders.any (fun g => g.name == nm && g.parent == pid && g.created_by == user_id)

/-- `FolderService.create_folder`; `new_id` models the freshly generated
UUID primary key of the inserted row. -/
def createFolder (ctx : Ctx) (s : DBState) (fc : FolderNew) (user_id new_id : Nat) :
    Except ApiError DBState :=
  match createParentCheck ctx s fc.parent_id user_id with
  | .error e => .error e
  | .ok _ =>
    if createDupB s fc.name fc.parent_id user_id then
      .error { status := 400, detail := "A folder with this name already exists in this location" }
    else
      .ok { s with folders := s.folders ++
        [{ id := new_id, name := fc.name, parent := fc.parent_id, created_by := user_id }] }

/-- **C6, counterexample.**  The claim says duplicate sibling names fail
with the Conflict kind (HTTP 409) and that a rename colliding only with a
different owner's folder is accepted.  In the code both duplicate checks
raise HTTP 400, and the rename check does not filter by owner: with
folder 1 (name "x", root, owner 1) and folder 2 (name "y", root, owner 2),
creating "x" again for owner 1 fails with status 400 ≠ 409, and owner 2
renaming folder 2 to "x" (same parent, different owner) is rejected
rather than accepted. -/
theorem claim_C6_counterexample :
    (createFolder { user_id := 1, is_admin := false }
      { folders := [{ id := 1, name := "x", parent := none, created_by := 1 },
                    { id := 2, name := "y", parent := none, created_by := 2 }], files := [] }
      { name := "x", parent_id := none } 1 3
      = .error { status := 400, detail := "A folder with this name already exists in this location" }
      ∧ (400 : Nat) ≠ 409)
    ∧ updateFolder { user_id := 2, is_admin := false }
      { folders := [{ id := 1, name := "x", parent := none, created_by := 1 },
                    { id := 2, name := "y", parent := none, created_by := 2 }], files := [] }
      2 { name := some "x", parent_id := none }
      = .error { status := 400, detail := "A folder with this name already exists in this location" } := by
  refine ⟨⟨?_, by decide⟩, ?_⟩ <;> rfl

/-- **C6, amended.**  Creating a folder whose name is already borne by a
sibling with the same owner and parent fails with HTTP 400 (BadRequest, not
409 Conflict), and is accepted when every folder bearing the name has a
different parent or different owner (given the parent check passes);
renaming a folder (parent not supplied) to a name borne by any other folder
with the same parent — regardless of owner — fails with HTTP 400, and is
accepted when every other folder bearing the name has a different parent. -/
theorem claim_C6_sibling_uniqueness :
    (∀ (ctx : Ctx) (s : DBState) (fc : FolderNew) (uid nid : Nat),
      createParentCheck ctx s fc.parent_id uid = .ok () →
      (createDupB s fc.name fc.parent_id uid = true →
        createFolder ctx s fc uid nid
          = .error { status := 400, detail := "A folder with this name already exists in this location" }) ∧
      (createDupB s fc.name fc.parent_id uid = false →
        createFolder ctx s fc uid nid
          = .ok { s with folders := s.folders ++
              [{ id := nid, name := fc.name, parent := fc.parent_id, created_by := uid }] })) ∧
    (∀ (ctx : Ctx) (s : DBState) (fid : Nat) (g : Folder) (nm : String),
      findFolder s fid = some g → (ctx.is_admin = true ∨ g.created_by = ctx.user_id) →
      nm ≠ "" →
      (dupNameExists s nm g.parent fid = true →
        updateFolder ctx s fid { name := some nm, parent_id := none }
          = .error { status := 400, detail := "A folder with this name already exists in this location" }) ∧
      (dupNameExists s nm g.parent fid = false →
        updateFolder ctx s fid { name := some nm, parent_id := none }
          = .ok (applyUpdate s fid { g with name := nm }))) := by
  constructor
  · intro ctx s fc uid nid hpc
    constructor
    · intro hdup
      simp [createFolder, hpc, hdup]
    · intro hdup
      simp [createFolder, hpc, hdup]
  · intro ctx s fid g nm hff hacc hnm
    have hgate : (!ctx.is_admin && g.created_by != ctx.user_id) = false := by
      rcases hacc with h | h <;> simp [h]
    have hmv : moveCheck s fid g { name := some nm, parent_id := none } = .ok g := rfl
    constructor
    · intro hdup
      simp [updateFolder, hff, hgate, hmv, renameStep, hnm, hdup]
    · intro hdup
      simp [updateFolder, hff, hgate, hmv, renameStep, hnm, hdup]

/-- Closed witness for `claim_C6_sibling_uniqueness`: owner 5 creates a
second "docs" folder at root (rejected, 400) and renames folder 2 to the
unused name "img" (accepted). -/
theorem claim_C6_sibling_uniqueness_witness :
    (let s : DBState := { folders := [{ id := 1, name := "docs", parent := none, created_by := 5 },
                                      { id := 2, name := "misc", parent := none, created_by := 5 }],
                          files := [] }
     createFolder { user_id := 5, is_admin := false } s { name := "docs", parent_id := none } 5 9
       = .error { status := 400, detail := "A folder with this name already exists in this location" }
     ∧ updateFolder { user_id := 5, is_admin := false } s 2 { name := some "img", parent_id := none }
       = .ok (applyUpdate s 2 { id := 2, name := "img", parent := none, created_by := 5 })) := by
  constructor
  · exact (claim_C6_sibling_uniqueness.1 { user_id := 5, is_admin := false } _
      { name := "docs", parent_id := none } 5 9 rfl).1 (by decide)
  · exact (claim_C6_sibling_uniqueness.2 { user_id := 5, is_admin := false } _
      2 { id := 2, name := "misc", parent := none, created_by := 5 } "img"
      (by decide) (Or.inr rfl) (by decide)).2 (by decide)

/-! ## `FolderService.get_breadcrumbs` -/

/-- The `FolderBreadcrumb` schema. -/
structure Crumb where
  id : Nat
  name : String
deriving Repr, DecidableEq

/-- The `while current_id:` loop of `get_breadcrumbs` (lines 252-270).
`breadcrumbs.insert(0, ...)` prepends, so the accumulator ends up ordered
from root to target.  The unreachable fuel-exhaustion branch (impossible on
acyclic states with fuel = number of folders + 1, see `walkTerm_of_acyclic`)
is an artificial 500. -/
def breadcrumbLoop (ctx : Ctx) (s : DBState) :
    Nat → Option Nat → List Crumb → Except ApiError (List Crumb)
  | _, none, acc => .ok acc
  | 0, some _, _ => .error { status := 500, detail := "loop fuel exhausted" }
  | fuel + 1, some cid, acc =>
    match findFolder s cid with
    | none => .ok acc
    | some g =>
      if !ctx.is_admin && g.created_by != ctx.user_id then
        .error { status := 403, detail := "You do not have permission to access this folder" }
      else breadcrumbLoop ctx s fuel g.parent ({ id := g.id, name := g.name } :: acc)

/-- Whether the breadcrumb walk finishes (hits a root or a dangling
reference) within the given fuel. -/
def walkTerm (s : DBState) : Nat → Option Nat → Bool
  | _, none => true
  | 0, some _ => false
  | fuel + 1, some cid =>
    match findFolder s cid with
    | none => true
    | some g => walkTerm s fuel g.parent

/-- The sequence of folder rows the walk visits, target first. -/
def ancChain (s : DBState) : Nat → Option Nat → List Folder
  | _, none => []
  | 0, some _ => []
  | fuel + 1, some cid =>
    match findFolder s cid with
    | none => []
    | some g => g :: ancChain s fuel g.parent

/-- `FolderService.get_breadcrumbs`. -/
def getBreadcrumbs (ctx : Ctx) (s : DBState) (folder_id : Nat) :
    Except ApiError (List Crumb) :=
  breadcrumbLoop ctx s (s.folders.length + 1) (some folder_id) []

theorem breadcrumbLoop_ok {ctx : Ctx} {s : DBState} {fuel : Nat} {cur : Option Nat}
    (hterm : walkTerm s fuel cur = true)
    (hown : ∀ g ∈ ancChain s fuel cur, (!ctx.is_admin && g.created_by != ctx.user_id) = false) :
    ∀ acc, breadcrumbLoop ctx s fuel cur acc
      = .ok ((ancChain s fuel cur).reverse.map (fun g => { id := g.id, name := g.name }) ++ acc) := by
  induction fuel generalizing cur with
  | zero =>
    intro acc
    cases cur with
    | none => rfl
    | some cid => simp [walkTerm] at hterm
  | succ fuel ih =>
    intro acc
    cases cur with
    | none => rfl
    | some cid =>
      cases hf : findFolder s cid with
      | none =>
        show (match findFolder s cid with | none => _ | some g => _) = _
        rw [hf]
        show Except.ok acc = _
        rw [show ancChain s (fuel + 1) (some cid)
          = (match findFolder s cid with | none => [] | some g => g :: ancChain s fuel g.parent) from rfl, hf]
        rfl
      | some g =>
        have hch : ancChain s (fuel + 1) (some cid) = g :: ancChain s fuel g.parent := by
          show (match findFolder s cid with | none => [] | some g => g :: ancChain s fuel g.parent) = _
          rw [hf]
        have hterm' : walkTerm s fuel g.parent = true := by
          rw [show walkTerm s (fuel + 1) (some cid)
            = (match findFolder s cid with | none => true | some g => walkTerm s fuel g.parent) from rfl, hf] at hterm
          exact hterm
        have hg : (!ctx.is_admin && g.created_by != ctx.user_id) = false := by
          apply hown
          rw [hch]
          exact List.mem_cons_self _ _
        show (match findFolder s cid with | none => _ | some g => _) = _
        rw [hf]
        show (if (!ctx.is_admin && g.created_by != ctx.user_id) = true then _ else _) = _
        rw [hg]
        simp only [Bool.false_eq_true, if_false]
        rw [ih hterm' (by intro g' hg'; exact hown g' (by rw [hch]; exact List.mem_cons_of_mem _ hg'))]
        rw [hch]
        simp

theorem breadcrumbLoop_forbidden {ctx : Ctx} {s : DBState} {fuel : Nat} {cur : Option Nat}
    (hadm : ctx.is_admin = false)
    (hbad : ∃ g ∈ ancChain s fuel cur, g.created_by ≠ ctx.user_id) :
    ∀ acc, ∃ e, breadcrumbLoop ctx s fuel cur acc = .error e ∧ e.status = 403 := by
  induction fuel generalizing cur with
  | zero =>
    intro acc
    cases cur with
    | none => obtain ⟨g, hg, _⟩ := hbad; simp [ancChain] at hg
    | some cid => obtain ⟨g, hg, _⟩ := hbad; simp [ancChain] at hg
  | succ fuel ih =>
    intro acc
    cases cur with
    | none => obtain ⟨g, hg, _⟩ := hbad; simp [ancChain] at hg
    | some cid =>
      cases hf : findFolder s cid with
      | none =>
        obtain ⟨g, hg, _⟩ := hbad
        rw [show ancChain s (fuel + 1) (some cid)
          = (match findFolder s cid with | none => [] | some g => g :: ancChain s fuel g.parent) from rfl, hf] at hg
        simp at hg
      | some g =>
        have hch : ancChain s (fuel + 1) (some cid) = g :: ancChain s fuel g.parent := by
          show (match findFolder s cid with | none => [] | some g => g :: ancChain s fuel g.parent) = _
          rw [hf]
        have hunf : breadcrumbLoop ctx s (fuel + 1) (some cid) acc
            = if (!ctx.is_admin && g.created_by != ctx.user_id) = true
              then Except.error ({ status := 403, detail := "You do not have permission to access this folder" } : ApiError)
              else breadcrumbLoop ctx s fuel g.parent ({ id := g.id, name := g.name } :: acc) := by
          show (match findFolder s cid with
            | none => Except.ok acc
            | some g =>
              if (!ctx.is_admin && g.created_by != ctx.user_id) = true
              then Except.error ({ status := 403, detail := "You do not have permission to access this folder" } : ApiError)
              else breadcrumbLoop ctx s fuel g.parent ({ id := g.id, name := g.name } :: acc)) = _
          rw [hf]
        rw [hunf]
        by_cases hg : (!ctx.is_admin && g.created_by != ctx.user_id) = true
        · rw [if_pos hg]
          exact ⟨{ status := 403, detail := "You do not have permission to access this folder" }, rfl, rfl⟩
        · have hgood : g.created_by = ctx.user_id := by
            simp only [hadm, Bool.not_false, Bool.true_and, bne_iff_ne, ne_eq,
              Bool.not_eq_true] at hg
            omega
          have hbad' : ∃ g' ∈ ancChain s fuel g.parent, g'.created_by ≠ ctx.user_id := by
            obtain ⟨g', hg', hne⟩ := hbad
            rw [hch] at hg'
            rcases List.mem_cons.mp hg' with h | h
            · exact absurd (h ▸ hgood) hne
            · exact ⟨g', h, hne⟩
          obtain ⟨e, he, he403⟩ := ih hbad' ({ id := g.id, name := g.name } :: acc)
          rw [if_neg hg]
          exact ⟨e, he, he403⟩

/-- In an acyclic forest no found-chain of length `L + 1` exists. -/
theorem no_long_found_chain {s : DBState} (hA : Acyclic s) (c : Nat) :
    ¬ (∀ i, i < s.folders.length + 1 →
        ∃ y g, iterP s i c = some y ∧ findFolder s y = some g) := by
  intro hall
  set L := s.folders.length with hL
  have hcard : (s.folders.map Folder.id).toFinset.card <
      (Finset.range (L + 1)).card := by
    have h1 : (s.folders.map Folder.id).toFinset.card ≤ L := by
      calc (s.folders.map Folder.id).toFinset.card
          ≤ (s.folders.map Folder.id).length := List.toFinset_card_le _
        _ = L := by simp [hL]
    simp only [Finset.card_range]
    omega
  have hmaps : ∀ i ∈ Finset.range (L + 1),
      (iterP s i c).getD 0 ∈ (s.folders.map Folder.id).toFinset := by
    intro i hi
    simp only [Finset.mem_range] at hi
    obtain ⟨y, g, hy, hg⟩ := hall i (by omega)
    rw [hy]
    simp only [Option.getD_some, List.mem_toFinset]
    exact List.mem_map.mpr ⟨g, findFolder_mem hg, findFolder_id hg⟩
  obtain ⟨i, hi, j, hj, hne, heq⟩ :=
    Finset.exists_ne_map_eq_of_card_lt_of_maps_to hcard hmaps
  simp only [Finset.mem_range] at hi hj
  have key : ∀ p q, p < q → q < L + 1 →
      (iterP s p c).getD 0 = (iterP s q c).getD 0 → False := by
    intro p q hpq hqL hpq_eq
    obtain ⟨yp, gp, hyp, _⟩ := hall p (by omega)
    obtain ⟨yq, gq, hyq, _⟩ := hall q (by omega)
    have hval : yp = yq := by rw [hyp, hyq] at hpq_eq; simpa using hpq_eq
    have hcyc : iterP s (q - p) yp = some yp := by
      have hq' : iterP s (p + (q - p)) c = some yq := by
        rw [show p + (q - p) = q from by omega]; exact hyq
      rw [iterP_add, hyp] at hq'
      simp only [Option.some_bind] at hq'
      rw [hq', hval]
    exact hA yp (q - p) (by omega) hcyc
  rcases Nat.lt_or_ge i j with hij | hij
  · exact key i j hij (by omega) heq
  · exact key j i (by omega) (by omega) heq.symm

theorem walkTerm_false_chain {s : DBState} :
    ∀ k c, walkTerm s k (some c) = false →
      (∀ i, i < k → ∃ y g, iterP s i c = some y ∧ findFolder s y = some g) ∧
      ∃ y, iterP s k c = some y := by
  intro k
  induction k with
  | zero => intro c _; exact ⟨fun i hi => absurd hi (by omega), ⟨c, rfl⟩⟩
  | succ k ih =>
    intro c hw
    rw [show walkTerm s (k + 1) (some c)
      = (match findFolder s c with | none => true | some g => walkTerm s k g.parent) from rfl] at hw
    cases hf : findFolder s c with
    | none =>
      rw [hf] at hw
      exact absurd (show (true : Bool) = false from hw) (by simp)
    | some g =>
      rw [hf] at hw
      have hw' : walkTerm s k g.parent = false := hw
      cases hp : g.parent with
      | none => rw [hp] at hw'; simp [walkTerm] at hw'
      | some p =>
        rw [hp] at hw'
        obtain ⟨hfound, y, hy⟩ := ih p hw'
        have hpc : parentOf s c = some p := by rw [parentOf, hf]; simpa using hp
        have hstep : ∀ j, iterP s (j + 1) c = iterP s j p := by
          intro j
          show (parentOf s c).bind (iterP s j) = _
          rw [hpc]
          rfl
        refine ⟨?_, ⟨y, by rw [hstep k]; exact hy⟩⟩
        intro i hi
        cases i with
        | zero => exact ⟨c, g, rfl, hf⟩
        | succ j =>
          obtain ⟨y', g', hy', hg'⟩ := hfound j (by omega)
          exact ⟨y', g', by rw [hstep j]; exact hy', hg'⟩

/-- On acyclic states the breadcrumb walk always terminates within
`number of folders + 1` iterations. -/
theorem walkTerm_of_acyclic {s : DBState} (hA : Acyclic s) (cur : Option Nat) :
    walkTerm s (s.folders.length + 1) cur = true := by
  cases cur with
  | none => rfl
  | some c =>
    by_contra hw
    simp only [Bool.not_eq_true] at hw
    obtain ⟨hfound, _⟩ := walkTerm_false_chain (s.folders.length + 1) c hw
    exact no_long_found_chain hA c (fun i hi => hfound i (by omega))

/-- **C8.** `get_breadcrumbs` walks parent references upward and returns
the visited folders ordered from root to `folder_id`; a dangling ancestor
reference silently truncates the walk, so the partial path collected so far
is returned; but if the actor is not an admin and some visited folder has a
different owner, the whole call fails with 403 Forbidden instead of
returning a partial path. -/
theorem claim_C8_breadcrumbs (ctx : Ctx) (s : DBState) (fid : Nat)
    (hA : Acyclic s) :
    ((ctx.is_admin = true ∨
        ∀ g ∈ ancChain s (s.folders.length + 1) (some fid), g.created_by = ctx.user_id) →
      getBreadcrumbs ctx s fid
        = .ok ((ancChain s (s.folders.length + 1) (some fid)).reverse.map
            (fun g => { id := g.id, name := g.name }))) ∧
    ((ctx.is_admin = false ∧
        ∃ g ∈ ancChain s (s.folders.length + 1) (some fid), g.created_by ≠ ctx.user_id) →
      ∃ e, getBreadcrumbs ctx s fid = .error e ∧ e.status = 403) := by
  constructor
  · intro hok
    have hown : ∀ g ∈ ancChain s (s.folders.length + 1) (some fid),
        (!ctx.is_admin && g.created_by != ctx.user_id) = false := by
      intro g hg
      rcases hok with h | h
      · simp [h]
      · simp [h g hg]
    have := breadcrumbLoop_ok (walkTerm_of_acyclic hA (some fid)) hown []
    rw [getBreadcrumbs, this]
    simp
  · rintro ⟨hadm, hbad⟩
    exact breadcrumbLoop_forbidden hadm hbad []

/-- Closed witness for `claim_C8_breadcrumbs`: forest 1 ← 2 owned by
user 7, folder 3 with a dangling parent 99.  Both directions are
exercised: owner 7 gets the root-to-target path for folder 2, and user 8
is rejected with 403. -/
theorem claim_C8_breadcrumbs_witness :
    (let s : DBState := { folders := [{ id := 1, name := "a", parent := none, created_by := 7 },
                                      { id := 2, name := "b", parent := some 1, created_by := 7 },
                                      { id := 3, name := "c", parent := some 99, created_by := 7 }],
                          files := [] }
     getBreadcrumbs { user_id := 7, is_admin := false } s 2
       = .ok ((ancChain s (s.folders.length + 1) (some 2)).reverse.map
           (fun g => { id := g.id, name := g.name }))
     ∧ ∃ e, getBreadcrumbs { user_id := 8, is_admin := false } s 2 = .error e ∧
         e.status = 403) := by
  constructor
  · exact (claim_C8_breadcrumbs { user_id := 7, is_admin := false } _ 2
      (acyclic_of_acyclicB (by decide))).1 (Or.inr (by decide))
  · exact (claim_C8_breadcrumbs { user_id := 8, is_admin := false } _ 2
      (acyclic_of_acyclicB (by decide))).2 ⟨rfl, by decide⟩

/-! ## `detect_file_type` (`file_service.py` lines 71-103)

The built-in `String` functions do not reduce in the kernel, so the string
operations the source uses (`str.lower`, `str.startswith`, `str.endswith`,
`in`) are modelled over the character list of the string (ASCII lowering,
which is what the inputs of interest use). -/

/-- ASCII lower-casing of one character (`str.lower`). -/
def lowerChar (c : Char) : Char :=
  if 65 ≤ c.toNat ∧ c.toNat ≤ 90 then Char.ofNat (c.toNat + 32) else c

/-- `str.lower()`. -/
def lowerStr (s : String) : String :=
  ⟨s.data.map lowerChar⟩

/-- `str.startswith(pre)`. -/
def strStartsWith (s pre : String) : Bool :=
  pre.data.isPrefixOf s.data

/-- `str.endswith(suf)`. -/
def strEndsWith (s suf : String) : Bool :=
  suf.data.isSuffixOf s.data

def infixOfB (n : List Char) : List Char → Bool
  | [] => n.isEmpty
  | c :: t => n.isPrefixOf (c :: t) || infixOfB n t

/-- Python `needle in haystack` on strings. -/
def strContains (h n : String) : Bool :=
  infixOfB n.data h.data

def imgExts : List String := [".jpg", ".jpeg", ".png", ".gif", ".webp", ".svg", ".bmp", ".ico"]

def vidExts : List String := [".mp4", ".avi", ".mov", ".mkv", ".webm", ".flv"]

def audExts : List String := [".mp3", ".wav", ".ogg", ".flac", ".aac", ".m4a"]

def docExts : List String :=
  [".pdf", ".doc", ".docx", ".xls", ".xlsx", ".ppt", ".pptx", ".txt", ".rtf",
   ".odt", ".ods", ".odp", ".csv", ".md"]

def arcExts : List String := [".zip", ".rar", ".7z", ".tar", ".gz", ".bz2"]

def extMatches (exts : List String) (fn : String) : Bool :=
  exts.any (fun e => strEndsWith fn e)

/-- `detect_file_type(content_type, filename)`: a `None` (or empty)
content type is coerced to `""`; both inputs are lower-cased; then the
category branches run in source order. -/
def detect_file_type (content_type : Option String) (filename : String) : String :=
  let ct := lowerStr (content_type.getD "")
  let fn := lowerStr filename
  if strStartsWith ct "image/" || extMatches imgExts fn then "image"
  else if strStartsWith ct "video/" || extMatches vidExts fn then "video"
  else if strStartsWith ct "audio/" || extMatches audExts fn then "audio"
  else if extMatches docExts fn then "document"
  else if strContains ct "pdf" || strContains ct "document" ||
          strContains ct "spreadsheet" || strContains ct "presentation" then "document"
  else if extMatches arcExts fn then "archive"
  else if strContains ct "zip" || strContains ct "compressed" ||
          strContains ct "archive" then "archive"
  else "other"

/-- **C9, counterexample.**  The claim gives all three content-type prefix
rules priority over the whole extension table, so a file with content type
`audio/mpeg` and filename `song.png` would be "audio"; the code checks the
image extension table inside the first branch, before ever looking at the
`audio/` prefix, and returns "image". -/
theorem claim_C9_counterexample :
    detect_file_type (some "audio/mpeg") "song.png" = "image" ∧
    "image" ≠ "audio" := by
  exact ⟨by decide, by decide⟩

/-- **C9, amended.**  `detect_file_type` applies per-category rules in
source order, each of the image/video/audio branches matching its
content-type prefix OR its own extension table: image first, then video,
then audio, then the document extension table, then document content-type
substrings, then the archive extension table, then archive content-type
substrings, and "other" when nothing matches.  In particular a file whose
extension belongs to an earlier category is categorized by the extension
even when its content-type prefix names a later category. -/
theorem claim_C9_detect_precedence (content_type : Option String) (filename : String) :
    ((strStartsWith (lowerStr (content_type.getD "")) "image/"
        || extMatches imgExts (lowerStr filename)) = true →
      detect_file_type content_type filename = "image") ∧
    ((strStartsWith (lowerStr (content_type.getD "")) "image/"
        || extMatches imgExts (lowerStr filename)) = false →
     (strStartsWith (lowerStr (content_type.getD "")) "video/"
        || extMatches vidExts (lowerStr filename)) = true →
      detect_file_type content_type filename = "video") ∧
    ((strStartsWith (lowerStr (content_type.getD "")) "image/"
        || extMatches imgExts (lowerStr filename)) = false →
     (strStartsWith (lowerStr (content_type.getD "")) "video/"
        || extMatches vidExts (lowerStr filename)) = false →
     (strStartsWith (lowerStr (content_type.getD "")) "audio/"
        || extMatches audExts (lowerStr filename)) = true →
      detect_file_type content_type filename = "audio") ∧
    ((strStartsWith (lowerStr (content_type.getD "")) "image/"
        || extMatches imgExts (lowerStr filename)) = false →
     (strStartsWith (lowerStr (content_type.getD "")) "video/"
        || extMatches vidExts (lowerStr filename)) = false →
     (strStartsWith (lowerStr (content_type.getD "")) "audio/"
        || extMatches audExts (lowerStr filename)) = false →
     (extMatches docExts (lowerStr filename)
        || (strContains (lowerStr (content_type.getD "")) "pdf"
            || strContains (lowerStr (content_type.getD "")) "document"
            || strContains (lowerStr (content_type.getD "")) "spreadsheet"
            || strContains (lowerStr (content_type.getD "")) "presentation")) = true →
      detect_file_type content_type filename = "document") ∧
    ((strStartsWith (lowerStr (content_type.getD "")) "image/"
        || extMatches imgExts (lowerStr filename)) = false →
     (strStartsWith (lowerStr (content_type.getD "")) "video/"
        || extMatches vidExts (lowerStr filename)) = false →
     (strStartsWith (lowerStr (content_type.getD "")) "audio/"
        || extMatches audExts (lowerStr filename)) = false →
     (extMatches docExts (lowerStr filename)
        || (strContains (lowerStr (content_type.getD "")) "pdf"
            || strContains (lowerStr (content_type.getD "")) "document"
            || strContains (lowerStr (content_type.getD "")) "spreadsheet"
            || strContains (lowerStr (content_type.getD "")) "presentation")) = false →
     (extMatches arcExts (lowerStr filename)
        || (strContains (lowerStr (content_type.getD "")) "zip"
            || strContains (lowerStr (content_type.getD "")) "compressed"
            || strContains (lowerStr (content_type.getD "")) "archive")) = true →
      detect_file_type content_type filename = "archive") ∧
    ((strStartsWith (lowerStr (content_type.getD "")) "image/"
        || extMatches imgExts (lowerStr filename)) = false →
     (strStartsWith (lowerStr (content_type.getD "")) "video/"
        || extMatches vidExts (lowerStr filename)) = false →
     (strStartsWith (lowerStr (content_type.getD "")) "audio/"
        || extMatches audExts (lowerStr filename)) = false →
     (extMatches docExts (lowerStr filename)
        || (strContains (lowerStr (content_type.getD "")) "pdf"
            || strContains (lowerStr (content_type.getD "")) "document"
            || strContains (lowerStr (content_type.getD "")) "spreadsheet"
            || strContains (lowerStr (content_type.getD "")) "presentation")) = false →
     (extMatches arcExts (lowerStr filename)
        || (strContains (lowerStr (content_type.getD "")) "zip"
            || strContains (lowerStr (content_type.getD "")) "compressed"
            || strContains (lowerStr (content_type.getD "")) "archive")) = false →
      detect_file_type content_type filename = "other") := by
  refine ⟨?_, ?_, ?_, ?_, ?_, ?_⟩
  · intro h1
    simp only [detect_file_type, h1, if_true]
  · intro h1 h2
    simp only [detect_file_type, h1, h2, Bool.false_eq_true, if_false, if_true]
  · intro h1 h2 h3
    simp only [detect_file_type, h1, h2, h3, Bool.false_eq_true, if_false, if_true]
  · intro h1 h2 h3 h4
    by_cases he : extMatches docExts (lowerStr filename) = true
    · simp only [detect_file_type, h1, h2, h3, he, Bool.false_eq_true, if_false, if_true]
    · simp only [Bool.not_eq_true] at he
      rw [he, Bool.false_or] at h4
      simp only [detect_file_type, h1, h2, h3, he, h4, Bool.false_eq_true, if_false, if_true]
  · intro h1 h2 h3 h4 h5
    obtain ⟨hd, hds⟩ := Bool.or_eq_false_iff.mp h4
    by_cases he : extMatches arcExts (lowerStr filename) = true
    · simp only [detect_file_type, h1, h2, h3, hd, hds, he,
        Bool.false_eq_true, if_false, if_true]
    · simp only [Bool.not_eq_true] at he
      rw [he, Bool.false_or] at h5
      simp only [detect_file_type, h1, h2, h3, hd, hds, he, h5,
        Bool.false_eq_true, if_false, if_true]
  · intro h1 h2 h3 h4 h5
    obtain ⟨hd, hds⟩ := Bool.or_eq_false_iff.mp h4
    obtain ⟨ha, has⟩ := Bool.or_eq_false_iff.mp h5
    simp only [detect_file_type, h1, h2, h3, hd, hds, ha, has,
      Bool.false_eq_true, if_false]

/-- Closed witness for `claim_C9_detect_precedence`: a `video/mp4` content
type with a neutral filename is "video", and a plain text file with no
matching extension or content type is "other". -/
theorem claim_C9_detect_precedence_witness :
    detect_file_type (some "video/mp4") "clip.bin" = "video" ∧
    detect_file_type (some "text/plain") "notes.nfo" = "other" := by
  constructor
  · exact (claim_C9_detect_precedence (some "video/mp4") "clip.bin").2.1
      (by decide) (by decide)
  · exact (claim_C9_detect_precedence (some "text/plain") "notes.nfo").2.2.2.2.2
      (by decide) (by decide) (by decide) (by decide) (by decide)

/-! ## The Slug Allocator (`generate_slug`, `file_service.py` lines 33-68)

`random.choices` / `random.choice` draws are modelled by an explicit
`RandPick` record per call; a retry loop consumes a stream of picks. -/

/-- The random draws available to one `generate_slug` call. -/
structure RandPick where
  suffix : String
  adj : String
  noun : String
  pre4 : String
deriving Repr, DecidableEq

/-- Python truthiness of an optional string (`if custom_name:`). -/
def strTruthy (o : Option String) : Bool :=
  match o with
  | none => false
  | some s => !(s == "")

/-- Python `\s` on the characters the inputs use. -/
def isWsChar (c : Char) : Bool :=
  c == ' ' || c == '\t' || c == '\n' || c == '\r' || c == Char.ofNat 11 || c == Char.ofNat 12

/-- A character kept by `re.sub(r'[^a-z0-9\s-]', '', ...)`. -/
def isSlugKeep (c : Char) : Bool :=
  (97 ≤ c.toNat && c.toNat ≤ 122) || (48 ≤ c.toNat && c.toNat ≤ 57) ||
    isWsChar c || c == '-'

/-- `str.strip()`. -/
def stripWs (l : List Char) : List Char :=
  ((l.dropWhile isWsChar).reverse.dropWhile isWsChar).reverse

/-- Run-collapsing core of `re.sub(r'X+', '-', ...)`: characters matching
`p` are replaced by one hyphen per maximal run (`inRun` tracks whether the
current run already emitted its hyphen). -/
def collapseRuns (p : Char → Bool) : Bool → List Char → List Char
  | _, [] => []
  | inRun, c :: t =>
    if p c then
      if inRun then collapseRuns p true t else '-' :: collapseRuns p true t
    else c :: collapseRuns p false t

/-- `re.sub(r'[\s_]+', '-', ...)`: each maximal whitespace/underscore run
becomes one hyphen. -/
def collapseWsRuns (l : List Char) : List Char :=
  collapseRuns (fun x => isWsChar x || x == '_') false l

/-- `re.sub(r'-+', '-', ...)`. -/
def collapseDashRuns (l : List Char) : List Char :=
  collapseRuns (fun x => x == '-') false l

/-- `str.strip('-')`. -/
def stripDash (l : List Char) : List Char :=
  ((l.dropWhile (fun c => c == '-')).reverse.dropWhile (fun c => c == '-')).reverse

/-- The name-cleaning pipeline of the "named" slug style
(lower, strip, drop foreign characters, hyphenate runs, collapse and trim
hyphens, truncate to 30 with trailing hyphens removed). -/
def cleanName (name : String) : List Char :=
  let l1 := stripWs (name.data.map lowerChar)
  let l2 := l1.filter isSlugKeep
  let l3 := collapseWsRuns l2
  let l4 := collapseDashRuns l3
  let l5 := stripDash l4
  if l5.length > 30 then ((l5.take 30).reverse.dropWhile (fun c => c == '-')).reverse
  else l5

/-- `generate_slug(name, style)` under the draws `r`.  The adjective/noun
word lists only shape which strings `r.adj`/`r.noun` range over and are not
needed by any claim. -/
def generate_slug (name : Option String) (style : String) (r : RandPick) : String :=
  if style == "readable" || !(strTruthy name) then
    r.adj ++ "-" ++ r.noun ++ "-" ++ r.suffix
  else if style == "short" then
    r.pre4 ++ "-" ++ r.suffix
  else
    let slug : String := ⟨cleanName (name.getD "")⟩
    if slug == "" then "file-" ++ r.suffix else slug ++ "-" ++ r.suffix

/-! ## File-service operations -/

/-- `db.query(File).filter(File.id == i).first()`. -/
def findFile (s : DBState) (i : Nat) : Option FileRec :=
  s.files.find? (fun f => f.id == i)

/-- `db.query(File).filter(File.slug == cand).first()` is non-empty
(rows with NULL slug never match). -/
def slugTaken (s : DBState) (cand : String) : Bool :=
  s.files.any (fun f => f.slug == some cand)

/-- The `while ... : slug = generate_slug(...)` retry loop: try successive
draws of the stream until one is globally unused.  The Python loop has no
bound; `none` models non-termination (every tried draw collided). -/
def allocSlug (s : DBState) (mk : RandPick → String) (rs : Nat → RandPick) :
    Nat → Nat → Option String
  | 0, _ => none
  | fuel + 1, i =>
    let cand := mk (rs i)
    if slugTaken s cand then allocSlug s mk rs fuel (i + 1) else some cand

/-- Commit of a mutated file row (`UPDATE files ... WHERE id = :id`). -/
def applyFileUpdate (s : DBState) (file_id : Nat) (f2 : FileRec) : DBState :=
  { s with files := s.files.map (fun x => if x.id == file_id then f2 else x) }

/-- The freshly generated `uuid4` primary key of an inserted file row,
modelled as a number larger than every existing id. -/
def freshFileId (s : DBState) : Nat :=
  (s.files.map FileRec.id).foldr max 0 + 1

/-- `original_name.rsplit('.', 1)[0]`. -/
def baseName (s : String) : String :=
  if '.' ∈ s.data then ⟨((s.data.reverse.dropWhile (fun c => !(c == '.'))).drop 1).reverse⟩
  else s

/-- Observable side effects, in issue order. -/
inductive Ev where
  | blobPut (key : String)
  | blobDel (key : String)
  | fileNew (id : Nat)
  | fileDel (id : Nat)
  | folderDel (id : Nat)
deriving Repr, DecidableEq

/-- The Blob Store (`StorageService`): the stored keys plus the keys on
which the backend raises (modelling a hard storage failure). -/
structure Blob where
  objects : List String
  failing : List String
deriving Repr, DecidableEq

/-- `StorageService.upload_file`: any backend exception becomes a 500. -/
def blobPut (b : Blob) (key : String) : Except ApiError Blob :=
  if key ∈ b.failing then .error { status := 500, detail := "Failed to upload file" }
  else .ok { b with objects := key :: b.objects }

/-- `StorageService.delete_file`: an object already absent is removed
without complaint (success); a backend exception becomes a 500. -/
def blobDelete (b : Blob) (key : String) : Except ApiError Blob :=
  if key ∈ b.failing then .error { status := 500, detail := "Failed to delete file" }
  else .ok { b with objects := b.objects.erase key }

/-- The folder validation of `upload_file` (lines 122-129): a direct
existence query, with no ownership check. -/
def uploadFolderCheck (s : DBState) (folder_id : Option Nat) : Except ApiError Unit :=
  match folder_id with
  | none => .ok ()
  | some fid =>
    match findFolder s fid with
    | none => .error { status := 404, detail := "Folder not found" }
    | some _ => .ok ()

/-- `FileService.upload_file` (lines 110-183).  `storage_key` stands for
the key from `generate_storage_key`; randomness for the slug loop comes
from the stream `rs` with retry fuel `fuel`. -/
def uploadFile (s : DBState) (b : Blob) (file_name : String) (content_type : Option String)
    (size : Nat) (is_public : Bool) (user_id : Nat)
    (custom_name descr ftype tags : Option String) (folder_id : Option Nat)
    (storage_key : String) (rs : Nat → RandPick) (fuel : Nat) :
    Except ApiError (DBState × Blob × List Ev × FileRec) :=
  match uploadFolderCheck s folder_id with
  | .error e => .error e
  | .ok _ =>
    let mk : RandPick → String := fun r =>
      if strTruthy custom_name then generate_slug custom_name "named" r
      else generate_slug none "readable" r
    let slugRes : Except ApiError (Option String) :=
      if is_public then
        match allocSlug s mk rs fuel 0 with
        | none => .error { status := 500, detail := "slug retry loop does not terminate" }
        | some sl => .ok (some sl)
      else .ok none
    match slugRes with
    | .error e => .error e
    | .ok slug =>
      let detected : Option String :=
        if strTruthy ftype then ftype else some (detect_file_type content_type file_name)
      match blobPut b storage_key with
      | .error e => .error e
      | .ok b1 =>
        let rec0 : FileRec :=
          { id := freshFileId s, original_name := file_name, slug := slug,
            storage_key := storage_key, size := size, content_type := content_type,
            is_public := is_public, description := descr, file_type := detected,
            tags := tags, folder_id := folder_id, uploaded_by := user_id }
        .ok ({ s with files := s.files ++ [rec0] }, b1,
          [Ev.blobPut storage_key, Ev.fileNew rec0.id], rec0)

/-- The shared `if description is not None: ...` patch block of
`update_file` and `update_file_visibility` (`is not None`, so an empty
string is applied). -/
def metaPatch (f1 : FileRec) (descr tags ftype : Option String) : FileRec :=
  let f2 := match descr with | none => f1 | some d => { f1 with description := some d }
  let f3 := match tags with | none => f2 | some t => { f2 with tags := some t }
  match ftype with | none => f3 | some ty => { f3 with file_type := some ty }

theorem metaPatch_fields (f1 : FileRec) (descr tags ftype : Option String) :
    (metaPatch f1 descr tags ftype).slug = f1.slug ∧
    (metaPatch f1 descr tags ftype).is_public = f1.is_public ∧
    (metaPatch f1 descr tags ftype).id = f1.id := by
  cases descr <;> cases tags <;> cases ftype <;> exact ⟨rfl, rfl, rfl⟩

/-- `FileService.update_file` (lines 368-395): metadata-only patch. -/
def updateFile (s : DBState) (file_id : Nat) (descr tags ftype : Option String)
    (user_id : Nat) (is_admin : Bool) : Except ApiError (DBState × FileRec) :=
  match findFile s file_id with
  | none => .error { status := 404, detail := "File not found" }
  | some f =>
    if !is_admin && f.uploaded_by != user_id then
      .error { status := 403, detail := "You do not have permission to update this file" }
    else
      let f3 := metaPatch f descr tags ftype
      .ok (applyFileUpdate s file_id f3, f3)

/-- The base of the slug `update_file_visibility` computes (line 428):
`custom_name if custom_name else original_name.rsplit('.', 1)[0]`. -/
def visBase (f : FileRec) (custom_name : Option String) : String :=
  if strTruthy custom_name then custom_name.getD "" else baseName f.original_name

/-- `FileService.update_file_visibility` (lines 397-453).  Note the slug is
generated with `style='readable'` — the computed base name is passed but
that style ignores it. -/
def updateFileVisibility (s : DBState) (file_id : Nat) (is_public : Option Bool)
    (descr tags ftype custom_name : Option String) (user_id : Nat) (is_admin : Bool)
    (rs : Nat → RandPick) (fuel : Nat) : Except ApiError (DBState × FileRec) :=
  match findFile s file_id with
  | none => .error { status := 404, detail := "File not found" }
  | some f =>
    if !is_admin && f.uploaded_by != user_id then
      .error { status := 403, detail := "You do not have permission to update this file" }
    else
      let visRes : Except ApiError FileRec :=
        match is_public with
        | none => .ok f
        | some true =>
          if !f.is_public then
            match allocSlug s (fun r => generate_slug (some (visBase f custom_name)) "readable" r) rs fuel 0 with
            | none => .error { status := 500, detail := "slug retry loop does not terminate" }
            | some sl => .ok { f with slug := some sl, is_public := true }
          else .ok f
        | some false =>
          if f.is_public then .ok { f with slug := none, is_public := false }
          else .ok f
      match visRes with
      | .error e => .error e
      | .ok f1 =>
        let f4 := metaPatch f1 descr tags ftype
        .ok (applyFileUpdate s file_id f4, f4)

/-- `FileService.delete_file` (lines 342-366).  The blob state and the
event trace are threaded through even on failure (a raised exception rolls
the uncommitted record deletion back but not blob-store effects). -/
def deleteFile (s : DBState) (b : Blob) (file_id user_id : Nat) (is_admin : Bool) :
    (Except ApiError DBState) × Blob × List Ev :=
  match findFile s file_id with
  | none => (.error { status := 404, detail := "File not found" }, b, [])
  | some f =>
    if !is_admin && f.uploaded_by != user_id then
      (.error { status := 403, detail := "You do not have permission to delete this file" }, b, [])
    else
      match blobDelete b f.storage_key with
      | .error e => (.error e, b, [])
      | .ok b1 =>
        (.ok { s with files := s.files.filter (fun x => x.id != f.id) }, b1,
          [Ev.blobDel f.storage_key, Ev.fileDel f.id])

/-- Whether a service call succeeded. -/
def isOkE {α : Type} (r : Except ApiError α) : Bool :=
  match r with
  | .ok _ => true
  | .error _ => false

/-- **C4.** `delete_file` on an existing file whose actor passes the
owner-or-admin check: a hard storage failure aborts with that 500 error and
leaves the file record and the blob store untouched; otherwise the blob is
deleted before the record (event order), and a blob that is already absent
is treated as success — the record deletion still proceeds and the store is
left as it was. -/
theorem claim_C4_delete_file_atomic (s : DBState) (b : Blob) (fid uid : Nat)
    (adm : Bool) (f : FileRec) (hf : findFile s fid = some f)
    (hacc : adm = true ∨ f.uploaded_by = uid) :
    (f.storage_key ∈ b.failing →
      ∃ e, deleteFile s b fid uid adm = (.error e, b, []) ∧ e.status = 500) ∧
    (f.storage_key ∉ b.failing →
      deleteFile s b fid uid adm =
        (.ok { s with files := s.files.filter (fun x => x.id != f.id) },
         { b with objects := b.objects.erase f.storage_key },
         [Ev.blobDel f.storage_key, Ev.fileDel f.id])) ∧
    (f.storage_key ∉ b.failing → f.storage_key ∉ b.objects →
      deleteFile s b fid uid adm =
        (.ok { s with files := s.files.filter (fun x => x.id != f.id) }, b,
         [Ev.blobDel f.storage_key, Ev.fileDel f.id])) := by
  have hgate : (!adm && f.uploaded_by != uid) = false := by
    rcases hacc with h | h <;> simp [h]
  refine ⟨?_, ?_, ?_⟩
  · intro hfail
    refine ⟨{ status := 500, detail := "Failed to delete file" }, ?_, rfl⟩
    simp [deleteFile, hf, hgate, blobDelete, hfail]
  · intro hfail
    simp [deleteFile, hf, hgate, blobDelete, hfail]
  · intro hfail habs
    simp [deleteFile, hf, hgate, blobDelete, hfail, List.erase_of_not_mem habs]

/-- Closed witness for `claim_C4_delete_file_atomic`: one file with key
"k"; a failing backend leaves everything unchanged, a healthy backend with
the key present deletes blob then record, and one with the key absent
still succeeds. -/
theorem claim_C4_delete_file_atomic_witness :
    ((∃ e, deleteFile
        { folders := [],
          files := [{ id := 1, original_name := "a.txt", slug := none, storage_key := "k",
                      size := 3, content_type := none, is_public := false, description := none,
                      file_type := none, tags := none, folder_id := none, uploaded_by := 4 }] }
        { objects := ["k"], failing := ["k"] } 1 4 false
        = (.error e, { objects := ["k"], failing := ["k"] }, []) ∧ e.status = 500) ∧
     deleteFile
        { folders := [],
          files := [{ id := 1, original_name := "a.txt", slug := none, storage_key := "k",
                      size := 3, content_type := none, is_public := false, description := none,
                      file_type := none, tags := none, folder_id := none, uploaded_by := 4 }] }
        { objects := ["k"], failing := [] } 1 4 false
        = (.ok { folders := [], files := [] }, { objects := [], failing := [] },
           [Ev.blobDel "k", Ev.fileDel 1]) ∧
     deleteFile
        { folders := [],
          files := [{ id := 1, original_name := "a.txt", slug := none, storage_key := "k",
                      size := 3, content_type := none, is_public := false, description := none,
                      file_type := none, tags := none, folder_id := none, uploaded_by := 4 }] }
        { objects := [], failing := [] } 1 4 false
        = (.ok { folders := [], files := [] }, { objects := [], failing := [] },
           [Ev.blobDel "k", Ev.fileDel 1])) := by
  refine ⟨?_, ?_, ?_⟩
  · exact (claim_C4_delete_file_atomic _ { objects := ["k"], failing := ["k"] } 1 4 false
      { id := 1, original_name := "a.txt", slug := none, storage_key := "k",
        size := 3, content_type := none, is_public := false, description := none,
        file_type := none, tags := none, folder_id := none, uploaded_by := 4 }
      (by decide) (Or.inr rfl)).1 (by decide)
  · exact (claim_C4_delete_file_atomic _ { objects := ["k"], failing := [] } 1 4 false
      { id := 1, original_name := "a.txt", slug := none, storage_key := "k",
        size := 3, content_type := none, is_public := false, description := none,
        file_type := none, tags := none, folder_id := none, uploaded_by := 4 }
      (by decide) (Or.inr rfl)).2.1 (by decide)
  · exact (claim_C4_delete_file_atomic _ { objects := [], failing := [] } 1 4 false
      { id := 1, original_name := "a.txt", slug := none, storage_key := "k",
        size := 3, content_type := none, is_public := false, description := none,
        file_type := none, tags := none, folder_id := none, uploaded_by := 4 }
      (by decide) (Or.inr rfl)).2.2 (by decide) (by decide)

/-- **C7, counterexample.**  The claim says `upload_file` propagates
Forbidden when a non-admin actor does not own the target folder.  The code
(file_service.py lines 122-129) checks only that the folder exists — it
queries the Folder table directly, receives no admin flag at all, and
performs no ownership comparison: user 1 uploading into folder 1, which is
owned by user 2, succeeds instead of failing Forbidden. -/
theorem claim_C7_counterexample :
    isOkE (uploadFile
      { folders := [{ id := 1, name := "a", parent := none, created_by := 2 }], files := [] }
      { objects := [], failing := [] }
      "f.txt" (some "text/plain") 3 false 1 none none none none (some 1) "k1"
      (fun _ => { suffix := "ab12", adj := "swift", noun := "star", pre4 := "cdef" }) 4) = true
    ∧ (2 : Nat) ≠ 1 := by
  exact ⟨by decide, by decide⟩

/-- **C7, amended.**  `upload_file` with a `folder_id` validates only that
the folder exists, by a direct query — it fails 404 NotFound when the
folder is missing and performs no ownership check at all (no Forbidden can
arise from the folder); only after that validation does it write the blob
and then create the record (event order blob-put, then record-insert). -/
theorem claim_C7_upload_folder_validation :
    (∀ (s : DBState) (b : Blob) (fn : String) (ct : Option String) (size : Nat)
       (pub : Bool) (uid : Nat) (cn dsc ft tg : Option String) (fid : Nat)
       (key : String) (rs : Nat → RandPick) (fuel : Nat),
      findFolder s fid = none →
      uploadFile s b fn ct size pub uid cn dsc ft tg (some fid) key rs fuel
        = .error { status := 404, detail := "Folder not found" }) ∧
    (∀ (s : DBState) (b : Blob) (fn : String) (ct : Option String) (size : Nat)
       (uid : Nat) (cn dsc ft tg : Option String) (fid : Nat) (g : Folder)
       (key : String) (rs : Nat → RandPick) (fuel : Nat),
      findFolder s fid = some g →
      key ∉ b.failing →
      ∃ rec0, uploadFile s b fn ct size false uid cn dsc ft tg (some fid) key rs fuel
          = .ok ({ s with files := s.files ++ [rec0] },
                 { b with objects := key :: b.objects },
                 [Ev.blobPut key, Ev.fileNew rec0.id], rec0)
        ∧ rec0.uploaded_by = uid ∧ rec0.folder_id = some fid
        ∧ rec0.storage_key = key ∧ rec0.is_public = false ∧ rec0.slug = none) := by
  constructor
  · intro s b fn ct size pub uid cn dsc ft tg fid key rs fuel hnf
    simp [uploadFile, uploadFolderCheck, hnf]
  · intro s b fn ct size uid cn dsc ft tg fid g key rs fuel hff hkey
    refine ⟨{ id := freshFileId s, original_name := fn, slug := none, storage_key := key,
              size := size, content_type := ct, is_public := false, description := dsc,
              file_type := if strTruthy ft then ft else some (detect_file_type ct fn),
              tags := tg, folder_id := some fid, uploaded_by := uid },
            ?_, rfl, rfl, rfl, rfl, rfl⟩
    simp [uploadFile, uploadFolderCheck, hff, blobPut, hkey]

/-- Closed witness for `claim_C7_upload_folder_validation`: uploading into
the missing folder 9 fails 404; uploading into folder 1 — owned by a
different user — succeeds with the blob written before the record. -/
theorem claim_C7_upload_folder_validation_witness :
    (let s : DBState := { folders := [{ id := 1, name := "a", parent := none, created_by := 2 }],
                          files := [] }
     let rs : Nat → RandPick := fun _ => { suffix := "ab12", adj := "swift", noun := "star", pre4 := "cdef" }
     uploadFile s { objects := [], failing := [] } "f.txt" none 3 false 1
         none none none none (some 9) "k1" rs 4
       = .error { status := 404, detail := "Folder not found" }
     ∧ ∃ rec0, uploadFile s { objects := [], failing := [] } "f.txt" none 3 false 1
         none none none none (some 1) "k1" rs 4
       = .ok ({ s with files := s.files ++ [rec0] }, { objects := ["k1"], failing := [] },
              [Ev.blobPut "k1", Ev.fileNew rec0.id], rec0)
       ∧ rec0.uploaded_by = 1 ∧ rec0.folder_id = some 1
       ∧ rec0.storage_key = "k1" ∧ rec0.is_public = false ∧ rec0.slug = none) := by
  constructor
  · exact claim_C7_upload_folder_validation.1 _ _ "f.txt" none 3 false 1
      none none none none 9 "k1" _ 4 (by decide)
  · exact claim_C7_upload_folder_validation.2 _ _ "f.txt" none 3 1
      none none none none 1 { id := 1, name := "a", parent := none, created_by := 2 }
      "k1" _ 4 (by decide) (by decide)

/-- **C5 (code bug).**  `update_file_visibility` computes the base name
from `custom_name` (else the original name stripped of its extension) but
then calls `generate_slug(base_name, style='readable')`, and the readable
style ignores its name argument entirely: making `report.pdf` public with
`custom_name="My Report"` yields an adjective-noun slug
(`swift-star-ab12` under the given draws), not a slug prefixed by the
cleaned base name — which the "named" style, shown alongside, would have
produced (`my-report-ab12`). -/
theorem claim_C5_visibility_slug_ignores_name :
    updateFileVisibility
      { folders := [],
        files := [{ id := 1, original_name := "report.pdf", slug := none,
                    storage_key := "k1", size := 5, content_type := some "application/pdf",
                    is_public := false, description := none, file_type := none,
                    tags := none, folder_id := none, uploaded_by := 4 }] }
      1 (some true) none none none (some "My Report") 4 false
      (fun _ => { suffix := "ab12", adj := "swift", noun := "star", pre4 := "cdef" }) 3
    = .ok
      ({ folders := [],
         files := [{ id := 1, original_name := "report.pdf", slug := some "swift-star-ab12",
                     storage_key := "k1", size := 5, content_type := some "application/pdf",
                     is_public := true, description := none, file_type := none,
                     tags := none, folder_id := none, uploaded_by := 4 }] },
       { id := 1, original_name := "report.pdf", slug := some "swift-star-ab12",
         storage_key := "k1", size := 5, content_type := some "application/pdf",
         is_public := true, description := none, file_type := none,
         tags := none, folder_id := none, uploaded_by := 4 })
    ∧ generate_slug (some "My Report") "named"
        { suffix := "ab12", adj := "swift", noun := "star", pre4 := "cdef" } = "my-report-ab12"
    ∧ ("swift-star-ab12" : String) ≠ "my-report-ab12"
    ∧ visBase { id := 1, original_name := "report.pdf", slug := none, storage_key := "k1",
                size := 5, content_type := some "application/pdf", is_public := false,
                description := none, file_type := none, tags := none, folder_id := none,
                uploaded_by := 4 } (some "My Report") = "My Report" := by
  refine ⟨rfl, by decide, by decide, by decide⟩

/-! ## C3: the slug invariant -/

/-- Two file rows never hold the same slug. -/
def SlugDistinct (f g : FileRec) : Prop :=
  ∀ x, f.slug = some x → g.slug ≠ some x

/-- Invariant I3 of the spec: a slug is present iff the file is public, and
slugs are pairwise distinct. -/
def SlugInv (s : DBState) : Prop :=
  (∀ f ∈ s.files, f.is_public = true ↔ f.slug.isSome = true) ∧
  s.files.Pairwise SlugDistinct

/-- Well-formedness of the files table: unique primary keys (the DB
guarantees them) plus the slug invariant. -/
def FilesWF (s : DBState) : Prop :=
  (s.files.map FileRec.id).Nodup ∧ SlugInv s

theorem findFile_id {s : DBState} {i : Nat} {f : FileRec}
    (h : findFile s i = some f) : f.id = i := by
  have := List.find?_some h
  simpa using this

theorem findFile_mem {s : DBState} {i : Nat} {f : FileRec}
    (h : findFile s i = some f) : f ∈ s.files :=
  List.mem_of_find?_eq_some h

theorem findFile_unique {s : DBState} {i : Nat} {f : FileRec}
    (hnd : (s.files.map FileRec.id).Nodup) (h : findFile s i = some f)
    {a : FileRec} (ha : a ∈ s.files) (hai : a.id = i) : a = f := by
  exact List.inj_on_of_nodup_map hnd ha (findFile_mem h) (by rw [hai, findFile_id h])

theorem slugTaken_false {s : DBState} {cand : String}
    (h : slugTaken s cand = false) : ∀ g ∈ s.files, g.slug ≠ some cand := by
  intro g hg
  have := List.any_eq_false.mp h g hg
  simpa using this

theorem allocSlug_spec {s : DBState} {mk : RandPick → String} {rs : Nat → RandPick} :
    ∀ {fuel i cand}, allocSlug s mk rs fuel i = some cand →
      slugTaken s cand = false ∧ ∃ j, cand = mk (rs j) := by
  intro fuel
  induction fuel with
  | zero => intro i cand h; simp [allocSlug] at h
  | succ fuel ih =>
    intro i cand h
    rw [allocSlug] at h
    by_cases ht : slugTaken s (mk (rs i)) = true
    · rw [if_pos ht] at h
      exact ih h
    · rw [if_neg ht] at h
      simp only [Option.some.injEq] at h
      subst h
      exact ⟨by simpa using ht, i, rfl⟩

theorem le_foldr_max {l : List Nat} {a : Nat} (ha : a ∈ l) :
    a ≤ l.foldr max 0 := by
  induction l with
  | nil => simp at ha
  | cons x t ih =>
    rw [List.foldr_cons]
    rcases List.mem_cons.mp ha with h | h
    · subst h; exact le_max_left _ _
    · exact le_trans (ih h) (le_max_right _ _)

theorem freshFileId_not_mem (s : DBState) :
    freshFileId s ∉ s.files.map FileRec.id := by
  intro hmem
  have h1 := le_foldr_max hmem
  have h2 : freshFileId s = (s.files.map FileRec.id).foldr max 0 + 1 := rfl
  omega

theorem ids_applyFileUpdate {s : DBState} {fid : Nat} {f2 : FileRec}
    (hid : f2.id = fid) :
    (applyFileUpdate s fid f2).files.map FileRec.id = s.files.map FileRec.id := by
  show (s.files.map _).map _ = _
  rw [List.map_map]
  apply List.map_congr_left
  intro a _
  show (if a.id == fid then f2 else a).id = a.id
  by_cases ha : a.id = fid
  · rw [if_pos (by simpa using ha), hid, ha]
  · rw [if_neg (by simpa using ha)]

theorem mem_applyFileUpdate {s : DBState} {fid : Nat} {f2 g' : FileRec}
    (hg' : g' ∈ (applyFileUpdate s fid f2).files) :
    g' = f2 ∨ g' ∈ s.files := by
  obtain ⟨g, hg, hgeq⟩ := List.mem_map.mp hg'
  by_cases ha : g.id = fid
  · left; rw [← hgeq, if_pos (by simpa using ha)]
  · right; rw [← hgeq, if_neg (by simpa using ha)]; exact hg

/-- Replacing the (unique) row `fid` with a row whose slug is unchanged,
cleared, or globally fresh preserves the slug invariant. -/
theorem slugInv_applyFileUpdate {s : DBState} {fid : Nat} {f f2 : FileRec}
    (hnd : (s.files.map FileRec.id).Nodup)
    (hf : findFile s fid = some f)
    (hiff2 : f2.is_public = true ↔ f2.slug.isSome = true)
    (hok : (f2.slug = f.slug) ∨ (f2.slug = none) ∨
      (∃ cand, f2.slug = some cand ∧ slugTaken s cand = false))
    (hinv : SlugInv s) : SlugInv (applyFileUpdate s fid f2) := by
  constructor
  · intro g' hg'
    rcases mem_applyFileUpdate hg' with h | h
    · subst h; exact hiff2
    · exact hinv.1 g' h
  · show (s.files.map _).Pairwise SlugDistinct
    rw [List.pairwise_map]
    have hndl : s.files.Nodup := List.Nodup.of_map _ hnd
    have hcomb : s.files.Pairwise (fun a b => a ≠ b ∧ SlugDistinct a b) :=
      List.Pairwise.and hndl hinv.2
    apply List.Pairwise.imp_of_mem ?_ hcomb
    intro a b ha hb hab
    obtain ⟨hne, hR⟩ := hab
    show SlugDistinct (if a.id == fid then f2 else a) (if b.id == fid then f2 else b)
    by_cases haf : a.id = fid <;> by_cases hbf : b.id = fid
    · exact absurd (by
        rw [findFile_unique hnd hf ha haf, findFile_unique hnd hf hb hbf]) hne
    · rw [if_pos (by simpa using haf), if_neg (by simpa using hbf)]
      have haf' : a = f := findFile_unique hnd hf ha haf
      subst haf'
      rcases hok with hk | hk | ⟨cand, hk, hfresh⟩
      · intro x hx; rw [hk] at hx; exact hR x hx
      · intro x hx; rw [hk] at hx; exact absurd hx (by simp)
      · intro x hx
        rw [hk] at hx
        have hxc : x = cand := by simpa using hx.symm
        subst hxc
        exact slugTaken_false hfresh b hb
    · rw [if_neg (by simpa using haf), if_pos (by simpa using hbf)]
      have hbf' : b = f := findFile_unique hnd hf hb hbf
      subst hbf'
      rcases hok with hk | hk | ⟨cand, hk, hfresh⟩
      · intro x hx; rw [hk]; exact hR x hx
      · intro x hx; rw [hk]; simp
      · intro x hx
        rw [hk]
        have := slugTaken_false hfresh a ha
        intro hcx
        have hxc : x = cand := by simpa using hcx.symm
        subst hxc
        exact this hx
    · rw [if_neg (by simpa using haf), if_neg (by simpa using hbf)]
      exact hR

theorem uploadFile_ok {s : DBState} {b : Blob} {fn : String} {ct : Option String}
    {size : Nat} {pub : Bool} {uid : Nat} {cn dsc ft tg : Option String}
    {fido : Option Nat} {key : String} {rs : Nat → RandPick} {fuel : Nat}
    {s' : DBState} {b' : Blob} {evs : List Ev} {rec0 : FileRec}
    (h : uploadFile s b fn ct size pub uid cn dsc ft tg fido key rs fuel
      = .ok (s', b', evs, rec0)) :
    s' = { s with files := s.files ++ [rec0] } ∧ rec0.id = freshFileId s ∧
    rec0.is_public = pub ∧
    (pub = false → rec0.slug = none) ∧
    (pub = true → ∃ cand, rec0.slug = some cand ∧ slugTaken s cand = false) := by
  cases hfc : uploadFolderCheck s fido with
  | error e =>
    rw [show uploadFile s b fn ct size pub uid cn dsc ft tg fido key rs fuel
      = .error e from by
        show (match uploadFolderCheck s fido with
          | .error e => Except.error e
          | .ok _ => _) = _
        rw [hfc]] at h
    exact absurd h (by simp)
  | ok u =>
    rw [show uploadFile s b fn ct size pub uid cn dsc ft tg fido key rs fuel
      = (let mk : RandPick → String := fun r =>
           if strTruthy cn then generate_slug cn "named" r
           else generate_slug none "readable" r
         let slugRes : Except ApiError (Option String) :=
           if pub then
             match allocSlug s mk rs fuel 0 with
             | none => .error { status := 500, detail := "slug retry loop does not terminate" }
             | some sl => .ok (some sl)
           else .ok none
         match slugRes with
         | .error e => .error e
         | .ok slug =>
           let detected : Option String :=
             if strTruthy ft then ft else some (detect_file_type ct fn)
           match blobPut b key with
           | .error e => .error e
           | .ok b1 =>
             let rec1 : FileRec :=
               { id := freshFileId s, original_name := fn, slug := slug,
                 storage_key := key, size := size, content_type := ct,
                 is_public := pub, description := dsc, file_type := detected,
                 tags := tg, folder_id := fido, uploaded_by := uid }
             .ok ({ s with files := s.files ++ [rec1] }, b1,
               [Ev.blobPut key, Ev.fileNew rec1.id], rec1)) from by
        show (match uploadFolderCheck s fido with
          | .error e => Except.error e
          | .ok _ => _) = _
        rw [hfc]] at h
    simp only [] at h
    cases hpub : pub with
    | false =>
      rw [hpub] at h
      simp only [Bool.false_eq_true, if_false] at h
      cases hbp : blobPut b key with
      | error e => rw [hbp] at h; exact absurd h (by simp)
      | ok b1 =>
        rw [hbp] at h
        simp only [Except.ok.injEq, Prod.mk.injEq] at h
        obtain ⟨hs', _, _, hrec⟩ := h
        subst hrec
        exact ⟨hs'.symm, rfl, rfl, fun _ => rfl, fun hc => by simp at hc⟩
    | true =>
      rw [hpub] at h
      simp only [if_true] at h
      cases halloc : allocSlug s (fun r =>
          if strTruthy cn then generate_slug cn "named" r
          else generate_slug none "readable" r) rs fuel 0 with
      | none => rw [halloc] at h; exact absurd h (by simp)
      | some cand =>
        rw [halloc] at h
        cases hbp : blobPut b key with
        | error e => rw [hbp] at h; exact absurd h (by simp)
        | ok b1 =>
          rw [hbp] at h
          simp only [Except.ok.injEq, Prod.mk.injEq] at h
          obtain ⟨hs', _, _, hrec⟩ := h
          subst hrec
          obtain ⟨hfree, _, _⟩ := allocSlug_spec halloc
          exact ⟨hs'.symm, rfl, rfl, fun hc => by simp at hc,
            fun _ => ⟨cand, rfl, hfree⟩⟩

theorem updateFile_ok {s : DBState} {fid : Nat} {dsc tg ft : Option String}
    {uid : Nat} {adm : Bool} {s' : DBState} {f3 : FileRec}
    (h : updateFile s fid dsc tg ft uid adm = .ok (s', f3)) :
    ∃ f, findFile s fid = some f ∧ s' = applyFileUpdate s fid f3 ∧
      f3.slug = f.slug ∧ f3.is_public = f.is_public ∧ f3.id = f.id := by
  cases hff : findFile s fid with
  | none => simp [updateFile, hff] at h
  | some f =>
    by_cases hacc : (!adm && f.uploaded_by != uid) = true
    · simp [updateFile, hff, hacc] at h
    · simp only [Bool.not_eq_true] at hacc
      simp only [updateFile, hff, hacc, Bool.false_eq_true, if_false,
        Except.ok.injEq, Prod.mk.injEq, ite_false] at h
      obtain ⟨hs', hf3⟩ := h
      subst hf3
      obtain ⟨h1, h2, h3⟩ := metaPatch_fields f dsc tg ft
      exact ⟨f, rfl, hs'.symm, h1, h2, h3⟩

theorem updateFileVisibility_ok_cases {s : DBState} {fid : Nat} {pubq : Option Bool}
    {dsc tg ft cn : Option String} {uid : Nat} {adm : Bool} {rs : Nat → RandPick}
    {fuel : Nat} {s' : DBState} {f4 : FileRec}
    (h : updateFileVisibility s fid pubq dsc tg ft cn uid adm rs fuel = .ok (s', f4)) :
    ∃ f, findFile s fid = some f ∧ s' = applyFileUpdate s fid f4 ∧ f4.id = f.id ∧
      ((f4.slug = f.slug ∧ f4.is_public = f.is_public) ∨
       (f4.slug = none ∧ f4.is_public = false) ∨
       (∃ cand, f4.slug = some cand ∧ slugTaken s cand = false ∧ f4.is_public = true)) ∧
      (pubq = some true → f.is_public = false →
        ∃ cand j, f4.slug = some cand ∧ slugTaken s cand = false ∧
          cand = generate_slug (some (visBase f cn)) "readable" (rs j)) ∧
      (pubq = some true → f.is_public = true → f4.slug = f.slug) ∧
      (pubq = some false → f.is_public = false → f4.slug = f.slug) := by
  cases hff : findFile s fid with
  | none => simp [updateFileVisibility, hff] at h
  | some f =>
    by_cases hacc : (!adm && f.uploaded_by != uid) = true
    · simp [updateFileVisibility, hff, hacc] at h
    · simp only [Bool.not_eq_true] at hacc
      refine ⟨f, rfl, ?_⟩
      cases hpq : pubq with
      | none =>
        simp only [updateFileVisibility, hff, hacc, hpq, Bool.false_eq_true, if_false,
          Except.ok.injEq, Prod.mk.injEq, ite_false] at h
        obtain ⟨hs', hf4⟩ := h
        subst hf4
        obtain ⟨h1, h2, h3⟩ := metaPatch_fields f dsc tg ft
        exact ⟨hs'.symm, h3, Or.inl ⟨h1, h2⟩,
          fun hc => absurd hc (by simp),
          fun hc => absurd hc (by simp),
          fun hc => absurd hc (by simp)⟩
      | some tv =>
        cases tv with
        | true =>
          by_cases hfp : f.is_public = true
          · simp only [updateFileVisibility, hff, hacc, hpq, hfp, Bool.not_true,
              Bool.false_eq_true, if_false, Except.ok.injEq, Prod.mk.injEq, ite_false] at h
            obtain ⟨hs', hf4⟩ := h
            subst hf4
            obtain ⟨h1, h2, h3⟩ := metaPatch_fields f dsc tg ft
            exact ⟨hs'.symm, h3, Or.inl ⟨h1, h2⟩,
              fun _ hc => by rw [hfp] at hc; exact absurd hc (by simp),
              fun _ _ => h1,
              fun hc => absurd hc (by simp)⟩
          · simp only [Bool.not_eq_true] at hfp
            cases halloc : allocSlug s
                (fun r => generate_slug (some (visBase f cn)) "readable" r) rs fuel 0 with
            | none =>
              simp [updateFileVisibility, hff, hacc, hpq, hfp, halloc] at h
            | some cand =>
              simp only [updateFileVisibility, hff, hacc, hpq, hfp, Bool.not_false,
                Bool.false_eq_true, if_false, halloc, if_true, Except.ok.injEq,
                Prod.mk.injEq, ite_false, ite_true] at h
              obtain ⟨hs', hf4⟩ := h
              subst hf4
              obtain ⟨h1, h2, h3⟩ := metaPatch_fields
                { f with slug := some cand, is_public := true } dsc tg ft
              obtain ⟨hfree, j, hj⟩ := allocSlug_spec halloc
              refine ⟨hs'.symm, h3, Or.inr (Or.inr ⟨cand, h1, hfree, h2⟩),
                fun _ _ => ⟨cand, j, h1, hfree, hj⟩,
                fun _ hc => by rw [hfp] at hc; exact absurd hc (by simp),
                fun hc => absurd hc (by simp)⟩
        | false =>
          by_cases hfp : f.is_public = true
          · simp only [updateFileVisibility, hff, hacc, hpq, hfp, Bool.false_eq_true,
              if_false, if_true, Except.ok.injEq, Prod.mk.injEq, ite_false, ite_true] at h
            obtain ⟨hs', hf4⟩ := h
            subst hf4
            obtain ⟨h1, h2, h3⟩ := metaPatch_fields
              { f with slug := none, is_public := false } dsc tg ft
            exact ⟨hs'.symm, h3, Or.inr (Or.inl ⟨h1, h2⟩),
              fun hc => absurd hc (by simp),
              fun hc => absurd hc (by simp),
              fun _ hc => by rw [hfp] at hc; exact absurd hc (by simp)⟩
          · simp only [Bool.not_eq_true] at hfp
            simp only [updateFileVisibility, hff, hacc, hpq, hfp, Bool.false_eq_true,
              if_false, Except.ok.injEq, Prod.mk.injEq, ite_false] at h
            obtain ⟨hs', hf4⟩ := h
            subst hf4
            obtain ⟨h1, h2, h3⟩ := metaPatch_fields f dsc tg ft
            exact ⟨hs'.symm, h3, Or.inl ⟨h1, h2⟩,
              fun hc => absurd hc (by simp),
              fun hc => absurd hc (by simp),
              fun _ _ => h1⟩

theorem filesWF_uploadFile {s : DBState} {b : Blob} {fn : String} {ct : Option String}
    {size : Nat} {pub : Bool} {uid : Nat} {cn dsc ft tg : Option String}
    {fido : Option Nat} {key : String} {rs : Nat → RandPick} {fuel : Nat}
    {s' : DBState} {b' : Blob} {evs : List Ev} {rec0 : FileRec}
    (hwf : FilesWF s)
    (h : uploadFile s b fn ct size pub uid cn dsc ft tg fido key rs fuel
      = .ok (s', b', evs, rec0)) : FilesWF s' := by
  obtain ⟨hs', hid, hpub, hpriv, hpubs⟩ := uploadFile_ok h
  obtain ⟨hnd, hiff, hpw⟩ := hwf
  subst hs'
  have hfreshrec : ∀ g ∈ s.files, SlugDistinct g rec0 := by
    intro g hg x hgx
    cases hp : pub with
    | false => rw [hpriv hp]; simp
    | true =>
      obtain ⟨cand, hcand, hfree⟩ := hpubs hp
      rw [hcand]
      intro hxc
      have : x = cand := by simpa using hxc.symm
      subst this
      exact slugTaken_false hfree g hg hgx
  refine ⟨?_, ?_, ?_⟩
  · show ((s.files ++ [rec0]).map FileRec.id).Nodup
    rw [List.map_append]
    rw [List.nodup_append]
    refine ⟨hnd, by simp, ?_⟩
    intro x hx hx'
    simp only [List.map_cons, List.map_nil, List.mem_singleton] at hx'
    rw [hx', hid] at hx
    exact freshFileId_not_mem s hx
  · intro g hg
    rcases List.mem_append.mp hg with hgl | hgr
    · exact hiff g hgl
    · have : g = rec0 := by simpa using hgr
      subst this
      cases hp : pub with
      | false =>
        rw [hpub, hp, hpriv hp]
        simp
      | true =>
        obtain ⟨cand, hcand, _⟩ := hpubs hp
        rw [hpub, hp, hcand]
        simp
  · show (s.files ++ [rec0]).Pairwise SlugDistinct
    rw [List.pairwise_append]
    refine ⟨hpw, List.pairwise_singleton _ _, ?_⟩
    intro a ha b hb
    have : b = rec0 := by simpa using hb
    subst this
    exact hfreshrec a ha

theorem filesWF_updateFile {s : DBState} {fid : Nat} {dsc tg ft : Option String}
    {uid : Nat} {adm : Bool} {s' : DBState} {f3 : FileRec}
    (hwf : FilesWF s) (h : updateFile s fid dsc tg ft uid adm = .ok (s', f3)) :
    FilesWF s' := by
  obtain ⟨f, hff, hs', hslug, hpub, hid⟩ := updateFile_ok h
  obtain ⟨hnd, hinv⟩ := hwf
  subst hs'
  refine ⟨?_, ?_⟩
  · rw [ids_applyFileUpdate (by rw [hid, findFile_id hff])]
    exact hnd
  · apply slugInv_applyFileUpdate hnd hff ?_ (Or.inl hslug) hinv
    rw [hpub, hslug]
    exact hinv.1 f (findFile_mem hff)

theorem filesWF_updateFileVisibility {s : DBState} {fid : Nat} {pubq : Option Bool}
    {dsc tg ft cn : Option String} {uid : Nat} {adm : Bool} {rs : Nat → RandPick}
    {fuel : Nat} {s' : DBState} {f4 : FileRec}
    (hwf : FilesWF s)
    (h : updateFileVisibility s fid pubq dsc tg ft cn uid adm rs fuel = .ok (s', f4)) :
    FilesWF s' := by
  obtain ⟨f, hff, hs', hid, hcases, _, _, _⟩ := updateFileVisibility_ok_cases h
  obtain ⟨hnd, hinv⟩ := hwf
  subst hs'
  refine ⟨?_, ?_⟩
  · rw [ids_applyFileUpdate (by rw [hid, findFile_id hff])]
    exact hnd
  · rcases hcases with ⟨hslug, hpub⟩ | ⟨hslug, hpub⟩ | ⟨cand, hslug, hfree, hpub⟩
    · apply slugInv_applyFileUpdate hnd hff ?_ (Or.inl hslug) hinv
      rw [hpub, hslug]
      exact hinv.1 f (findFile_mem hff)
    · apply slugInv_applyFileUpdate hnd hff ?_ (Or.inr (Or.inl hslug)) hinv
      rw [hpub, hslug]
      simp
    · apply slugInv_applyFileUpdate hnd hff ?_ (Or.inr (Or.inr ⟨cand, hslug, hfree⟩)) hinv
      rw [hpub, hslug]
      simp

/-- A file-registry operation: `upload_file`, `update_file`, or
`update_file_visibility` with all of its request data. -/
inductive FileOp where
  | up (file_name : String) (content_type : Option String) (size : Nat)
       (is_public : Bool) (user_id : Nat) (custom_name descr ftype tags : Option String)
       (folder_id : Option Nat) (storage_key : String) (rs : Nat → RandPick) (fuel : Nat)
  | meta (file_id : Nat) (descr tags ftype : Option String) (user_id : Nat) (is_admin : Bool)
  | vis (file_id : Nat) (is_public : Option Bool) (descr tags ftype custom_name : Option String)
        (user_id : Nat) (is_admin : Bool) (rs : Nat → RandPick) (fuel : Nat)

/-- Run one operation; an error rolls the session back (state unchanged). -/
def runFileOp (sb : DBState × Blob) (op : FileOp) : DBState × Blob :=
  match op with
  | .up fn ct size pub uid cn dsc ft tg fido key rs fuel =>
    match uploadFile sb.1 sb.2 fn ct size pub uid cn dsc ft tg fido key rs fuel with
    | .ok (s', b', _, _) => (s', b')
    | .error _ => sb
  | .meta fid dsc tg ft uid adm =>
    match updateFile sb.1 fid dsc tg ft uid adm with
    | .ok (s', _) => (s', sb.2)
    | .error _ => sb
  | .vis fid pubq dsc tg ft cn uid adm rs fuel =>
    match updateFileVisibility sb.1 fid pubq dsc tg ft cn uid adm rs fuel with
    | .ok (s', _) => (s', sb.2)
    | .error _ => sb

/-- **C3.** Along every sequence of `upload_file`, `update_file` and
`update_file_visibility` operations the files table keeps invariant I3:
`is_public` holds iff the slug is non-null, and all slugs are pairwise
distinct (given unique primary keys, which the table enforces).  A
private-to-public transition allocates its slug freshly — the committed
slug is a draw of this call's random stream re-checked unused against the
global slug set — so toggling public→private→public allocates anew, while
a transition already in the target state leaves the slug untouched. -/
theorem claim_C3_slug_invariant :
    (∀ (s : DBState) (b : Blob) (ops : List FileOp),
      FilesWF s → FilesWF (ops.foldl runFileOp (s, b)).1) ∧
    (∀ (s : DBState) (fid : Nat) (dsc tg ft cn : Option String) (uid : Nat)
       (adm : Bool) (rs : Nat → RandPick) (fuel : Nat) (s' : DBState) (f4 f : FileRec),
      findFile s fid = some f → f.is_public = false →
      updateFileVisibility s fid (some true) dsc tg ft cn uid adm rs fuel = .ok (s', f4) →
      ∃ cand j, f4.slug = some cand ∧ slugTaken s cand = false ∧
        cand = generate_slug (some (visBase f cn)) "readable" (rs j)) ∧
    (∀ (s : DBState) (fid : Nat) (dsc tg ft cn : Option String) (uid : Nat)
       (adm : Bool) (rs : Nat → RandPick) (fuel : Nat) (s' : DBState) (f4 f : FileRec),
      findFile s fid = some f → f.is_public = true →
      updateFileVisibility s fid (some true) dsc tg ft cn uid adm rs fuel = .ok (s', f4) →
      f4.slug = f.slug) ∧
    (∀ (s : DBState) (fid : Nat) (dsc tg ft cn : Option String) (uid : Nat)
       (adm : Bool) (rs : Nat → RandPick) (fuel : Nat) (s' : DBState) (f4 f : FileRec),
      findFile s fid = some f → f.is_public = false →
      updateFileVisibility s fid (some false) dsc tg ft cn uid adm rs fuel = .ok (s', f4) →
      f4.slug = f.slug) := by
  refine ⟨?_, ?_, ?_, ?_⟩
  · intro s b ops hwf
    induction ops generalizing s b with
    | nil => exact hwf
    | cons op ops ih =>
      show FilesWF (ops.foldl runFileOp (runFileOp (s, b) op)).1
      have hstep : FilesWF (runFileOp (s, b) op).1 := by
        cases op with
        | up fn ct size pub uid cn dsc ft tg fido key rs fuel =>
          show FilesWF (match uploadFile s b fn ct size pub uid cn dsc ft tg fido key rs fuel with
            | .ok (s', b', _, _) => (s', b') | .error _ => (s, b)).1
          cases hu : uploadFile s b fn ct size pub uid cn dsc ft tg fido key rs fuel with
          | ok r =>
            obtain ⟨s', b', evs, rec0⟩ := r
            exact filesWF_uploadFile hwf hu
          | error e => exact hwf
        | meta fid dsc tg ft uid adm =>
          show FilesWF (match updateFile s fid dsc tg ft uid adm with
            | .ok (s', _) => (s', b) | .error _ => (s, b)).1
          cases hu : updateFile s fid dsc tg ft uid adm with
          | ok r =>
            obtain ⟨s', f3⟩ := r
            exact filesWF_updateFile hwf hu
          | error e => exact hwf
        | vis fid pubq dsc tg ft cn uid adm rs fuel =>
          show FilesWF (match updateFileVisibility s fid pubq dsc tg ft cn uid adm rs fuel with
            | .ok (s', _) => (s', b) | .error _ => (s, b)).1
          cases hu : updateFileVisibility s fid pubq dsc tg ft cn uid adm rs fuel with
          | ok r =>
            obtain ⟨s', f4⟩ := r
            exact filesWF_updateFileVisibility hwf hu
          | error e => exact hwf
      have hgoal := ih (runFileOp (s, b) op).1 (runFileOp (s, b) op).2 hstep
      simpa using hgoal
  · intro s fid dsc tg ft cn uid adm rs fuel s' f4 f hff hpriv h
    obtain ⟨f', hff', _, _, _, hfresh, _, _⟩ := updateFileVisibility_ok_cases h
    have : f' = f := by rw [hff] at hff'; exact (Option.some.injEq _ _ ▸ hff').symm ▸ rfl
    subst this
    exact hfresh rfl hpriv
  · intro s fid dsc tg ft cn uid adm rs fuel s' f4 f hff hpub h
    obtain ⟨f', hff', _, _, _, _, hnoop, _⟩ := updateFileVisibility_ok_cases h
    have : f' = f := by rw [hff] at hff'; exact (Option.some.injEq _ _ ▸ hff').symm ▸ rfl
    subst this
    exact hnoop rfl hpub
  · intro s fid dsc tg ft cn uid adm rs fuel s' f4 f hff hpriv h
    obtain ⟨f', hff', _, _, _, _, _, hnoop⟩ := updateFileVisibility_ok_cases h
    have : f' = f := by rw [hff] at hff'; exact (Option.some.injEq _ _ ▸ hff').symm ▸ rfl
    subst this
    exact hnoop rfl hpriv

/-- Closed witness for `claim_C3_slug_invariant`: starting from an empty
table, a public upload keeps the invariant; a private file made public gets
a fresh stream-drawn slug; making a public file public again, or a private
file private again, leaves its slug untouched. -/
theorem claim_C3_slug_invariant_witness :
    FilesWF (([FileOp.up "a.txt" none 3 true 7 none none none none none "k1"
        (fun _ => { suffix := "ab12", adj := "swift", noun := "star", pre4 := "cdef" }) 4] :
        List FileOp).foldl runFileOp
        ({ folders := [], files := [] }, { objects := [], failing := [] })).1 ∧
    (∃ (cand : String) (j : Nat),
      (({ id := 1, original_name := "notes.txt", slug := some "calm-wave-zz99", storage_key := "k2", size := 4, content_type := none, is_public := true, description := none, file_type := none, tags := none, folder_id := none, uploaded_by := 7 } : FileRec)).slug = some cand ∧
      slugTaken { folders := [], files := [{ id := 1, original_name := "notes.txt", slug := none, storage_key := "k2", size := 4, content_type := none, is_public := false, description := none, file_type := none, tags := none, folder_id := none, uploaded_by := 7 }] } cand = false ∧
      cand = generate_slug (some (visBase ({ id := 1, original_name := "notes.txt", slug := none, storage_key := "k2", size := 4, content_type := none, is_public := false, description := none, file_type := none, tags := none, folder_id := none, uploaded_by := 7 } : FileRec) none)) "readable"
        ((fun _ => ({ suffix := "zz99", adj := "calm", noun := "wave", pre4 := "qqqq" } : RandPick)) j)) ∧
    (({ id := 2, original_name := "pub.txt", slug := some "x-y-zz", storage_key := "k3", size := 4, content_type := none, is_public := true, description := none, file_type := none, tags := none, folder_id := none, uploaded_by := 7 } : FileRec)).slug
      = (({ id := 2, original_name := "pub.txt", slug := some "x-y-zz", storage_key := "k3", size := 4, content_type := none, is_public := true, description := none, file_type := none, tags := none, folder_id := none, uploaded_by := 7 } : FileRec)).slug := by
  have hwf0 : FilesWF { folders := [], files := [] } :=
    ⟨List.nodup_nil, fun f hf => absurd hf (List.not_mem_nil f), List.Pairwise.nil⟩
  refine ⟨?_, ?_, ?_⟩
  · exact claim_C3_slug_invariant.1 { folders := [], files := [] }
      { objects := [], failing := [] } _ hwf0
  · exact claim_C3_slug_invariant.2.1
      { folders := [], files := [{ id := 1, original_name := "notes.txt", slug := none, storage_key := "k2", size := 4, content_type := none, is_public := false, description := none, file_type := none, tags := none, folder_id := none, uploaded_by := 7 }] }
      1 none none none none 7 false
      (fun _ => { suffix := "zz99", adj := "calm", noun := "wave", pre4 := "qqqq" }) 3
      _ _ { id := 1, original_name := "notes.txt", slug := none, storage_key := "k2", size := 4, content_type := none, is_public := false, description := none, file_type := none, tags := none, folder_id := none, uploaded_by := 7 }
      (by decide) rfl rfl
  · exact claim_C3_slug_invariant.2.2.1
      { folders := [], files := [{ id := 2, original_name := "pub.txt", slug := some "x-y-zz", storage_key := "k3", size := 4, content_type := none, is_public := true, description := none, file_type := none, tags := none, folder_id := none, uploaded_by := 7 }] }
      2 none none none none 7 false
      (fun _ => { suffix := "zz99", adj := "calm", noun := "wave", pre4 := "qqqq" }) 3
      _ _ { id := 2, original_name := "pub.txt", slug := some "x-y-zz", storage_key := "k3", size := 4, content_type := none, is_public := true, description := none, file_type := none, tags := none, folder_id := none, uploaded_by := 7 }
      (by decide) rfl rfl

/-! ## `FolderService.delete_folder` (lines 207-250)

The recursive deletion threads the blob store and the event trace through
even on failure: a raised exception rolls the uncommitted record deletions
back (the transaction aborts) but blob-store deletions already issued
persist.  `_delete_folder_contents` recurses without bound; fuel
`s.folders.length + 1` is used at the call site and proved sufficient on
acyclic states. -/

/-- `db.query(File).filter(File.folder_id == g).all()`. -/
def filesIn (s : DBState) (g : Nat) : List FileRec :=
  s.files.filter (fun f => f.folder_id == some g)

/-- The per-folder file loop of `_delete_folder_contents` (lines 241-244):
for each file, delete its blob then its record. -/
def deleteFilesIn : List FileRec → DBState → Blob → (Except ApiError DBState) × Blob × List Ev
  | [], s, b => (.ok s, b, [])
  | f :: fs, s, b =>
    match blobDelete b f.storage_key with
    | .error e => (.error e, b, [])
    | .ok b1 =>
      let r := deleteFilesIn fs { s with files := s.files.filter (fun x => x.id != f.id) } b1
      (r.1, r.2.1, Ev.blobDel f.storage_key :: Ev.fileDel f.id :: r.2.2)

/-- The sibling loop of `_delete_folder_contents` (lines 247-250):
recursively delete each subfolder's contents, then its record. -/
def foldSubs (handler : DBState → Blob → Nat → (Except ApiError DBState) × Blob × List Ev) :
    List Folder → DBState → Blob → (Except ApiError DBState) × Blob × List Ev
  | [], s, b => (.ok s, b, [])
  | c :: cs, s, b =>
    match handler s b c.id with
    | (.error e, b1, evs1) => (.error e, b1, evs1)
    | (.ok s1, b1, evs1) =>
      let s2 := { s1 with folders := s1.folders.filter (fun x => x.id != c.id) }
      let r := foldSubs handler cs s2 b1
      (r.1, r.2.1, evs1 ++ Ev.folderDel c.id :: r.2.2)

/-- `FolderService._delete_folder_contents`. -/
def contentsDel : Nat → DBState → Blob → Nat → (Except ApiError DBState) × Blob × List Ev
  | 0, _, b, _ => (.error { status := 500, detail := "recursion fuel exhausted" }, b, [])
  | fuel + 1, s, b, g =>
    match deleteFilesIn (filesIn s g) s b with
    | (.error e, b1, evs1) => (.error e, b1, evs1)
    | (.ok s1, b1, evs1) =>
      let r := foldSubs (contentsDel fuel) (childrenOf s1 g) s1 b1
      (r.1, r.2.1, evs1 ++ r.2.2)

/-- `FolderService.delete_folder`. -/
def deleteFolder (ctx : Ctx) (s : DBState) (b : Blob) (folder_id : Nat)
    (recursive : Bool) : (Except ApiError DBState) × Blob × List Ev :=
  match findFolder s folder_id with
  | none => (.error { status := 404, detail := "Folder not found" }, b, [])
  | some folder =>
    if !ctx.is_admin && folder.created_by != ctx.user_id then
      (.error { status := 403, detail := "You do not have permission to delete this folder" }, b, [])
    else if recursive then
      match contentsDel (s.folders.length + 1) s b folder_id with
      | (.error e, b1, evs1) => (.error e, b1, evs1)
      | (.ok s1, b1, evs1) =>
        (.ok { s1 with folders := s1.folders.filter (fun x => x.id != folder_id) },
         b1, evs1 ++ [Ev.folderDel folder_id])
    else
      if s.files.any (fun f => f.folder_id == some folder_id) ||
         s.folders.any (fun x => x.parent == some folder_id) then
        (.error { status := 400, detail := "Folder is not empty. Use recursive=true to delete contents." }, b, [])
      else
        (.ok { s with folders := s.folders.filter (fun x => x.id != folder_id) },
         b, [Ev.folderDel folder_id])

/-- A file record sits inside the subtree rooted at `root` (directly in it
or in a strict descendant). -/
def FInSub (s : DBState) (root : Nat) (f : FileRec) : Prop :=
  ∃ d, f.folder_id = some d ∧ (d = root ∨ Reaches s root d)

/-- Bounded boolean version of `FInSub`, with the chain-length bound taken
from the state (sufficient under acyclicity). -/
def fileSubB (s : DBState) (root : Nat) (f : FileRec) : Bool :=
  match f.folder_id with
  | none => false
  | some d => d == root || reachInB s s.folders.length root d

def isBlobDel : Ev → Bool
  | .blobDel _ => true
  | _ => false

/-- The number of blob-store delete calls in a trace. -/
def blobDelCount (evs : List Ev) : Nat :=
  (evs.filter isBlobDel).length

theorem blobDelCount_append (a b : List Ev) :
    blobDelCount (a ++ b) = blobDelCount a + blobDelCount b := by
  simp [blobDelCount, List.filter_append]

theorem length_filter_not {α : Type} (p : α → Bool) (l : List α) :
    (l.filter p).length + (l.filter (fun x => !(p x))).length = l.length := by
  induction l with
  | nil => rfl
  | cons a t ih =>
    rw [List.filter_cons, List.filter_cons]
    by_cases hp : p a = true
    · rw [if_pos hp, if_neg (by simp [hp])]
      simp only [List.length_cons]
      omega
    · rw [if_neg hp, if_pos (by simp [Bool.not_eq_true] at hp; simp [hp])]
      simp only [List.length_cons]
      omega

/-- Bounded reachability agrees with `Reaches` on acyclic states when the
bound is the number of folder rows. -/
theorem reachInB_iff {s : DBState} (hA : Acyclic s) (a b : Nat) :
    reachInB s s.folders.length a b = true ↔ Reaches s a b := by
  constructor
  · intro h
    obtain ⟨k, _, hk⟩ := List.any_eq_true.mp h
    exact ⟨k + 1, by omega, by simpa using hk⟩
  · rintro ⟨n, hn1, hchain⟩
    have hle := iterP_le_length hA hchain
    apply List.any_eq_true.mpr
    refine ⟨n - 1, List.mem_range.mpr (by omega), ?_⟩
    rw [show n - 1 + 1 = n from by omega]
    simpa using hchain

theorem findFolder_of_mem {s : DBState} (hnd : (s.folders.map Folder.id).Nodup)
    {c : Folder} (hc : c ∈ s.folders) : findFolder s c.id = some c := by
  cases hf : findFolder s c.id with
  | none =>
    exfalso
    have := List.find?_eq_none.mp hf c hc
    simp at this
  | some g =>
    have hgid : g.id = c.id := findFolder_id hf
    have := List.inj_on_of_nodup_map hnd hc (findFolder_mem hf) (by rw [hgid])
    rw [this]

/-- `find?` by id over a filtered list, given unique ids. -/
theorem find?_filter_id {l : List Folder} (hnd : (l.map Folder.id).Nodup)
    (p : Folder → Bool) (x : Nat) :
    (l.filter p).find? (fun g => g.id == x)
      = match l.find? (fun g => g.id == x) with
        | none => none
        | some g => if p g then some g else none := by
  induction l with
  | nil => rfl
  | cons a t ih =>
    rw [List.map_cons, List.nodup_cons] at hnd
    obtain ⟨hna, hnt⟩ := hnd
    by_cases hax : a.id = x
    · have haxb : (a.id == x) = true := by simpa using hax
      by_cases hpa : p a = true
      · simp [List.filter_cons, List.find?_cons, haxb, hpa]
      · simp only [Bool.not_eq_true] at hpa
        simp only [List.filter_cons, List.find?_cons, haxb, hpa,
          Bool.false_eq_true, if_false]
        apply List.find?_eq_none.mpr
        intro y hy
        have hyt := List.mem_of_mem_filter hy
        intro hyx
        apply hna
        have hyid : y.id = x := by simpa using hyx
        rw [hax, ← hyid]
        exact List.mem_map.mpr ⟨y, hyt, rfl⟩
    · have haxb : (a.id == x) = false := by simpa using hax
      by_cases hpa : p a = true
      · simp only [List.filter_cons, hpa, if_true, List.find?_cons, haxb]
        exact ih hnt
      · simp only [Bool.not_eq_true] at hpa
        simp only [List.filter_cons, List.find?_cons, haxb, hpa,
          Bool.false_eq_true, if_false]
        exact ih hnt

/-- `parentOf` in a state whose folders are a filtering of another. -/
theorem parentOf_filter {s s' : DBState} {p : Folder → Bool}
    (hnd : (s.folders.map Folder.id).Nodup)
    (hs' : s'.folders = s.folders.filter p) (x : Nat) :
    parentOf s' x = match findFolder s x with
      | none => none
      | some g => if p g then g.parent else none := by
  show (findFolder s' x).bind Folder.parent = _
  rw [show findFolder s' x = (s.folders.filter p).find? (fun g => g.id == x) from by
    rw [findFolder, hs']]
  rw [find?_filter_id hnd p x]
  cases hf : findFolder s x with
  | none =>
    rw [show s.folders.find? (fun g => g.id == x) = none from hf]
    rfl
  | some g =>
    rw [show s.folders.find? (fun g => g.id == x) = some g from hf]
    show (if p g = true then some g else none).bind Folder.parent
      = if p g = true then g.parent else none
    by_cases hpg : p g = true
    · rw [if_pos hpg, if_pos hpg]
      rfl
    · rw [if_neg hpg, if_neg hpg]
      rfl

/-- Chains of a filtered state are chains of the whole state. -/
theorem iterP_filter_le {s s' : DBState} {p : Folder → Bool}
    (hnd : (s.folders.map Folder.id).Nodup)
    (hs' : s'.folders = s.folders.filter p) :
    ∀ n x y, iterP s' n x = some y → iterP s n x = some y := by
  intro n
  induction n with
  | zero => intro x y h; exact h
  | succ n ih =>
    intro x y h
    rw [show iterP s' (n + 1) x = (parentOf s' x).bind (iterP s' n) from rfl] at h
    cases hp' : parentOf s' x with
    | none => rw [hp'] at h; simp at h
    | some w =>
      rw [hp'] at h
      simp only [Option.some_bind] at h
      rw [parentOf_filter hnd hs'] at hp'
      show (parentOf s x).bind (iterP s n) = some y
      cases hf : findFolder s x with
      | none =>
        rw [hf] at hp'
        exact absurd (show (none : Option Nat) = some w from hp') (by simp)
      | some g =>
        rw [hf] at hp'
        have hp'' : (if p g = true then g.parent else none) = some w := hp'
        by_cases hpg : p g = true
        · rw [if_pos hpg] at hp''
          rw [parentOf, hf]
          simp only [Option.some_bind]
          rw [show g.parent = some w from hp'']
          exact ih w y h
        · rw [if_neg hpg] at hp''
          simp at hp''

theorem acyclic_filter {s s' : DBState} {p : Folder → Bool}
    (hA : Acyclic s) (hnd : (s.folders.map Folder.id).Nodup)
    (hs' : s'.folders = s.folders.filter p) : Acyclic s' := by
  intro x n hn hcyc
  exact hA x n hn (iterP_filter_le hnd hs' n x x hcyc)

/-- If every row strictly reaching `r` survives the filtering, chains up to
`r` are preserved. -/
theorem iterP_filter_ge {s s' : DBState} {p : Folder → Bool}
    (hnd : (s.folders.map Folder.id).Nodup)
    (hs' : s'.folders = s.folders.filter p)
    {r : Nat} (hsurv : ∀ y ∈ s.folders, Reaches s r y.id → p y = true) :
    ∀ n x, 1 ≤ n → iterP s n x = some r → iterP s' n x = some r := by
  intro n
  induction n with
  | zero => intro x h0; omega
  | succ n ih =>
    intro x _ h
    rw [show iterP s (n + 1) x = (parentOf s x).bind (iterP s n) from rfl] at h
    cases hp : parentOf s x with
    | none => rw [hp] at h; simp at h
    | some w =>
      rw [hp] at h
      simp only [Option.some_bind] at h
      cases hf : findFolder s x with
      | none => rw [parentOf, hf] at hp; simp at hp
      | some g =>
        have hgx : g.id = x := findFolder_id hf
        have hreach : Reaches s r g.id := by
          refine ⟨n + 1, by omega, ?_⟩
          rw [hgx]
          rw [show iterP s (n + 1) x = (parentOf s x).bind (iterP s n) from rfl, hp]
          simpa using h
        have hpg : p g = true := hsurv g (findFolder_mem hf) hreach
        have hp' : parentOf s' x = some w := by
          rw [parentOf_filter hnd hs', hf]
          show (if p g = true then g.parent else none) = some w
          rw [if_pos hpg]
          rw [parentOf, hf] at hp
          simpa using hp
        rw [show iterP s' (n + 1) x = (parentOf s' x).bind (iterP s' n) from rfl, hp']
        simp only [Option.some_bind]
        rcases Nat.eq_zero_or_pos n with h0 | h1
        · subst h0
          exact h
        · exact ih w h1 h

/-- Subtree reachability transfers between a state and a filtered state in
which the whole subtree of `r` survives. -/
theorem reaches_filter_iff {s s' : DBState} {p : Folder → Bool}
    (hnd : (s.folders.map Folder.id).Nodup)
    (hs' : s'.folders = s.folders.filter p)
    {r : Nat} (hsurv : ∀ y ∈ s.folders, Reaches s r y.id → p y = true) (x : Nat) :
    Reaches s' r x ↔ Reaches s r x := by
  constructor
  · rintro ⟨n, hn, h⟩
    exact ⟨n, hn, iterP_filter_le hnd hs' n x r h⟩
  · rintro ⟨n, hn, h⟩
    exact ⟨n, hn, iterP_filter_ge hnd hs' hsurv n x hn h⟩

/-- `parentOf` depends only on the folder table. -/
theorem parentOf_folders_eq {s1 s2 : DBState} (h : s1.folders = s2.folders)
    (x : Nat) : parentOf s1 x = parentOf s2 x := by
  rw [parentOf, parentOf, findFolder, findFolder, h]

theorem iterP_folders_eq {s1 s2 : DBState} (h : s1.folders = s2.folders) :
    ∀ n x, iterP s1 n x = iterP s2 n x :=
  iterP_congr (fun x => parentOf_folders_eq h x)

theorem reaches_folders_eq {s1 s2 : DBState} (h : s1.folders = s2.folders)
    (a b : Nat) : Reaches s1 a b ↔ Reaches s2 a b := by
  constructor
  · rintro ⟨n, hn, hc⟩
    exact ⟨n, hn, by rw [← iterP_folders_eq h]; exact hc⟩
  · rintro ⟨n, hn, hc⟩
    exact ⟨n, hn, by rw [iterP_folders_eq h]; exact hc⟩

theorem fInSub_folders_eq {s1 s2 : DBState} (h : s1.folders = s2.folders)
    (g : Nat) (f : FileRec) : FInSub s1 g f ↔ FInSub s2 g f := by
  constructor <;> rintro ⟨d, hd, hc⟩
  · exact ⟨d, hd, hc.imp id (reaches_folders_eq h g d).mp⟩
  · exact ⟨d, hd, hc.imp id (reaches_folders_eq h g d).mpr⟩

theorem acyclic_folders_eq {s1 s2 : DBState} (h : s1.folders = s2.folders)
    (hA : Acyclic s2) : Acyclic s1 := by
  intro x n hn hc
  exact hA x n hn (by rw [← iterP_folders_eq h]; exact hc)

/-- Compose an upward chain with a further chain from its endpoint. -/
theorem reaches_trans {s : DBState} {a b c : Nat}
    (h1 : Reaches s b c) (h2 : Reaches s a b) : Reaches s a c := by
  obtain ⟨n, hn, hcn⟩ := h1
  obtain ⟨m, hm, hcm⟩ := h2
  exact ⟨n + m, by omega, by rw [iterP_add, hcn]; simpa using hcm⟩

/-- A child row is one parent step below its parent. -/
theorem reaches_parent {s : DBState} (hnd : (s.folders.map Folder.id).Nodup)
    {c : Folder} (hc : c ∈ s.folders) {G : Nat} (hp : c.parent = some G) :
    Reaches s G c.id :=
  ⟨1, le_refl 1, by rw [iterP_one, parentOf, findFolder_of_mem hnd hc]; exact hp⟩

/-- Subtrees of two distinct children of the same folder are disjoint in an
acyclic forest (the parent chain from any node is unique). -/
theorem sibling_subtree_disjoint {s : DBState} (hA : Acyclic s)
    (hnd : (s.folders.map Folder.id).Nodup)
    {c c2 : Folder} (hc : c ∈ s.folders) (hc2 : c2 ∈ s.folders) {G : Nat}
    (hpc : c.parent = some G) (hpc2 : c2.parent = some G) (hne : c.id ≠ c2.id)
    {d : Nat} (hd : d = c.id ∨ Reaches s c.id d)
    (hd2 : d = c2.id ∨ Reaches s c2.id d) : False := by
  have hstep : parentOf s c.id = some G := by
    rw [parentOf, findFolder_of_mem hnd hc]; exact hpc
  have hstep2 : parentOf s c2.id = some G := by
    rw [parentOf, findFolder_of_mem hnd hc2]; exact hpc2
  obtain ⟨m, hm⟩ : ∃ m, iterP s m d = some c.id := by
    rcases hd with h | ⟨n, _, hn⟩
    · exact ⟨0, by rw [h]; rfl⟩
    · exact ⟨n, hn⟩
  obtain ⟨m2, hm2⟩ : ∃ m2, iterP s m2 d = some c2.id := by
    rcases hd2 with h | ⟨n, _, hn⟩
    · exact ⟨0, by rw [h]; rfl⟩
    · exact ⟨n, hn⟩
  have key : ∀ (a b : Nat), a ≠ b →
      parentOf s a = some G → parentOf s b = some G →
      ∀ p q, p ≤ q → iterP s p d = some a → iterP s q d = some b → False := by
    intro a b hab hpa hpb p q hpq hp hq
    have hsplit : iterP s q d = (iterP s p d).bind (iterP s (q - p)) := by
      rw [← iterP_add, show p + (q - p) = q from by omega]
    rw [hsplit, hp] at hq
    simp only [Option.some_bind] at hq
    rcases Nat.eq_zero_or_pos (q - p) with h0 | hpos
    · rw [h0] at hq
      exact hab (by simpa [iterP] using hq)
    · obtain ⟨k, hk⟩ : ∃ k, q - p = k + 1 := ⟨q - p - 1, by omega⟩
      rw [hk] at hq
      rw [show iterP s (k + 1) a = (parentOf s a).bind (iterP s k) from rfl,
        hpa] at hq
      simp only [Option.some_bind] at hq
      have hcyc : iterP s (k + 1) G = some G := by
        rw [iterP_add s k 1 G, hq]
        simp only [Option.some_bind]
        rw [iterP_one]
        exact hpb
      exact hA G (k + 1) (by omega) hcyc
  rcases Nat.le_total m m2 with h | h
  · exact key c.id c2.id hne hstep hstep2 m m2 h hm hm2
  · exact key c2.id c.id (fun hx => hne hx.symm) hstep2 hstep m2 m h hm2 hm

/-- An upward chain to `g` factors through a child of `g`. -/
theorem reaches_via_child {s : DBState} (hnd : (s.folders.map Folder.id).Nodup)
    {g x : Nat} :
    Reaches s g x ↔ ∃ c ∈ childrenOf s g, x = c.id ∨ Reaches s c.id x := by
  constructor
  · rintro ⟨n, hn, hc⟩
    obtain ⟨m, rfl⟩ : ∃ m, n = m + 1 := ⟨n - 1, by omega⟩
    have hsplit : iterP s (m + 1) x = (iterP s m x).bind (iterP s 1) := by
      rw [← iterP_add]
    rw [hsplit] at hc
    cases hw : iterP s m x with
    | none => rw [hw] at hc; simp at hc
    | some w =>
      rw [hw] at hc
      simp only [Option.some_bind, iterP_one] at hc
      cases hfw : findFolder s w with
      | none => rw [parentOf, hfw] at hc; simp at hc
      | some gw =>
        have hgwp : gw.parent = some g := by
          rw [parentOf, hfw] at hc; simpa using hc
        refine ⟨gw, List.mem_filter.mpr ⟨findFolder_mem hfw, by simpa using hgwp⟩, ?_⟩
        rcases Nat.eq_zero_or_pos m with h0 | hpos
        · subst h0
          left
          have hxw : x = w := by simpa [iterP] using hw
          rw [hxw]
          exact (findFolder_id hfw).symm
        · right
          rw [findFolder_id hfw]
          exact ⟨m, hpos, hw⟩
  · rintro ⟨c, hcmem, hcase⟩
    obtain ⟨hcin, hcp⟩ := List.mem_filter.mp hcmem
    have hcpar : c.parent = some g := by simpa using hcp
    have hstep : Reaches s g c.id := reaches_parent hnd hcin hcpar
    rcases hcase with rfl | hr
    · exact hstep
    · exact reaches_trans hr hstep

/-- Running the file loop of `_delete_folder_contents` over a batch on
which the store does not fail: every listed file's blob is deleted and its
record dropped, in list order; the failure set never changes. -/
theorem deleteFilesIn_run : ∀ (fs : List FileRec) (s : DBState) (b : Blob),
    (∀ f ∈ fs, f.storage_key ∉ b.failing) →
    ∃ b1, deleteFilesIn fs s b =
      (.ok { s with files := s.files.filter (fun x => !(fs.any (fun f => f.id == x.id))) },
       b1,
       fs.flatMap (fun f => [Ev.blobDel f.storage_key, Ev.fileDel f.id]))
      ∧ b1.failing = b.failing := by
  intro fs
  induction fs with
  | nil =>
    intro s b _
    refine ⟨b, ?_, rfl⟩
    have h1 : s.files.filter
        (fun x => !(List.any ([] : List FileRec) (fun f => f.id == x.id))) = s.files := by
      simp
    show (Except.ok s, b, ([] : List Ev)) = _
    rw [h1]
    rfl
  | cons f fs ih =>
    intro s b hsafe
    have hkey : f.storage_key ∉ b.failing := hsafe f (by simp)
    have hbd : blobDelete b f.storage_key
        = .ok { b with objects := b.objects.erase f.storage_key } := by
      rw [blobDelete, if_neg hkey]
    obtain ⟨b1, heq, hfail⟩ := ih
      { s with files := s.files.filter (fun x => x.id != f.id) }
      { b with objects := b.objects.erase f.storage_key }
      (fun f2 hf2 => hsafe f2 (List.mem_cons_of_mem f hf2))
    refine ⟨b1, ?_, hfail⟩
    have hfe : (s.files.filter (fun x => x.id != f.id)).filter
        (fun x => !(fs.any (fun f2 => f2.id == x.id)))
        = s.files.filter (fun x => !((f :: fs).any (fun f2 => f2.id == x.id))) := by
      rw [List.filter_filter]
      apply List.filter_congr
      intro x _
      by_cases hx : f.id = x.id
      · simp [hx]
      · have hx2 : x.id ≠ f.id := fun h => hx h.symm
        have h1 : (x.id != f.id) = true := by simp [hx2]
        have h2 : (f.id == x.id) = false := by simp [hx]
        rw [h1]
        simp only [List.any_cons, h2]
        simp
    simp only [deleteFilesIn, hbd, heq, List.flatMap_cons, List.cons_append,
      List.nil_append, hfe]

theorem blobDelCount_pairs (fs : List FileRec) :
    blobDelCount (fs.flatMap (fun f => [Ev.blobDel f.storage_key, Ev.fileDel f.id]))
      = fs.length := by
  induction fs with
  | nil => rfl
  | cons f fs ih =>
    rw [List.flatMap_cons, blobDelCount_append, ih]
    show 1 + fs.length = fs.length + 1
    omega

theorem blobDelCount_cons_folderDel (i : Nat) (evs : List Ev) :
    blobDelCount (Ev.folderDel i :: evs) = blobDelCount evs := rfl

/-- Every batch member contributes an adjacent blob-delete/record-delete
pair to the file-loop trace. -/
theorem pairs_decomp : ∀ {fs : List FileRec} {f : FileRec}, f ∈ fs →
    ∃ l1 l2, fs.flatMap (fun f2 => [Ev.blobDel f2.storage_key, Ev.fileDel f2.id])
      = l1 ++ Ev.blobDel f.storage_key :: Ev.fileDel f.id :: l2 := by
  intro fs
  induction fs with
  | nil => intro f h; exact absurd h (List.not_mem_nil f)
  | cons a fs ih =>
    intro f h
    rcases List.mem_cons.mp h with rfl | hmem
    · exact ⟨[], fs.flatMap (fun f2 => [Ev.blobDel f2.storage_key, Ev.fileDel f2.id]), rfl⟩
    · obtain ⟨l1, l2, hl⟩ := ih hmem
      exact ⟨Ev.blobDel a.storage_key :: Ev.fileDel a.id :: l1, l2, by
        rw [List.flatMap_cons, hl]; rfl⟩

theorem bool_eq_not_of_iff {a b : Bool} (h : a = true ↔ ¬ b = true) : a = !b := by
  cases a <;> cases b <;> simp_all

theorem decomp_append_right {α : Type} {l l1 l2 : List α} (a b : α) (X : List α)
    (h : l = l1 ++ a :: b :: l2) : l ++ X = l1 ++ a :: b :: (l2 ++ X) := by
  rw [h, List.append_assoc, List.cons_append, List.cons_append]

theorem decomp_append_left {α : Type} {l l1 l2 : List α} (a b : α) (Y : List α)
    (h : l = l1 ++ a :: b :: l2) : Y ++ l = (Y ++ l1) ++ a :: b :: l2 := by
  rw [h, ← List.append_assoc]

theorem decomp1_append_right {α : Type} {l l1 l2 : List α} (a : α) (X : List α)
    (h : l = l1 ++ a :: l2) : l ++ X = l1 ++ a :: (l2 ++ X) := by
  rw [h, List.append_assoc, List.cons_append]

theorem decomp1_append_left {α : Type} {l l1 l2 : List α} (a : α) (Y : List α)
    (h : l = l1 ++ a :: l2) : Y ++ l = (Y ++ l1) ++ a :: l2 := by
  rw [h, ← List.append_assoc]

theorem decomp_cons_append {α : Type} {l l1 l2 : List α} (a b e : α) (Y : List α)
    (h : l = l1 ++ a :: b :: l2) : Y ++ e :: l = (Y ++ e :: l1) ++ a :: b :: l2 := by
  rw [h, ← List.cons_append, ← List.append_assoc]

theorem decomp1_cons_append {α : Type} {l l1 l2 : List α} (a e : α) (Y : List α)
    (h : l = l1 ++ a :: l2) : Y ++ e :: l = (Y ++ e :: l1) ++ a :: l2 := by
  rw [h, ← List.cons_append, ← List.append_assoc]

/-- Preconditions of `_delete_folder_contents` at a call state: an acyclic
forest with primary-key-unique tables, recursion fuel exceeding the height
of the target's subtree, and a store that does not fail on any subtree
file. -/
def CDHyp (fuel : Nat) (s : DBState) (b : Blob) (g : Nat) : Prop :=
  Acyclic s ∧ (s.folders.map Folder.id).Nodup ∧ (s.files.map FileRec.id).Nodup ∧
  (∀ d n, iterP s n d = some g → n < fuel) ∧
  (∀ f ∈ s.files, FInSub s g f → f.storage_key ∉ b.failing)

/-- Postcondition of `_delete_folder_contents`: success; the folder table
loses exactly the strict descendants of `g` and the file table exactly the
subtree files (both as order-preserving filters); one blob delete per
removed file record; the failure set unchanged; each removed file's blob
delete immediately followed by its record delete; each removed folder's
record delete after those of all of its children. -/
def CDConc (s : DBState) (b : Blob) (g : Nat)
    (out : (Except ApiError DBState) × Blob × List Ev) : Prop :=
  ∃ s1 b1 evs, out = (.ok s1, b1, evs) ∧
    (∃ p : Folder → Bool, s1.folders = s.folders.filter p ∧
      ∀ x ∈ s.folders, (p x = true ↔ ¬ Reaches s g x.id)) ∧
    (∃ q : FileRec → Bool, s1.files = s.files.filter q ∧
      ∀ f ∈ s.files, (q f = true ↔ ¬ FInSub s g f)) ∧
    blobDelCount evs + s1.files.length = s.files.length ∧
    b1.failing = b.failing ∧
    (∀ f ∈ s.files, FInSub s g f →
      ∃ l1 l2, evs = l1 ++ Ev.blobDel f.storage_key :: Ev.fileDel f.id :: l2) ∧
    (∀ x ∈ s.folders, Reaches s g x.id →
      ∃ l1 l2, evs = l1 ++ Ev.folderDel x.id :: l2 ∧
        ∀ y ∈ s.folders, y.parent = some x.id → Ev.folderDel y.id ∈ l1)

/-- Main lemma for the sibling loop of `_delete_folder_contents`, by
induction on the remaining siblings: the running state is a filtering of a
frozen reference state `s` in which the subtrees of all remaining siblings
survive. -/
theorem foldSubs_ok (fuel : Nat)
    (h : DBState → Blob → Nat → (Except ApiError DBState) × Blob × List Ev)
    (s : DBState) (G : Nat)
    (hA : Acyclic s) (hndG : (s.folders.map Folder.id).Nodup)
    (hspec : ∀ t b2 c, CDHyp fuel t b2 c → CDConc t b2 c (h t b2 c)) :
    ∀ (cs : List Folder) (t : DBState) (b : Blob)
      (pAcc : Folder → Bool) (qAcc : FileRec → Bool),
      (∀ c ∈ cs, c ∈ s.folders ∧ c.parent = some G) →
      (cs.map Folder.id).Nodup →
      t.folders = s.folders.filter pAcc →
      t.files = s.files.filter qAcc →
      (∀ x ∈ s.folders, (∃ c ∈ cs, x.id = c.id ∨ Reaches s c.id x.id) → pAcc x = true) →
      (∀ f ∈ s.files,
        (∃ c ∈ cs, ∃ d, f.folder_id = some d ∧ (d = c.id ∨ Reaches s c.id d)) →
        qAcc f = true) →
      (∀ c ∈ cs, ∀ d n, iterP s n d = some c.id → n < fuel) →
      ((s.files.map FileRec.id).Nodup) →
      (∀ f ∈ s.files,
        (∃ c ∈ cs, ∃ d, f.folder_id = some d ∧ (d = c.id ∨ Reaches s c.id d)) →
        f.storage_key ∉ b.failing) →
      ∃ t1 b1 evs, foldSubs h cs t b = (.ok t1, b1, evs) ∧
        (∃ p : Folder → Bool, t1.folders = t.folders.filter p ∧
          ∀ x ∈ s.folders, pAcc x = true →
            (p x = true ↔ ¬ ∃ c ∈ cs, x.id = c.id ∨ Reaches s c.id x.id)) ∧
        (∃ q : FileRec → Bool, t1.files = t.files.filter q ∧
          ∀ f ∈ s.files, qAcc f = true →
            (q f = true ↔
              ¬ ∃ c ∈ cs, ∃ d, f.folder_id = some d ∧ (d = c.id ∨ Reaches s c.id d))) ∧
        blobDelCount evs + t1.files.length = t.files.length ∧
        b1.failing = b.failing ∧
        (∀ f ∈ s.files, qAcc f = true →
          (∃ c ∈ cs, ∃ d, f.folder_id = some d ∧ (d = c.id ∨ Reaches s c.id d)) →
          ∃ l1 l2, evs = l1 ++ Ev.blobDel f.storage_key :: Ev.fileDel f.id :: l2) ∧
        (∀ x ∈ s.folders, pAcc x = true →
          (∃ c ∈ cs, x.id = c.id ∨ Reaches s c.id x.id) →
          ∃ l1 l2, evs = l1 ++ Ev.folderDel x.id :: l2 ∧
            ∀ y ∈ s.folders, y.parent = some x.id → Ev.folderDel y.id ∈ l1) := by
  intro cs
  induction cs with
  | nil =>
    intro t b pAcc qAcc _ _ _ _ _ _ _ _ _
    refine ⟨t, b, [], rfl,
      ⟨fun _ => true, (List.filter_true t.folders).symm, by intro x hx hpx; simp⟩,
      ⟨fun _ => true, (List.filter_true t.files).symm, by intro f hf hqf; simp⟩,
      by simp [blobDelCount], rfl, ?_, ?_⟩
    · rintro f hf hq ⟨c, hc, -⟩
      exact absurd hc (List.not_mem_nil c)
    · rintro x hx hp ⟨c, hc, -⟩
      exact absurd hc (List.not_mem_nil c)
  | cons c cs ih =>
    intro t b pAcc qAcc hcs hndcs hrelG hrelF hP1 hP2 hHD hndF hHS
    obtain ⟨hcmem, hcpar⟩ := hcs c (List.mem_cons_self c cs)
    have hcs2 : ∀ c2 ∈ cs, c2 ∈ s.folders ∧ c2.parent = some G :=
      fun c2 h2 => hcs c2 (List.mem_cons_of_mem c h2)
    rw [List.map_cons, List.nodup_cons] at hndcs
    obtain ⟨hcnotin, hndcs2⟩ := hndcs
    have hdisj : ∀ c2 ∈ cs, ∀ d : Nat, (d = c.id ∨ Reaches s c.id d) →
        (d = c2.id ∨ Reaches s c2.id d) → False := by
      intro c2 h2 d hd hd2
      obtain ⟨h2mem, h2par⟩ := hcs2 c2 h2
      have hne : c.id ≠ c2.id := by
        intro hx
        apply hcnotin
        rw [hx]
        exact List.mem_map.mpr ⟨c2, h2, rfl⟩
      exact sibling_subtree_disjoint hA hndG hcmem h2mem hcpar h2par hne hd hd2
    have hsurvc : ∀ y ∈ s.folders, Reaches s c.id y.id → pAcc y = true := by
      intro y hy hr
      exact hP1 y hy ⟨c, List.mem_cons_self c cs, Or.inr hr⟩
    have hreachiff : ∀ x : Nat, Reaches t c.id x ↔ Reaches s c.id x :=
      fun x => reaches_filter_iff hndG hrelG hsurvc x
    have hAt : Acyclic t := acyclic_filter hA hndG hrelG
    have hndGt : (t.folders.map Folder.id).Nodup := by
      rw [hrelG]
      exact ((List.filter_sublist s.folders).map Folder.id).nodup hndG
    have hndFt : (t.files.map FileRec.id).Nodup := by
      rw [hrelF]
      exact ((List.filter_sublist s.files).map FileRec.id).nodup hndF
    have hdeptht : ∀ d n, iterP t n d = some c.id → n < fuel := by
      intro d n hdn
      exact hHD c (List.mem_cons_self c cs) d n (iterP_filter_le hndG hrelG n d c.id hdn)
    have hsafet : ∀ f ∈ t.files, FInSub t c.id f → f.storage_key ∉ b.failing := by
      intro f hf hsub
      obtain ⟨d, hfd, hcase⟩ := hsub
      have hfs : f ∈ s.files := by
        rw [hrelF] at hf
        exact List.mem_of_mem_filter hf
      apply hHS f hfs
      refine ⟨c, List.mem_cons_self c cs, d, hfd, ?_⟩
      rcases hcase with hl | hr
      · exact Or.inl hl
      · exact Or.inr ((hreachiff d).mp hr)
    obtain ⟨t1, b1, evs1, heq1, ⟨p1, hp1, hp1sem⟩, ⟨q1, hq1, hq1sem⟩, hcount1, hfail1,
      hordF1, hordG1⟩ := hspec t b c.id ⟨hAt, hndGt, hndFt, hdeptht, hsafet⟩
    have hrelG2 : ({ t1 with folders := t1.folders.filter (fun x => x.id != c.id) }
          : DBState).folders
        = s.folders.filter (fun x => ((x.id != c.id) && p1 x) && pAcc x) := by
      show t1.folders.filter (fun x => x.id != c.id) = _
      rw [hp1, hrelG, List.filter_filter, List.filter_filter]
    have hrelF2 : ({ t1 with folders := t1.folders.filter (fun x => x.id != c.id) }
          : DBState).files
        = s.files.filter (fun f => q1 f && qAcc f) := by
      show t1.files = _
      rw [hq1, hrelF, List.filter_filter]
    have hP1' : ∀ x ∈ s.folders, (∃ c2 ∈ cs, x.id = c2.id ∨ Reaches s c2.id x.id) →
        (((x.id != c.id) && p1 x) && pAcc x) = true := by
      intro x hx hex
      obtain ⟨c2, h2, hsub⟩ := hex
      have hpx : pAcc x = true := hP1 x hx ⟨c2, List.mem_cons_of_mem c h2, hsub⟩
      have hxt : x ∈ t.folders := by
        rw [hrelG]
        exact List.mem_filter.mpr ⟨hx, hpx⟩
      have hne : x.id ≠ c.id := by
        intro hxc
        exact hdisj c2 h2 x.id (Or.inl hxc) hsub
      have hp1x : p1 x = true := by
        rw [hp1sem x hxt]
        intro hrt
        exact hdisj c2 h2 x.id (Or.inr ((hreachiff x.id).mp hrt)) hsub
      simp [hne, hp1x, hpx]
    have hP2' : ∀ f ∈ s.files,
        (∃ c2 ∈ cs, ∃ d, f.folder_id = some d ∧ (d = c2.id ∨ Reaches s c2.id d)) →
        (q1 f && qAcc f) = true := by
      intro f hf hex
      obtain ⟨c2, h2, d, hfd, hsub⟩ := hex
      have hqf : qAcc f = true := hP2 f hf ⟨c2, List.mem_cons_of_mem c h2, d, hfd, hsub⟩
      have hft : f ∈ t.files := by
        rw [hrelF]
        exact List.mem_filter.mpr ⟨hf, hqf⟩
      have hq1f : q1 f = true := by
        rw [hq1sem f hft]
        rintro ⟨d2, hfd2, hcase2⟩
        have hd2 : d2 = d := by
          rw [hfd] at hfd2
          exact (Option.some_inj.mp hfd2).symm
        rw [hd2] at hcase2
        rcases hcase2 with hl | hr
        · exact hdisj c2 h2 d (Or.inl hl) hsub
        · exact hdisj c2 h2 d (Or.inr ((hreachiff d).mp hr)) hsub
      rw [hq1f, hqf]
      rfl
    have hHD2 : ∀ c2 ∈ cs, ∀ d n, iterP s n d = some c2.id → n < fuel :=
      fun c2 h2 => hHD c2 (List.mem_cons_of_mem c h2)
    have hHS2 : ∀ f ∈ s.files,
        (∃ c2 ∈ cs, ∃ d, f.folder_id = some d ∧ (d = c2.id ∨ Reaches s c2.id d)) →
        f.storage_key ∉ b1.failing := by
      intro f hf hex
      rw [hfail1]
      obtain ⟨c2, h2, d, hfd, hsub⟩ := hex
      exact hHS f hf ⟨c2, List.mem_cons_of_mem c h2, d, hfd, hsub⟩
    obtain ⟨t3, b3, evs2, heq2, ⟨p2, hp2, hp2sem⟩, ⟨q2, hq2, hq2sem⟩, hcount2, hfail2,
      hordF2, hordG2⟩ :=
      ih { t1 with folders := t1.folders.filter (fun x => x.id != c.id) } b1
        (fun x => ((x.id != c.id) && p1 x) && pAcc x) (fun f => q1 f && qAcc f)
        hcs2 hndcs2 hrelG2 hrelF2 hP1' hP2' hHD2 hndF hHS2
    have hrun : foldSubs h (c :: cs) t b = (.ok t3, b3, evs1 ++ Ev.folderDel c.id :: evs2) := by
      simp only [foldSubs, heq1, heq2]
    refine ⟨t3, b3, evs1 ++ Ev.folderDel c.id :: evs2, hrun, ?_, ?_, ?_,
      hfail2.trans hfail1, ?_, ?_⟩
    · -- folder-table shape
      refine ⟨fun x => (p2 x && (x.id != c.id)) && p1 x, ?_, ?_⟩
      · rw [hp2]
        show (t1.folders.filter (fun x => x.id != c.id)).filter p2 = _
        rw [hp1, List.filter_filter, List.filter_filter]
      · intro x hx hpx
        have hxt : x ∈ t.folders := by
          rw [hrelG]
          exact List.mem_filter.mpr ⟨hx, hpx⟩
        constructor
        · intro hp
          have hcomp : (p2 x = true ∧ x.id ≠ c.id) ∧ p1 x = true := by
            simpa [Bool.and_eq_true, bne_iff_ne] using hp
          obtain ⟨⟨h1, h2⟩, h3⟩ := hcomp
          rintro ⟨c2, h2mem, hsub⟩
          rcases List.mem_cons.mp h2mem with rfl | htail
          · rcases hsub with hl | hr
            · exact h2 hl
            · exact (hp1sem x hxt).mp h3 ((hreachiff x.id).mpr hr)
          · have hpacc2 : (((x.id != c.id) && p1 x) && pAcc x) = true := by
              simp [h2, h3, hpx]
            exact (hp2sem x hx hpacc2).mp h1 ⟨c2, htail, hsub⟩
        · intro hnex
          have h2 : x.id ≠ c.id := fun hxc =>
            hnex ⟨c, List.mem_cons_self c cs, Or.inl hxc⟩
          have h3 : p1 x = true := by
            rw [hp1sem x hxt]
            intro hrt
            exact hnex ⟨c, List.mem_cons_self c cs, Or.inr ((hreachiff x.id).mp hrt)⟩
          have h1 : p2 x = true := by
            rw [hp2sem x hx (by simp [h2, h3, hpx])]
            rintro ⟨c2, htail, hsub⟩
            exact hnex ⟨c2, List.mem_cons_of_mem c htail, hsub⟩
          simp [h1, h2, h3]
    · -- file-table shape
      refine ⟨fun f => q2 f && q1 f, ?_, ?_⟩
      · rw [hq2]
        show t1.files.filter q2 = _
        rw [hq1, List.filter_filter]
      · intro f hf hqf
        have hft : f ∈ t.files := by
          rw [hrelF]
          exact List.mem_filter.mpr ⟨hf, hqf⟩
        constructor
        · intro hq
          have hcomp : q2 f = true ∧ q1 f = true := by
            simpa [Bool.and_eq_true] using hq
          obtain ⟨h1, h2⟩ := hcomp
          rintro ⟨c2, h2mem, d, hfd, hsub⟩
          rcases List.mem_cons.mp h2mem with rfl | htail
          · have hsubt : FInSub t c2.id f := by
              refine ⟨d, hfd, ?_⟩
              rcases hsub with hl | hr
              · exact Or.inl hl
              · exact Or.inr ((hreachiff d).mpr hr)
            exact (hq1sem f hft).mp h2 hsubt
          · have hq2t : (q1 f && qAcc f) = true := by simp [h2, hqf]
            exact (hq2sem f hf hq2t).mp h1 ⟨c2, htail, d, hfd, hsub⟩
        · intro hnex
          have h2 : q1 f = true := by
            rw [hq1sem f hft]
            rintro ⟨d, hfd, hcase⟩
            refine hnex ⟨c, List.mem_cons_self c cs, d, hfd, ?_⟩
            rcases hcase with hl | hr
            · exact Or.inl hl
            · exact Or.inr ((hreachiff d).mp hr)
          have h1 : q2 f = true := by
            rw [hq2sem f hf (by simp [h2, hqf])]
            rintro ⟨c2, htail, d, hfd, hsub⟩
            exact hnex ⟨c2, List.mem_cons_of_mem c htail, d, hfd, hsub⟩
          simp [h1, h2]
    · -- blob-delete count
      rw [blobDelCount_append, blobDelCount_cons_folderDel]
      have ht2files : ({ t1 with folders := t1.folders.filter (fun x => x.id != c.id) }
          : DBState).files = t1.files := rfl
      rw [ht2files] at hcount2
      omega
    · -- per-file trace decomposition
      intro f hf hqf hex
      obtain ⟨c2, h2mem, d, hfd, hsub⟩ := hex
      rcases List.mem_cons.mp h2mem with rfl | htail
      · have hft : f ∈ t.files := by
          rw [hrelF]
          exact List.mem_filter.mpr ⟨hf, hqf⟩
        have hsubt : FInSub t c2.id f := by
          refine ⟨d, hfd, ?_⟩
          rcases hsub with hl | hr
          · exact Or.inl hl
          · exact Or.inr ((hreachiff d).mpr hr)
        obtain ⟨l1, l2, hl⟩ := hordF1 f hft hsubt
        exact ⟨l1, l2 ++ Ev.folderDel c2.id :: evs2, decomp_append_right _ _ _ hl⟩
      · have hqf1 : q1 f = true := by
          rw [hq1sem f (by rw [hrelF]; exact List.mem_filter.mpr ⟨hf, hqf⟩)]
          rintro ⟨d2, hfd2, hcase2⟩
          have hd2 : d2 = d := by
            rw [hfd] at hfd2
            exact (Option.some_inj.mp hfd2).symm
          rw [hd2] at hcase2
          rcases hcase2 with hl | hr
          · exact hdisj c2 htail d (Or.inl hl) hsub
          · exact hdisj c2 htail d (Or.inr ((hreachiff d).mp hr)) hsub
        obtain ⟨l1, l2, hl⟩ := hordF2 f hf (by rw [hqf1, hqf]; rfl)
          ⟨c2, htail, d, hfd, hsub⟩
        exact ⟨evs1 ++ Ev.folderDel c.id :: l1, l2, decomp_cons_append _ _ _ _ hl⟩
    · -- per-folder trace decomposition (post-order)
      intro x hx hpx hex
      obtain ⟨c2, h2mem, hsub⟩ := hex
      have hxt : x ∈ t.folders := by
        rw [hrelG]
        exact List.mem_filter.mpr ⟨hx, hpx⟩
      rcases List.mem_cons.mp h2mem with rfl | htail
      · rcases hsub with hl | hr
        · refine ⟨evs1, evs2, by rw [hl], ?_⟩
          intro y hy hyp
          have hyr : Reaches s c2.id y.id :=
            reaches_parent hndG hy (by rw [hyp, hl])
          have hyacc : pAcc y = true :=
            hP1 y hy ⟨c2, List.mem_cons_self c2 cs, Or.inr hyr⟩
          have hyt : y ∈ t.folders := by
            rw [hrelG]
            exact List.mem_filter.mpr ⟨hy, hyacc⟩
          obtain ⟨u1, u2, hu, -⟩ := hordG1 y hyt ((hreachiff y.id).mpr hyr)
          rw [hu]
          simp
        · obtain ⟨l1, l2, hl, hch⟩ := hordG1 x hxt ((hreachiff x.id).mpr hr)
          refine ⟨l1, l2 ++ Ev.folderDel c2.id :: evs2, decomp1_append_right _ _ hl, ?_⟩
          intro y hy hyp
          have hyr : Reaches s c2.id y.id :=
            reaches_trans (reaches_parent hndG hy hyp) hr
          have hyacc : pAcc y = true :=
            hP1 y hy ⟨c2, List.mem_cons_self c2 cs, Or.inr hyr⟩
          have hyt : y ∈ t.folders := by
            rw [hrelG]
            exact List.mem_filter.mpr ⟨hy, hyacc⟩
          exact hch y hyt hyp
      · have hne : x.id ≠ c.id := fun hxc => hdisj c2 htail x.id (Or.inl hxc) hsub
        have hp1x : p1 x = true := by
          rw [hp1sem x hxt]
          intro hrt
          exact hdisj c2 htail x.id (Or.inr ((hreachiff x.id).mp hrt)) hsub
        have hpacc2 : (((x.id != c.id) && p1 x) && pAcc x) = true := by
          simp [hne, hp1x, hpx]
        obtain ⟨l1, l2, hl, hch⟩ := hordG2 x hx hpacc2 ⟨c2, htail, hsub⟩
        refine ⟨evs1 ++ Ev.folderDel c.id :: l1, l2, decomp1_cons_append _ _ _ hl, ?_⟩
        intro y hy hyp
        exact List.mem_append_right _ (List.mem_cons_of_mem _ (hch y hy hyp))

/-- `_delete_folder_contents` meets its contract whenever the fuel exceeds
the height of the target's subtree. -/
theorem contentsDel_ok : ∀ (fuel : Nat) (s : DBState) (b : Blob) (g : Nat),
    CDHyp fuel s b g → CDConc s b g (contentsDel fuel s b g) := by
  intro fuel
  induction fuel with
  | zero =>
    rintro s b g ⟨hA, hndG, hndF, hdepth, hsafe⟩
    exact absurd (hdepth g 0 rfl) (by omega)
  | succ fuel ih =>
    rintro s b g ⟨hA, hndG, hndF, hdepth, hsafe⟩
    have hsafeA : ∀ f ∈ filesIn s g, f.storage_key ∉ b.failing := by
      intro f hf
      have hmem := List.mem_of_mem_filter hf
      have hfg : f.folder_id = some g := by
        have := List.of_mem_filter hf
        simpa using this
      exact hsafe f hmem ⟨g, hfg, Or.inl rfl⟩
    obtain ⟨bA, heqA, hfailA⟩ := deleteFilesIn_run (filesIn s g) s b hsafeA
    have hfilesA : s.files.filter (fun x => !((filesIn s g).any (fun f => f.id == x.id)))
        = s.files.filter (fun f => !(f.folder_id == some g)) := by
      apply List.filter_congr
      intro x hx
      have hany : ((filesIn s g).any (fun f => f.id == x.id)) = (x.folder_id == some g) := by
        apply Bool.eq_iff_iff.mpr
        constructor
        · intro hq
          obtain ⟨f2, hf2, hbeq⟩ := List.any_eq_true.mp hq
          have hf2mem := List.mem_of_mem_filter hf2
          have hid : f2.id = x.id := by simpa using hbeq
          have hfx : f2 = x := List.inj_on_of_nodup_map hndF hf2mem hx hid
          rw [← hfx]
          have hf2b : f2 ∈ s.files.filter (fun f => f.folder_id == some g) := hf2
          have hmemf := List.of_mem_filter hf2b
          simpa using hmemf
        · intro hbeq
          apply List.any_eq_true.mpr
          exact ⟨x, List.mem_filter.mpr ⟨hx, hbeq⟩, by simp⟩
      rw [hany]
    have heqA2 : deleteFilesIn (filesIn s g) s b
        = (.ok { s with files := s.files.filter (fun f => !(f.folder_id == some g)) }, bA,
           (filesIn s g).flatMap (fun f => [Ev.blobDel f.storage_key, Ev.fileDel f.id])) := by
      rw [heqA, hfilesA]
    obtain ⟨sA, hsAdef⟩ : ∃ sA : DBState,
        ({ s with files := s.files.filter (fun f => !(f.folder_id == some g)) } : DBState)
          = sA := ⟨_, rfl⟩
    rw [hsAdef] at heqA2
    have hfoldA : sA.folders = s.folders := by rw [← hsAdef]
    have hfilA : sA.files = s.files.filter (fun f => !(f.folder_id == some g)) := by
      rw [← hsAdef]
    have hch : childrenOf sA g = childrenOf s g := by
      simp only [childrenOf, hfoldA]
    have hndG_A : (sA.folders.map Folder.id).Nodup := by
      rw [hfoldA]
      exact hndG
    have hA_A : Acyclic sA := acyclic_folders_eq hfoldA hA
    have hcsA : ∀ c ∈ childrenOf sA g, c ∈ sA.folders ∧ c.parent = some g := by
      intro c hc
      have hc2 : c ∈ sA.folders.filter (fun x => x.parent == some g) := hc
      obtain ⟨h1, h2⟩ := List.mem_filter.mp hc2
      exact ⟨h1, by simpa using h2⟩
    have hndcsA : ((childrenOf sA g).map Folder.id).Nodup :=
      ((List.filter_sublist sA.folders).map Folder.id).nodup hndG_A
    have hHD_A : ∀ c ∈ childrenOf sA g, ∀ d n, iterP sA n d = some c.id → n < fuel := by
      intro c hc d n hdn
      obtain ⟨hcmemA, hcpar⟩ := hcsA c hc
      have hcmem : c ∈ s.folders := by rw [← hfoldA]; exact hcmemA
      have hdn_s : iterP s n d = some c.id := by
        rw [← iterP_folders_eq hfoldA n d]
        exact hdn
      have hext : iterP s (n + 1) d = some g := by
        rw [iterP_add s n 1 d, hdn_s]
        simp only [Option.some_bind]
        rw [iterP_one, parentOf, findFolder_of_mem hndG hcmem]
        exact hcpar
      have hlt := hdepth d (n + 1) hext
      omega
    have hndF_A : (sA.files.map FileRec.id).Nodup := by
      rw [hfilA]
      exact ((List.filter_sublist s.files).map FileRec.id).nodup hndF
    have hHS_A : ∀ f ∈ sA.files,
        (∃ c ∈ childrenOf sA g, ∃ d, f.folder_id = some d ∧ (d = c.id ∨ Reaches sA c.id d)) →
        f.storage_key ∉ bA.failing := by
      intro f hf hex
      rw [hfailA]
      obtain ⟨c, hc, d, hfd, hsub⟩ := hex
      obtain ⟨hcmemA, hcpar⟩ := hcsA c hc
      have hcmem : c ∈ s.folders := by rw [← hfoldA]; exact hcmemA
      have hfs : f ∈ s.files := by
        rw [hfilA] at hf
        exact List.mem_of_mem_filter hf
      apply hsafe f hfs
      refine ⟨d, hfd, Or.inr ?_⟩
      rcases hsub with hl | hr
      · rw [hl]
        exact reaches_parent hndG hcmem hcpar
      · exact reaches_trans ((reaches_folders_eq hfoldA c.id d).mp hr)
          (reaches_parent hndG hcmem hcpar)
    obtain ⟨t1, b1, evs2, heqB, ⟨p, hp, hpsem⟩, ⟨q, hq, hqsem⟩, hcountB, hfailB,
      hordFB, hordGB⟩ :=
      foldSubs_ok fuel (contentsDel fuel) sA g hA_A hndG_A ih (childrenOf sA g) sA bA
        (fun _ => true) (fun _ => true) hcsA hndcsA
        (List.filter_true sA.folders).symm (List.filter_true sA.files).symm
        (fun x hx hex => rfl) (fun f hf hex => rfl) hHD_A hndF_A hHS_A
    have hrun : contentsDel (fuel + 1) s b g = (.ok t1, b1,
        (filesIn s g).flatMap (fun f => [Ev.blobDel f.storage_key, Ev.fileDel f.id])
          ++ evs2) := by
      simp only [contentsDel, heqA2, heqB]
    refine ⟨t1, b1,
      (filesIn s g).flatMap (fun f => [Ev.blobDel f.storage_key, Ev.fileDel f.id]) ++ evs2,
      hrun, ?_, ?_, ?_, hfailB.trans hfailA, ?_, ?_⟩
    · -- folder table: strict descendants of `g` removed
      refine ⟨p, by rw [← hfoldA]; exact hp, ?_⟩
      intro x hx
      have hxA : x ∈ sA.folders := by rw [hfoldA]; exact hx
      have hiff := hpsem x hxA rfl
      rw [hiff]
      constructor
      · intro hnex hreach
        obtain ⟨c, hc, hcase⟩ := (reaches_via_child hndG).mp hreach
        apply hnex
        refine ⟨c, by rw [hch]; exact hc, ?_⟩
        rcases hcase with hl | hr
        · exact Or.inl hl
        · exact Or.inr ((reaches_folders_eq hfoldA c.id x.id).mpr hr)
      · intro hnr hex
        obtain ⟨c, hc, hcase⟩ := hex
        apply hnr
        apply (reaches_via_child hndG).mpr
        refine ⟨c, by rw [← hch]; exact hc, ?_⟩
        rcases hcase with hl | hr
        · exact Or.inl hl
        · exact Or.inr ((reaches_folders_eq hfoldA c.id x.id).mp hr)
    · -- file table: subtree files removed
      refine ⟨fun f => q f && !(f.folder_id == some g), ?_, ?_⟩
      · rw [hq, hfilA, List.filter_filter]
      · intro f hf
        constructor
        · intro hqt hsub
          have hcomp : q f = true ∧ (f.folder_id == some g) = false := by
            simpa [Bool.and_eq_true, Bool.not_eq_true'] using hqt
          obtain ⟨hqf, hbeq⟩ := hcomp
          obtain ⟨d, hfd, hcase⟩ := hsub
          have hfA : f ∈ sA.files := by
            rw [hfilA]
            exact List.mem_filter.mpr ⟨hf, by simp [hbeq]⟩
          have hdg : d ≠ g := by
            intro hdg
            rw [hdg] at hfd
            simp [hfd] at hbeq
          have hreach : Reaches s g d := by
            rcases hcase with hl | hr
            · exact absurd hl hdg
            · exact hr
          obtain ⟨c, hc, hcase2⟩ := (reaches_via_child hndG).mp hreach
          apply (hqsem f hfA rfl).mp hqf
          refine ⟨c, by rw [hch]; exact hc, d, hfd, ?_⟩
          rcases hcase2 with hl | hr
          · exact Or.inl hl
          · exact Or.inr ((reaches_folders_eq hfoldA c.id d).mpr hr)
        · intro hnsub
          have hbeq : (f.folder_id == some g) = false := by
            cases hfg : f.folder_id == some g
            · rfl
            · exfalso
              apply hnsub
              exact ⟨g, by simpa using hfg, Or.inl rfl⟩
          have hfA : f ∈ sA.files := by
            rw [hfilA]
            exact List.mem_filter.mpr ⟨hf, by simp [hbeq]⟩
          have hqf : q f = true := by
            rw [hqsem f hfA rfl]
            rintro ⟨c, hc, d, hfd, hcase⟩
            apply hnsub
            refine ⟨d, hfd, Or.inr ?_⟩
            apply (reaches_via_child hndG).mpr
            refine ⟨c, by rw [← hch]; exact hc, ?_⟩
            rcases hcase with hl | hr
            · exact Or.inl hl
            · exact Or.inr ((reaches_folders_eq hfoldA c.id d).mp hr)
          simp [hqf, hbeq]
    · -- count
      rw [blobDelCount_append, blobDelCount_pairs]
      have hlen : (filesIn s g).length
          + (s.files.filter (fun f => !(f.folder_id == some g))).length
          = s.files.length := by
        have h0 := length_filter_not (fun f : FileRec => f.folder_id == some g) s.files
        exact h0
      have hfilArw : sA.files.length
          = (s.files.filter (fun f => !(f.folder_id == some g))).length := by
        rw [hfilA]
      omega
    · -- per-file adjacency
      intro f hf hsub
      obtain ⟨d, hfd, hcase⟩ := hsub
      by_cases hfg : f.folder_id = some g
      · have hfin : f ∈ filesIn s g := List.mem_filter.mpr ⟨hf, by simp [hfg]⟩
        obtain ⟨l1, l2, hl⟩ := pairs_decomp hfin
        exact ⟨l1, l2 ++ evs2, decomp_append_right _ _ _ hl⟩
      · have hdg : d ≠ g := by
          intro hdg
          apply hfg
          rw [hfd, hdg]
        have hreach : Reaches s g d := by
          rcases hcase with hl | hr
          · exact absurd hl hdg
          · exact hr
        obtain ⟨c, hc, hcase2⟩ := (reaches_via_child hndG).mp hreach
        have hfA : f ∈ sA.files := by
          rw [hfilA]
          refine List.mem_filter.mpr ⟨hf, ?_⟩
          simp [hfd, hdg]
        obtain ⟨l1, l2, hl⟩ := hordFB f hfA rfl ⟨c, by rw [hch]; exact hc, d, hfd, by
          rcases hcase2 with hl2 | hr2
          · exact Or.inl hl2
          · exact Or.inr ((reaches_folders_eq hfoldA c.id d).mpr hr2)⟩
        exact ⟨(filesIn s g).flatMap (fun f2 => [Ev.blobDel f2.storage_key, Ev.fileDel f2.id])
          ++ l1, l2, decomp_append_left _ _ _ hl⟩
    · -- per-folder post-order
      intro x hx hreach
      obtain ⟨c, hc, hcase⟩ := (reaches_via_child hndG).mp hreach
      have hxA : x ∈ sA.folders := by rw [hfoldA]; exact hx
      obtain ⟨l1, l2, hl, hchild⟩ := hordGB x hxA rfl ⟨c, by rw [hch]; exact hc, by
        rcases hcase with hl2 | hr2
        · exact Or.inl hl2
        · exact Or.inr ((reaches_folders_eq hfoldA c.id x.id).mpr hr2)⟩
      refine ⟨(filesIn s g).flatMap (fun f2 => [Ev.blobDel f2.storage_key, Ev.fileDel f2.id])
        ++ l1, l2, decomp1_append_left _ _ hl, ?_⟩
      intro y hy hyp
      have hyA : y ∈ sA.folders := by rw [hfoldA]; exact hy
      exact List.mem_append_right _ (hchild y hyA hyp)

/-- On acyclic states the bounded subtree check agrees with `FInSub`. -/
theorem fileSubB_iff {s : DBState} (hA : Acyclic s) (F : Nat) (f : FileRec) :
    fileSubB s F f = true ↔ FInSub s F f := by
  simp only [fileSubB, FInSub]
  cases hfd : f.folder_id with
  | none => simp
  | some d =>
    show (d == F || reachInB s s.folders.length F d) = true
      ↔ ∃ d2, some d = some d2 ∧ (d2 = F ∨ Reaches s F d2)
    constructor
    · intro hq
      rw [Bool.or_eq_true] at hq
      rcases hq with h1 | h2
      · exact ⟨d, rfl, Or.inl (by simpa using h1)⟩
      · exact ⟨d, rfl, Or.inr ((reachInB_iff hA F d).mp h2)⟩
    · rintro ⟨d2, hd2, hcase⟩
      have hdd : d2 = d := (Option.some_inj.mp hd2).symm
      rw [hdd] at hcase
      rw [Bool.or_eq_true]
      rcases hcase with hl | hr
      · exact Or.inl (by simpa using hl)
      · exact Or.inr ((reachInB_iff hA F d).mpr hr)

/-- **C2.**  `delete_folder(F, recursive=true)` by an actor passing the
access check, on an acyclic forest with unique primary keys and a store
that does not fail on the subtree's files: every File record whose
`folder_id` lies in F's subtree is removed (and no other), every Folder
record of the subtree including F itself is removed (and no other),
exactly N blob-store deletes are issued where N is the number of subtree
file records, each file's blob delete is immediately followed by its
record removal, and each subtree folder's record removal comes after
those of all of its children (post-order), with F itself deleted last. -/
theorem claim_C2_recursive_delete
    (ctx : Ctx) (s : DBState) (b : Blob) (F : Nat) (folder : Folder)
    (hA : Acyclic s)
    (hndG : (s.folders.map Folder.id).Nodup)
    (hndF : (s.files.map FileRec.id).Nodup)
    (hf : findFolder s F = some folder)
    (hacc : (!ctx.is_admin && folder.created_by != ctx.user_id) = false)
    (hsafe : ∀ f ∈ s.files, FInSub s F f → f.storage_key ∉ b.failing) :
    ∃ s1 b1 evs,
      deleteFolder ctx s b F true = (.ok s1, b1, evs) ∧
      s1.files = s.files.filter (fun f => !(fileSubB s F f)) ∧
      s1.folders = s.folders.filter
        (fun x => !(x.id == F || reachInB s s.folders.length F x.id)) ∧
      blobDelCount evs = (s.files.filter (fun f => fileSubB s F f)).length ∧
      (∀ f ∈ s.files, fileSubB s F f = true →
        ∃ l1 l2, evs = l1 ++ Ev.blobDel f.storage_key :: Ev.fileDel f.id :: l2) ∧
      (∀ x ∈ s.folders, (x.id == F || reachInB s s.folders.length F x.id) = true →
        ∃ l1 l2, evs = l1 ++ Ev.folderDel x.id :: l2 ∧
          ∀ y ∈ s.folders, y.parent = some x.id → Ev.folderDel y.id ∈ l1) := by
  have hdepth : ∀ d n, iterP s n d = some F → n < s.folders.length + 1 := by
    intro d n hdn
    rcases Nat.eq_zero_or_pos n with h0 | h1
    · omega
    · have := iterP_le_length hA hdn
      omega
  obtain ⟨t1, b1, evs, heq, ⟨p, hp, hpsem⟩, ⟨q, hq, hqsem⟩, hcount, hfail,
    hordF, hordG⟩ :=
    contentsDel_ok (s.folders.length + 1) s b F ⟨hA, hndG, hndF, hdepth, hsafe⟩
  have hrun : deleteFolder ctx s b F true
      = (.ok { t1 with folders := t1.folders.filter (fun x => x.id != F) }, b1,
         evs ++ [Ev.folderDel F]) := by
    simp [deleteFolder, hf, hacc, heq]
  have hfiles : t1.files = s.files.filter (fun f => !(fileSubB s F f)) := by
    rw [hq]
    apply List.filter_congr
    intro f hf2
    apply bool_eq_not_of_iff
    rw [hqsem f hf2]
    exact not_congr (fileSubB_iff hA F f).symm
  have hfolders : t1.folders.filter (fun x => x.id != F)
      = s.folders.filter
        (fun x => !(x.id == F || reachInB s s.folders.length F x.id)) := by
    rw [hp, List.filter_filter]
    apply List.filter_congr
    intro x hx
    apply bool_eq_not_of_iff
    constructor
    · intro hand
      have hcomp : x.id ≠ F ∧ p x = true := by
        simpa [Bool.and_eq_true, bne_iff_ne, and_comm] using hand
      obtain ⟨h1, h2⟩ := hcomp
      intro hor
      rw [Bool.or_eq_true] at hor
      rcases hor with ha | hb
      · exact h1 (by simpa using ha)
      · exact (hpsem x hx).mp h2 ((reachInB_iff hA F x.id).mp hb)
    · intro hnor
      have h1 : x.id ≠ F := by
        intro hxF
        apply hnor
        rw [Bool.or_eq_true]
        exact Or.inl (by simpa using hxF)
      have h2 : p x = true := by
        rw [hpsem x hx]
        intro hre
        apply hnor
        rw [Bool.or_eq_true]
        exact Or.inr ((reachInB_iff hA F x.id).mpr hre)
      simp [h1, h2]
  refine ⟨{ t1 with folders := t1.folders.filter (fun x => x.id != F) }, b1,
    evs ++ [Ev.folderDel F], hrun, hfiles, hfolders, ?_, ?_, ?_⟩
  · -- exactly one blob delete per subtree file
    rw [blobDelCount_append]
    have hone : blobDelCount [Ev.folderDel F] = 0 := rfl
    rw [hone]
    have hlen := length_filter_not (fun f : FileRec => fileSubB s F f) s.files
    have ht1 : t1.files.length
        = (s.files.filter (fun f => !(fileSubB s F f))).length := by
      rw [hfiles]
    omega
  · -- blob delete immediately followed by the record delete
    intro f hf2 hfsb
    obtain ⟨l1, l2, hl⟩ := hordF f hf2 ((fileSubB_iff hA F f).mp hfsb)
    exact ⟨l1, l2 ++ [Ev.folderDel F], decomp_append_right _ _ _ hl⟩
  · -- post-order folder removal
    intro x hx hor
    rw [Bool.or_eq_true] at hor
    rcases hor with ha | hb
    · have hxF : x.id = F := by simpa using ha
      refine ⟨evs, [], by rw [hxF], ?_⟩
      intro y hy hyp
      have hyr : Reaches s F y.id := reaches_parent hndG hy (by rw [hyp, hxF])
      obtain ⟨u1, u2, hu, -⟩ := hordG y hy hyr
      rw [hu]
      simp
    · have hre : Reaches s F x.id := (reachInB_iff hA F x.id).mp hb
      obtain ⟨l1, l2, hl, hchild⟩ := hordG x hx hre
      exact ⟨l1, l2 ++ [Ev.folderDel F], decomp1_append_right _ _ hl, hchild⟩

/-- Closed witness for `claim_C2_recursive_delete`: deleting folder 1
(child folder 2; files 10 in folder 1, 11 in folder 2, 12 at root) removes
folders 1 and 2 and files 10 and 11, keeps file 12, and issues exactly two
blob deletes. -/
theorem claim_C2_recursive_delete_witness :
    ∃ s1 b1 evs,
      deleteFolder { user_id := 7, is_admin := false }
        { folders := [{ id := 1, name := "docs", parent := none, created_by := 7 },
                      { id := 2, name := "sub", parent := some 1, created_by := 7 }],
          files := [{ id := 10, original_name := "a.txt", slug := none,
                      storage_key := "k10", size := 1, content_type := none,
                      is_public := false, description := none, file_type := none,
                      tags := none, folder_id := some 1, uploaded_by := 7 },
                    { id := 11, original_name := "b.txt", slug := none,
                      storage_key := "k11", size := 1, content_type := none,
                      is_public := false, description := none, file_type := none,
                      tags := none, folder_id := some 2, uploaded_by := 7 },
                    { id := 12, original_name := "c.txt", slug := none,
                      storage_key := "k12", size := 1, content_type := none,
                      is_public := false, description := none, file_type := none,
                      tags := none, folder_id := none, uploaded_by := 7 }] }
        { objects := ["k10", "k11", "k12"], failing := [] } 1 true
        = (.ok s1, b1, evs) ∧
      s1.files = [{ id := 12, original_name := "c.txt", slug := none,
                    storage_key := "k12", size := 1, content_type := none,
                    is_public := false, description := none, file_type := none,
                    tags := none, folder_id := none, uploaded_by := 7 }] ∧
      s1.folders = [] ∧
      blobDelCount evs = 2 := by
  obtain ⟨s1, b1, evs, hrun, hfiles, hfolders, hcount, -, -⟩ :=
    claim_C2_recursive_delete { user_id := 7, is_admin := false }
      { folders := [{ id := 1, name := "docs", parent := none, created_by := 7 },
                    { id := 2, name := "sub", parent := some 1, created_by := 7 }],
        files := [{ id := 10, original_name := "a.txt", slug := none,
                    storage_key := "k10", size := 1, content_type := none,
                    is_public := false, description := none, file_type := none,
                    tags := none, folder_id := some 1, uploaded_by := 7 },
                  { id := 11, original_name := "b.txt", slug := none,
                    storage_key := "k11", size := 1, content_type := none,
                    is_public := false, description := none, file_type := none,
                    tags := none, folder_id := some 2, uploaded_by := 7 },
                  { id := 12, original_name := "c.txt", slug := none,
                    storage_key := "k12", size := 1, content_type := none,
                    is_public := false, description := none, file_type := none,
                    tags := none, folder_id := none, uploaded_by := 7 }] }
      { objects := ["k10", "k11", "k12"], failing := [] } 1
      { id := 1, name := "docs", parent := none, created_by := 7 }
      (acyclic_of_acyclicB (by decide)) (by decide) (by decide) rfl (by decide)
      (fun f _ _ => List.not_mem_nil f.storage_key)
  refine ⟨s1, b1, evs, hrun, ?_, ?_, ?_⟩
  · rw [hfiles]
    rfl
  · rw [hfolders]
    rfl
  · rw [hcount]
    rfl

theorem find?_append_some {α : Type} {l1 l2 : List α} {p : α → Bool} {a : α}
    (h : l1.find? p = some a) : (l1 ++ l2).find? p = some a := by
  rw [List.find?_append, h]
  rfl

/-- Success shape of `update_folder`: the committed state replaces the
target row by a mutated row with the same id whose parent pointer is
either unchanged (no `parent_id` in the payload) or the supplied value. -/
theorem updateFolder_ok_shape {ctx : Ctx} {s : DBState} {fid : Nat} {d : FolderUpd}
    {s1 : DBState} (h : updateFolder ctx s fid d = .ok s1) :
    ∃ folder g1, findFolder s fid = some folder ∧ s1 = applyUpdate s fid g1 ∧
      g1.id = folder.id ∧
      ((d.parent_id = none ∧ g1.parent = folder.parent) ∨
        (∃ pid, d.parent_id = some pid ∧ g1.parent = some pid)) := by
  cases hf : findFolder s fid with
  | none =>
    simp only [updateFolder, hf] at h
    exact absurd h (by simp)
  | some folder =>
    simp only [updateFolder, hf] at h
    by_cases hacc : (!ctx.is_admin && folder.created_by != ctx.user_id) = true
    · rw [if_pos hacc] at h
      exact absurd h (by simp)
    · rw [if_neg hacc] at h
      cases hmv : moveCheck s fid folder d with
      | error e =>
        rw [hmv] at h
        exact absurd h (by simp)
      | ok folder1 =>
        rw [hmv] at h
        have h3 : renameStep s fid folder1 d = .ok s1 := h
        have hmove : folder1.id = folder.id ∧
            ((d.parent_id = none ∧ folder1.parent = folder.parent) ∨
              (∃ pid, d.parent_id = some pid ∧ folder1.parent = some pid)) := by
          cases hdp : d.parent_id with
          | none =>
            simp only [moveCheck, hdp] at hmv
            have he : folder = folder1 := by simpa using hmv
            rw [← he]
            exact ⟨rfl, Or.inl ⟨rfl, rfl⟩⟩
          | some pid =>
            simp only [moveCheck, hdp] at hmv
            by_cases h1 : (pid == fid) = true
            · rw [if_pos h1] at hmv
              exact absurd hmv (by simp)
            · rw [if_neg h1] at hmv
              by_cases hdes : isDescendant s s.folders.length fid pid = true
              · rw [if_pos hdes] at hmv
                exact absurd hmv (by simp)
              · rw [if_neg hdes] at hmv
                have he : ({ folder with parent := some pid } : Folder) = folder1 := by
                  simpa using hmv
                rw [← he]
                exact ⟨rfl, Or.inr ⟨pid, rfl, rfl⟩⟩
        cases hdn : d.name with
        | none =>
          simp only [renameStep, hdn] at h3
          have hs1 : applyUpdate s fid folder1 = s1 := by simpa using h3
          exact ⟨folder, folder1, rfl, hs1.symm, hmove.1, hmove.2⟩
        | some nm =>
          simp only [renameStep, hdn] at h3
          by_cases hnm : nm = ""
          · rw [if_pos hnm] at h3
            have hs1 : applyUpdate s fid folder1 = s1 := by simpa using h3
            exact ⟨folder, folder1, rfl, hs1.symm, hmove.1, hmove.2⟩
          · rw [if_neg hnm] at h3
            by_cases hdup : dupNameExists s nm folder1.parent fid = true
            · rw [if_pos hdup] at h3
              exact absurd h3 (by simp)
            · rw [if_neg hdup] at h3
              have hs1 : applyUpdate s fid { folder1 with name := nm } = s1 := by
                simpa using h3
              refine ⟨folder, { folder1 with name := nm }, rfl, hs1.symm, hmove.1, ?_⟩
              rcases hmove.2 with ⟨hdp2, hpar⟩ | ⟨pid, hdp2, hpar⟩
              · exact Or.inl ⟨hdp2, hpar⟩
              · exact Or.inr ⟨pid, hdp2, hpar⟩

/-- Success shape of `create_folder`: the new row is appended, existing
rows untouched. -/
theorem createFolder_ok_shape {ctx : Ctx} {s : DBState} {fc : FolderNew} {uid nid : Nat}
    {s1 : DBState} (h : createFolder ctx s fc uid nid = .ok s1) :
    s1.folders = s.folders ++
      [{ id := nid, name := fc.name, parent := fc.parent_id, created_by := uid }] := by
  cases hpc : createParentCheck ctx s fc.parent_id uid with
  | error e =>
    simp only [createFolder, hpc] at h
    exact absurd h (by simp)
  | ok u =>
    simp only [createFolder, hpc] at h
    by_cases hdup : createDupB s fc.name fc.parent_id uid = true
    · rw [if_pos hdup] at h
      exact absurd h (by simp)
    · rw [if_neg hdup] at h
      have he : ({ s with folders := s.folders ++
          [{ id := nid, name := fc.name, parent := fc.parent_id, created_by := uid }] }
            : DBState) = s1 := by
        simpa using h
      rw [← he]

/-- The file loop never touches the folder table. -/
theorem deleteFilesIn_folders : ∀ (fs : List FileRec) (s : DBState) (b : Blob)
    (s1 : DBState) (b1 : Blob) (evs : List Ev),
    deleteFilesIn fs s b = (.ok s1, b1, evs) → s1.folders = s.folders := by
  intro fs
  induction fs with
  | nil =>
    intro s b s1 b1 evs h
    have h2 : ((Except.ok s : Except ApiError DBState), b, ([] : List Ev))
        = (.ok s1, b1, evs) := h
    rw [Prod.mk.injEq, Prod.mk.injEq] at h2
    obtain ⟨hok, -, -⟩ := h2
    have hss : s = s1 := by injection hok
    rw [← hss]
  | cons f fs ih =>
    intro s b s1 b1 evs h
    cases hbd : blobDelete b f.storage_key with
    | error e =>
      simp only [deleteFilesIn, hbd] at h
      exact absurd h (by simp)
    | ok b2 =>
      simp only [deleteFilesIn, hbd] at h
      rcases hr : deleteFilesIn fs
        { s with files := s.files.filter (fun x => x.id != f.id) } b2 with ⟨re, rb, rev⟩
      simp only [hr] at h
      rw [Prod.mk.injEq, Prod.mk.injEq] at h
      obtain ⟨hok, -, -⟩ := h
      cases re with
      | error e => exact absurd hok (by simp)
      | ok s2 =>
        have hss : s2 = s1 := by injection hok
        have hfold := ih _ b2 s2 rb rev hr
        rw [← hss, hfold]

/-- Surviving folder rows of the sibling loop are rows of the entry
state, given the same property of the handler. -/
theorem foldSubs_sub (h : DBState → Blob → Nat → (Except ApiError DBState) × Blob × List Ev)
    (hh : ∀ t b2 c t1 b1 evs, h t b2 c = (.ok t1, b1, evs) →
      ∀ x ∈ t1.folders, x ∈ t.folders) :
    ∀ (cs : List Folder) (t : DBState) (b : Blob) (t1 : DBState) (b1 : Blob) (evs : List Ev),
      foldSubs h cs t b = (.ok t1, b1, evs) → ∀ x ∈ t1.folders, x ∈ t.folders := by
  intro cs
  induction cs with
  | nil =>
    intro t b t1 b1 evs hfs x hx
    have h2 : ((Except.ok t : Except ApiError DBState), b, ([] : List Ev))
        = (.ok t1, b1, evs) := hfs
    rw [Prod.mk.injEq, Prod.mk.injEq] at h2
    obtain ⟨hok, -, -⟩ := h2
    have htt : t = t1 := by injection hok
    rw [← htt] at hx
    exact hx
  | cons c cs ih =>
    intro t b t1 b1 evs hfs x hx
    rcases hr1 : h t b c.id with ⟨re1, rb1, rev1⟩
    cases re1 with
    | error e =>
      simp only [foldSubs, hr1] at hfs
      exact absurd hfs (by simp)
    | ok s1 =>
      simp only [foldSubs, hr1] at hfs
      rcases hr2 : foldSubs h cs
        { s1 with folders := s1.folders.filter (fun x => x.id != c.id) } rb1
        with ⟨re2, rb2, rev2⟩
      simp only [hr2] at hfs
      rw [Prod.mk.injEq, Prod.mk.injEq] at hfs
      obtain ⟨hok, -, -⟩ := hfs
      cases re2 with
      | error e => exact absurd hok (by simp)
      | ok s2 =>
        have hss : s2 = t1 := by injection hok
        rw [← hss] at hx
        have hx2 := ih _ rb1 s2 rb2 rev2 hr2 x hx
        have hx3 : x ∈ s1.folders := List.mem_of_mem_filter hx2
        exact hh t b c.id s1 rb1 rev1 hr1 x hx3

/-- Surviving folder rows of `_delete_folder_contents` are rows of the
call state. -/
theorem contentsDel_sub : ∀ (fuel : Nat) (s : DBState) (b : Blob) (g : Nat)
    (s1 : DBState) (b1 : Blob) (evs : List Ev),
    contentsDel fuel s b g = (.ok s1, b1, evs) → ∀ x ∈ s1.folders, x ∈ s.folders := by
  intro fuel
  induction fuel with
  | zero =>
    intro s b g s1 b1 evs h
    exact absurd h (by simp [contentsDel])
  | succ fuel ih =>
    intro s b g s1 b1 evs h x hx
    rcases hr1 : deleteFilesIn (filesIn s g) s b with ⟨re1, rb1, rev1⟩
    cases re1 with
    | error e =>
      simp only [contentsDel, hr1] at h
      exact absurd h (by simp)
    | ok sA =>
      simp only [contentsDel, hr1] at h
      rcases hr2 : foldSubs (contentsDel fuel) (childrenOf sA g) sA rb1
        with ⟨re2, rb2, rev2⟩
      simp only [hr2] at h
      rw [Prod.mk.injEq, Prod.mk.injEq] at h
      obtain ⟨hok, -, -⟩ := h
      cases re2 with
      | error e => exact absurd hok (by simp)
      | ok s2 =>
        have hss : s2 = s1 := by injection hok
        rw [← hss] at hx
        have hx2 := foldSubs_sub (contentsDel fuel) ih (childrenOf sA g) sA rb1
          s2 rb2 rev2 hr2 x hx
        have hfold := deleteFilesIn_folders (filesIn s g) s b sA rb1 rev1 hr1
        rw [hfold] at hx2
        exact hx2

/-- **C10.**  A payload whose `parent_id` is absent or null leaves every
parent pointer exactly as it was (null means "not provided", not "move to
root"); and none of the folder-service write operations — create, update,
delete — can turn an existing folder's parent pointer into null: rows other
than the update target are never touched, the update target's parent is
either kept or set to the non-null supplied value, `create_folder` only
appends a row, and `delete_folder` only removes rows. -/
theorem claim_C10_parent_frame :
    (∀ ctx s fid d s1, d.parent_id = none →
        updateFolder ctx s fid d = .ok s1 →
        ∀ x, parentOf s1 x = parentOf s x)
    ∧ (∀ ctx s fc uid nid s1 i pp,
        createFolder ctx s fc uid nid = .ok s1 →
        parentOf s i = some pp → parentOf s1 i = some pp)
    ∧ (∀ ctx s fid d s1 i pp,
        updateFolder ctx s fid d = .ok s1 →
        parentOf s i = some pp → parentOf s1 i ≠ none)
    ∧ (∀ ctx s b fid rec s1 b1 evs i pp,
        (s.folders.map Folder.id).Nodup →
        deleteFolder ctx s b fid rec = (.ok s1, b1, evs) →
        parentOf s i = some pp →
        ∀ g, findFolder s1 i = some g → g.parent ≠ none) := by
  refine ⟨?_, ?_, ?_, ?_⟩
  · -- parent_id null: full frame
    intro ctx s fid d s1 hdp h x
    obtain ⟨folder, g1, hf, hs1, hid, hcase⟩ := updateFolder_ok_shape h
    rcases hcase with ⟨-, hpar⟩ | ⟨pid, hdp2, -⟩
    · rw [hs1]
      exact parentOf_applyUpdate_same hf (by rw [hid, findFolder_id hf]) hpar x
    · rw [hdp] at hdp2
      exact absurd hdp2 (by simp)
  · -- create preserves parents
    intro ctx s fc uid nid s1 i pp h hpp
    have hsh := createFolder_ok_shape h
    cases hfi : findFolder s i with
    | none =>
      rw [parentOf, hfi] at hpp
      simp at hpp
    | some g0 =>
      rw [parentOf, findFolder, hsh,
        find?_append_some (show s.folders.find? (fun g => g.id == i) = some g0 from hfi)]
      rw [parentOf, hfi] at hpp
      exact hpp
  · -- update never nulls a parent
    intro ctx s fid d s1 i pp h hpp
    obtain ⟨folder, g1, hf, hs1, hid, hcase⟩ := updateFolder_ok_shape h
    have hid2 : g1.id = fid := by rw [hid]; exact findFolder_id hf
    by_cases hi : i = fid
    · subst hi
      rw [hs1, parentOf_applyUpdate_self hf hid2]
      rcases hcase with ⟨-, hpar⟩ | ⟨pid, -, hpar⟩
      · rw [hpar]
        rw [parentOf, hf] at hpp
        have hfp : folder.parent = some pp := by simpa using hpp
        rw [hfp]
        simp
      · rw [hpar]
        simp
    · rw [hs1, parentOf_applyUpdate_other hi hid2, hpp]
      simp
  · -- delete never nulls a surviving parent
    intro ctx s b fid rec s1 b1 evs i pp hnd hdel hpp
    have hsub : ∀ x ∈ s1.folders, x ∈ s.folders := by
      cases hf : findFolder s fid with
      | none =>
        simp only [deleteFolder, hf] at hdel
        exact absurd hdel (by simp)
      | some folder =>
        simp only [deleteFolder, hf] at hdel
        by_cases hacc2 : (!ctx.is_admin && folder.created_by != ctx.user_id) = true
        · rw [if_pos hacc2] at hdel
          exact absurd hdel (by simp)
        · rw [if_neg hacc2] at hdel
          cases rec with
          | true =>
            rw [if_pos rfl] at hdel
            rcases hr : contentsDel (s.folders.length + 1) s b fid with ⟨re, rb, rev⟩
            cases re with
            | error e =>
              simp only [hr] at hdel
              exact absurd hdel (by simp)
            | ok s2 =>
              simp only [hr] at hdel
              rw [Prod.mk.injEq, Prod.mk.injEq] at hdel
              obtain ⟨hok, -, -⟩ := hdel
              have hs2 : ({ s2 with folders := s2.folders.filter (fun x => x.id != fid) }
                  : DBState) = s1 := by
                injection hok
              intro x hx
              rw [← hs2] at hx
              have hx2 : x ∈ s2.folders := List.mem_of_mem_filter hx
              exact contentsDel_sub (s.folders.length + 1) s b fid s2 rb rev hr x hx2
          | false =>
            rw [if_neg (by simp)] at hdel
            by_cases hne : (s.files.any (fun f => f.folder_id == some fid) ||
                s.folders.any (fun x => x.parent == some fid)) = true
            · rw [if_pos hne] at hdel
              exact absurd hdel (by simp)
            · rw [if_neg hne] at hdel
              rw [Prod.mk.injEq, Prod.mk.injEq] at hdel
              obtain ⟨hok, -, -⟩ := hdel
              have hs2 : ({ s with folders := s.folders.filter (fun x => x.id != fid) }
                  : DBState) = s1 := by
                injection hok
              intro x hx
              rw [← hs2] at hx
              exact List.mem_of_mem_filter hx
    intro g hgf
    have hgmem : g ∈ s1.folders := findFolder_mem hgf
    have hgid : g.id = i := findFolder_id hgf
    have hgs : g ∈ s.folders := hsub g hgmem
    cases hfi : findFolder s i with
    | none =>
      rw [parentOf, hfi] at hpp
      simp at hpp
    | some g0 =>
      have hg0p : g0.parent = some pp := by
        rw [parentOf, hfi] at hpp
        simpa using hpp
      have hgg0 : findFolder s g.id = some g := findFolder_of_mem hnd hgs
      rw [hgid, hfi] at hgg0
      have hgg : g0 = g := Option.some_inj.mp hgg0
      rw [← hgg, hg0p]
      simp

/-- Closed witness for `claim_C10_parent_frame`: a rename with null
parent_id keeps both parent pointers; creating folder 3 under folder 1
keeps folder 2's parent; a move payload never nulls it; deleting empty
folder 3 leaves folder 2's parent intact. -/
theorem claim_C10_parent_frame_witness :
    (∀ x, parentOf { folders := [{ id := 1, name := "a", parent := none, created_by := 7 },
                                 { id := 2, name := "c", parent := some 1, created_by := 7 }],
                     files := [] } x
        = parentOf { folders := [{ id := 1, name := "a", parent := none, created_by := 7 },
                                 { id := 2, name := "b", parent := some 1, created_by := 7 }],
                     files := [] } x)
    ∧ parentOf { folders := [{ id := 1, name := "a", parent := none, created_by := 7 },
                             { id := 2, name := "b", parent := some 1, created_by := 7 },
                             { id := 3, name := "z", parent := some 1, created_by := 7 }],
                 files := [] } 2 = some 1
    ∧ parentOf { folders := [{ id := 1, name := "a", parent := none, created_by := 7 },
                             { id := 2, name := "b", parent := some 1, created_by := 7 }],
                 files := [] } 2 ≠ none
    ∧ (∀ g, findFolder { folders := [{ id := 1, name := "a", parent := none, created_by := 7 },
                                     { id := 2, name := "b", parent := some 1, created_by := 7 }],
                         files := [] } 2 = some g → g.parent ≠ none) := by
  refine ⟨?_, ?_, ?_, ?_⟩
  · exact claim_C10_parent_frame.1 { user_id := 7, is_admin := false }
      { folders := [{ id := 1, name := "a", parent := none, created_by := 7 },
                    { id := 2, name := "b", parent := some 1, created_by := 7 }],
        files := [] }
      2 { name := some "c", parent_id := none } _ rfl rfl
  · exact claim_C10_parent_frame.2.1 { user_id := 7, is_admin := false }
      { folders := [{ id := 1, name := "a", parent := none, created_by := 7 },
                    { id := 2, name := "b", parent := some 1, created_by := 7 }],
        files := [] }
      { name := "z", parent_id := some 1 } 7 3 _ 2 1 rfl rfl
  · exact claim_C10_parent_frame.2.2.1 { user_id := 7, is_admin := false }
      { folders := [{ id := 1, name := "a", parent := none, created_by := 7 },
                    { id := 2, name := "b", parent := some 1, created_by := 7 }],
        files := [] }
      2 { name := none, parent_id := some 1 } _ 2 1 rfl rfl
  · exact claim_C10_parent_frame.2.2.2 { user_id := 7, is_admin := false }
      { folders := [{ id := 1, name := "a", parent := none, created_by := 7 },
                    { id := 2, name := "b", parent := some 1, created_by := 7 },
                    { id := 3, name := "c", parent := none, created_by := 7 }],
        files := [] }
      { objects := [], failing := [] } 3 false
      { folders := [{ id := 1, name := "a", parent := none, created_by := 7 },
                    { id := 2, name := "b", parent := some 1, created_by := 7 }],
        files := [] }
      { objects := [], failing := [] } [Ev.folderDel 3] 2 1 (by decide) rfl rfl

end FileDock
